import Mathlib

/-!
# Credit-risk scoring pipeline (`src/evaluation/creditrisk`)

Shallow embedding of the scoring core of the repository and proofs of the
properties its specification states.

Conventions of the embedding

* C++ `double` values are exact rationals (`ℚ`) in the scoring core: rounding,
  overflow and the values NaN and infinity as *inputs* are outside this part
  of the model.  The one `double` operation of the scoring code that is not
  total on the rationals, the division computing the debt-to-income ratio,
  returns an explicit IEEE-754 outcome (`DoubleQuot`), so a zero divisor is
  modelled as the code behaves.
* The properties that depend on a NaN, on an infinity or on rounding are
  settled on the binary64 model `IEEE754.Double` below.
* C++ `int` values are `Int`; the scoring code only compares `age` and
  converts it to `double`, so no wrap-around can occur.
* `std::string` is `String`, `std::vector` is `List`, `std::set` is a list used
  through membership only, `std::map` and `std::unordered_map` are association
  lists used through key lookup only.
* Output on `std::cerr` or `std::cout` is returned as a list of lines.
-/

/-!
# Values of type `double` (IEEE 754 binary64)

The claims that depend on the values NaN and infinity or on the rounding of
`double` operations are settled on this model.  A finite value is a rational
number; the results of the arithmetic operations are rounded to binary64 with
`round` (round to nearest, ties to even, overflow to infinity).  A zero is not
signed: it stands for +0, which is the zero that `x - x` and a literal `0.0`
produce.
-/

namespace IEEE754

/-- Values of the C++ type `double`. -/
inductive Double where
  | finite (q : ℚ)
  | posInf
  | negInf
  | nan
deriving DecidableEq

namespace Double

/-- Rounding of a rational to the nearest integer, ties to the even one. -/
def roundHalfEven (x : ℚ) : Int :=
  if x - ⌊x⌋ < 1 / 2 then ⌊x⌋
  else if 1 / 2 < x - ⌊x⌋ then ⌊x⌋ + 1
  else if ⌊x⌋ % 2 = 0 then ⌊x⌋
  else ⌊x⌋ + 1

/-- Exponent of the binade of `q`: the largest `e` with `2 ^ e ≤ |q|`, and
-1022, the exponent of the subnormal numbers, below `2 ^ (-1022)`. -/
def binade (q : ℚ) : Int :=
  max (Int.log 2 |q|) (-1022)

/-- Rounding of a rational to binary64: to the nearest multiple of
`2 ^ (binade q - 52)`, the spacing of the numbers with 53 significant bits,
ties to the even multiple; a result of magnitude `2 ^ 1024` or more is an
infinity. -/
def round (q : ℚ) : Double :=
  let v : ℚ := roundHalfEven (q / 2 ^ (binade q - 52)) * 2 ^ (binade q - 52)
  if (2 : ℚ) ^ (1024 : Int) ≤ |v| then (if 0 < q then posInf else negInf) else finite v

/-- A value that binary64 represents: rounding leaves it as it is. -/
def IsBinary64 : Double → Prop
  | finite q => round q = finite q
  | _ => True

/-- Negation. -/
def neg : Double → Double
  | finite a => finite (-a)
  | posInf => negInf
  | negInf => posInf
  | nan => nan

/-- Addition `x + y` of two `double` values. -/
def add : Double → Double → Double
  | finite a, finite b => round (a + b)
  | finite _, posInf => posInf
  | finite _, negInf => negInf
  | posInf, finite _ => posInf
  | posInf, posInf => posInf
  | posInf, negInf => nan
  | negInf, finite _ => negInf
  | negInf, negInf => negInf
  | negInf, posInf => nan
  | nan, _ => nan
  | _, nan => nan

/-- Subtraction `x - y` of two `double` values. -/
def sub (x y : Double) : Double :=
  add x (neg y)

/-- Multiplication `x * y` of two `double` values. -/
def mul : Double → Double → Double
  | finite a, finite b => round (a * b)
  | finite a, posInf => if a = 0 then nan else if 0 < a then posInf else negInf
  | finite a, negInf => if a = 0 then nan else if 0 < a then negInf else posInf
  | posInf, finite b => if b = 0 then nan else if 0 < b then posInf else negInf
  | negInf, finite b => if b = 0 then nan else if 0 < b then negInf else posInf
  | posInf, posInf => posInf
  | posInf, negInf => negInf
  | negInf, posInf => negInf
  | negInf, negInf => posInf
  | nan, _ => nan
  | _, nan => nan

/-- Division `x / y` of two `double` values; a zero divisor is +0. -/
def div : Double → Double → Double
  | finite a, finite b =>
    if b = 0 then (if a = 0 then nan else if 0 < a then posInf else negInf)
    else round (a / b)
  | finite _, posInf => finite 0
  | finite _, negInf => finite 0
  | posInf, finite b => if 0 ≤ b then posInf else negInf
  | negInf, finite b => if 0 ≤ b then negInf else posInf
  | posInf, posInf => nan
  | posInf, negInf => nan
  | negInf, posInf => nan
  | negInf, negInf => nan
  | nan, _ => nan
  | _, nan => nan

/-- Model of the C library function `pow(x, y)` for an exponent `y` that is
the value of an `int`.  The special cases are those of Annex F of the C
standard: `pow(x, 0)` is 1 and `pow(1, y)` is 1 for every `x` and `y`.  On
the other finite arguments the library returns an approximation of the
power; the model takes the rounded exact power. -/
def pow (x : Double) (n : Int) : Double :=
  if n = 0 then finite 1
  else
    match x with
    | finite a =>
      if a = 1 then finite 1
      else if a = 0 then (if n < 0 then posInf else finite 0)
      else round (a ^ n)
    | posInf => if 0 < n then posInf else finite 0
    | negInf => if 0 < n then (if n % 2 = 0 then posInf else negInf) else finite 0
    | nan => nan

/-- Comparison `x < y` of two `double` values; false when one is NaN. -/
def lt : Double → Double → Bool
  | finite a, finite b => a < b
  | finite _, posInf => true
  | finite _, negInf => false
  | posInf, _ => false
  | negInf, finite _ => true
  | negInf, posInf => true
  | negInf, negInf => false
  | negInf, nan => false
  | nan, _ => false
  | finite _, nan => false

/-- Comparison `x <= y` of two `double` values; false when one is NaN. -/
def le : Double → Double → Bool
  | finite a, finite b => a ≤ b
  | finite _, posInf => true
  | finite _, negInf => false
  | posInf, posInf => true
  | posInf, finite _ => false
  | posInf, negInf => false
  | posInf, nan => false
  | negInf, finite _ => true
  | negInf, posInf => true
  | negInf, negInf => true
  | negInf, nan => false
  | nan, _ => false
  | finite _, nan => false

instance : Zero Double := ⟨finite 0⟩
instance : One Double := ⟨finite 1⟩
instance : Neg Double := ⟨neg⟩
instance : Add Double := ⟨add⟩
instance : Sub Double := ⟨sub⟩
instance : Mul Double := ⟨mul⟩
instance : Div Double := ⟨div⟩
instance : HPow Double Int Double := ⟨pow⟩
instance : LT Double := ⟨fun x y => lt x y = true⟩
instance : LE Double := ⟨fun x y => le x y = true⟩
instance (x y : Double) : Decidable (x < y) := inferInstanceAs (Decidable (lt x y = true))
instance (x y : Double) : Decidable (x ≤ y) := inferInstanceAs (Decidable (le x y = true))

/-- A decimal literal of type `double`: the rounded value of the decimal. -/
instance : OfScientific Double :=
  ⟨fun m s e => round (OfScientific.ofScientific m s e : ℚ)⟩

end Double

end IEEE754

/-!
# Credit-risk scoring (`src/evaluation/creditrisk`)
-/

namespace CreditRisk

/-! ## Data model -/

/-- Record `ClientProfile` of `clientprofile.h`. -/
structure ClientProfile where
  clientId : String
  name : String
  country : String
  clientType : String
  age : Int
  income : ℚ
  employment : String
  industry : String
  debt : ℚ
  calculatedScore : ℚ := 0.0
deriving DecidableEq

/-- Class `ScoreWeights` of `scoreweights.h`: its only member is the map
`weights` from factor name to weight. -/
structure ScoreWeights where
  weights : List (String × ℚ) := []
deriving DecidableEq

/-- Method `ScoreWeights::setWeight`: `weights[factorName] = weight`, which
overwrites the entry of an existing key and inserts a missing one. -/
def ScoreWeights.setWeight (sw : ScoreWeights) (factorName : String) (weight : ℚ) :
    ScoreWeights :=
  ⟨(factorName, weight) :: sw.weights.filter (fun p => p.1 != factorName)⟩

/-- Method `ScoreWeights::getWeight`: the stored weight, `0.0` for a name
that `find` does not locate. -/
def ScoreWeights.getWeight (sw : ScoreWeights) (factorName : String) : ℚ :=
  match sw.weights.lookup factorName with
  | some w => w
  | none => 0.0

/-- Static method `ScoreWeights::defaultWeights`. -/
def ScoreWeights.defaultWeights : ScoreWeights :=
  let sw : ScoreWeights := {}
  let sw := sw.setWeight "age" 0.1
  let sw := sw.setWeight "income" 0.3
  let sw := sw.setWeight "employment" 0.2
  let sw := sw.setWeight "industry" 0.2
  let sw := sw.setWeight "debt" 0.2
  sw

/-! ## Arithmetic helpers of the C++ standard library -/

/-- Outcome of the `double` division of two finite operands under IEEE-754:
a finite quotient, or an infinity or NaN when the divisor is zero. -/
inductive DoubleQuot where
  | finite (q : ℚ)
  | posInf
  | negInf
  | nan
deriving DecidableEq

/-- Division `a / b` of two finite `double` values. -/
def divDouble (a b : ℚ) : DoubleQuot :=
  if b = 0 then
    if 0 < a then DoubleQuot.posInf
    else if a < 0 then DoubleQuot.negInf
    else DoubleQuot.nan
  else DoubleQuot.finite (a / b)

/-- Comparison `x <= c` of a division outcome with a finite constant: false
for NaN, as every ordered comparison with NaN is. -/
def DoubleQuot.le (x : DoubleQuot) (c : ℚ) : Bool :=
  match x with
  | DoubleQuot.finite q => decide (q ≤ c)
  | DoubleQuot.posInf => false
  | DoubleQuot.negInf => true
  | DoubleQuot.nan => false

/-- Function `std::clamp(v, lo, hi)`: `(v < lo) ? lo : (hi < v) ? hi : v`. -/
def clamp (v lo hi : ℚ) : ℚ :=
  if v < lo then lo else if hi < v then hi else v

/-! ## Score engine (`creditRiskScoring.cpp`, lines 82-127) -/

/-- Static local `stableEmployment` of `calculateScore`. -/
def stableEmployment : List String := ["permanent", "self-employed"]

/-- Static local `safeIndustries` of `calculateScore`. -/
def safeIndustries : List String := ["finance", "it", "pharma"]

/-- Static local `countryRisk` of `calculateScore`. -/
def countryRisk : List (String × ℚ) :=
  [("AT", 1.0), ("DE", 0.95), ("GR", 0.7), ("US", 1.0), ("BR", 0.6)]

/-- Function `ScoreEngine::calculateScore`; every `let score` is one statement
of the source that updates the local `score`. -/
def calculateScore (client : ClientProfile) (weights : ScoreWeights) : ℚ :=
  let score : ℚ := 0.0
  -- Age: scaled between 18-75, ideal around 45
  let score :=
    if client.age ≥ 18 ∧ client.age ≤ 75 then
      let ageScore : ℚ := 1.0 - |45.0 - (client.age : ℚ)| / 45.0
      score + weights.getWeight "age" * ageScore
    else score
  -- Income: full weight above threshold
  let score :=
    if client.income ≥ 30000 then score + weights.getWeight "income" else score
  -- Employment type: stable jobs
  let score :=
    if client.employment ∈ stableEmployment then score + weights.getWeight "employment"
    else score
  -- Industry type: safe industries
  let score :=
    if client.industry ∈ safeIndustries then score + weights.getWeight "industry"
    else score
  -- Debt-to-income ratio
  let dti := divDouble client.debt (client.income + 1.0)
  let score :=
    if dti.le 0.25 then score + weights.getWeight "debt"
    else if dti.le 0.5 then score + weights.getWeight "debt" * 0.5
    else score
  -- Penalties
  let score := if client.debt > 50000 then score - 0.1 else score
  let score := if client.age < 21 ∨ client.age > 75 then score - 0.05 else score
  -- Country-specific adjustment
  let score :=
    match countryRisk.lookup client.country with
    | some factor => score * factor
    | none => score
  clamp score 0.0 1.0

/-- Value of the local `score` of `calculateScore` when the penalties have
been subtracted and the country adjustment has not yet been applied
(`creditRiskScoring.cpp`, lines 83-116). -/
def preCountryScore (client : ClientProfile) (weights : ScoreWeights) : ℚ :=
  let score : ℚ := 0.0
  let score :=
    if client.age ≥ 18 ∧ client.age ≤ 75 then
      let ageScore : ℚ := 1.0 - |45.0 - (client.age : ℚ)| / 45.0
      score + weights.getWeight "age" * ageScore
    else score
  let score :=
    if client.income ≥ 30000 then score + weights.getWeight "income" else score
  let score :=
    if client.employment ∈ stableEmployment then score + weights.getWeight "employment"
    else score
  let score :=
    if client.industry ∈ safeIndustries then score + weights.getWeight "industry"
    else score
  let dti := divDouble client.debt (client.income + 1.0)
  let score :=
    if dti.le 0.25 then score + weights.getWeight "debt"
    else if dti.le 0.5 then score + weights.getWeight "debt" * 0.5
    else score
  let score := if client.debt > 50000 then score - 0.1 else score
  let score := if client.age < 21 ∨ client.age > 75 then score - 0.05 else score
  score

/-- Amount that the age block of `calculateScore` (lines 85-89) adds to the
local `score` for a client of the given age. -/
def ageContribution (weights : ScoreWeights) (age : Int) : ℚ :=
  if age ≥ 18 ∧ age ≤ 75 then
    let ageScore : ℚ := 1.0 - |45.0 - (age : ℚ)| / 45.0
    weights.getWeight "age" * ageScore
  else 0

/-! ## Rating mapper (`riskrating.h`) -/

/-- Method `RiskRatingMapper::getRating`. -/
def getRating (score : ℚ) : String :=
  if score ≥ 0.85 then "AAA"
  else if score ≥ 0.70 then "AA"
  else if score ≥ 0.60 then "A"
  else if score ≥ 0.50 then "BBB"
  else if score ≥ 0.40 then "BB"
  else if score ≥ 0.30 then "B"
  else "D"

/-! ## Validation (`creditRiskScoring.cpp`, lines 46-70) -/

/-- Function `validateClientProfile`: the returned flag together with the
lines written to `std::cerr`. -/
def validateClientProfile (profile : ClientProfile) (row : Int) : Bool × List String :=
  let st : Bool × List String := (true, [])
  let st :=
    if profile.age ≤ 0 ∨ profile.age > 120 then
      (false, st.2 ++ ["Row " ++ toString row ++ ": Invalid age: " ++ toString profile.age])
    else st
  let st :=
    if profile.income < 0 then
      (false, st.2 ++ ["Row " ++ toString row ++ ": Negative income"])
    else st
  let st :=
    if profile.employment = "" ∨ profile.industry = "" then
      (false, st.2 ++ ["Row " ++ toString row ++ ": Missing employment or industry info"])
    else st
  let st :=
    if profile.debt < 0 then
      (false, st.2 ++ ["Row " ++ toString row ++ ": Negative debt"])
    else st
  st

/-! ## Pipeline (`main` of `creditRiskScoring.cpp`, lines 219-264) -/

/-- Locals of `main` that the scoring loop updates: the vector `results`, the
counter `row`, and the lines written to `std::cerr`. -/
structure LoopState where
  results : List (ClientProfile × String)
  row : Int
  cerr : List String

/-- One iteration of the loop `for (auto& client : clients)` of `main`
(lines 243-252). -/
def loopBody (weights : ScoreWeights) (st : LoopState) (client : ClientProfile) : LoopState :=
  let v := validateClientProfile client st.row
  let row := st.row + 1
  if !v.1 then
    { results := st.results, row := row,
      cerr := st.cerr ++ v.2 ++ ["Skipping invalid client entry."] }
  else
    let client := { client with calculatedScore := calculateScore client weights }
    let rating := getRating client.calculatedScore
    { results := st.results ++ [(client, rating)], row := row, cerr := st.cerr ++ v.2 }

/-- The scoring loop of `main` (lines 237-252), started with empty `results`
and `row = 1`. -/
def scoringLoop (clients : List ClientProfile) : LoopState :=
  let weights := ScoreWeights.defaultWeights
  clients.foldl (loopBody weights) { results := [], row := 1, cerr := [] }

/-- What a run of `main` does that is visible from outside: the exit code, the
lines on `std::cerr` and `std::cout`, and the arguments of the call of
`writeResultsToCSV` when there is one. -/
structure MainResult where
  exitCode : Int
  cerr : List String
  cout : List String
  written : Option (List (ClientProfile × String) × String)

/-- Function `main`.  The environment is given by parameters: `filename` is
`argv[1]`, `fileExists` is the result of `filesystem::exists`, `loadOk` and
`clients` are the return value and the output vector of
`loadClientProfilesFromCSV`, and `outFile` is the name that
`generateOutputFilename` produces.  What the loader itself writes to
`std::cerr` and the file that `writeResultsToCSV` creates are not modelled;
the call of the writer is recorded in `written`. -/
def main (argc : Int) (filename : String) (fileExists : Bool) (loadOk : Bool)
    (clients : List ClientProfile) (outFile : String) : MainResult :=
  if argc ≠ 2 then
    { exitCode := 1, cerr := ["Usage: creditRiskScoring <inputfile.csv>"], cout := [],
      written := none }
  else if !fileExists then
    { exitCode := 1, cerr := ["File not found: " ++ filename], cout := [], written := none }
  else if !loadOk then
    { exitCode := 1, cerr := ["Failed to load client data"], cout := [], written := none }
  else
    let st := scoringLoop clients
    if st.results = [] then
      { exitCode := 1, cerr := st.cerr ++ ["No valid entries to score."], cout := [],
        written := none }
    else
      { exitCode := 0, cerr := st.cerr,
        cout := ["Credit scoring complete. Output written to output/" ++ outFile],
        written := some (st.results, outFile) }

/-! ## The specification's formulas -/

/-- Strict comparison `c < x` of a finite constant with a division outcome. -/
def DoubleQuot.gt (x : DoubleQuot) (c : ℚ) : Bool :=
  match x with
  | DoubleQuot.finite q => decide (c < q)
  | DoubleQuot.posInf => true
  | DoubleQuot.negInf => false
  | DoubleQuot.nan => false

/-- Country factor `m` as the specification lists it: AT 1.00, DE 0.95,
GR 0.70, US 1.00, BR 0.60, and 1 for any other country. -/
def specCountryFactor (country : String) : ℚ :=
  if country = "AT" then 1.00
  else if country = "DE" then 0.95
  else if country = "GR" then 0.70
  else if country = "US" then 1.00
  else if country = "BR" then 0.60
  else 1

/-- Score formula of the specification:
`clamp(m * (A + I + E + N + D - P1 - P2), 0, 1)`. -/
def specScore (r : ClientProfile) (w : ScoreWeights) : ℚ :=
  let A := if 18 ≤ r.age ∧ r.age ≤ 75 then
    w.getWeight "age" * (1 - |45 - (r.age : ℚ)| / 45) else 0
  let I := if r.income ≥ 30000 then w.getWeight "income" else 0
  let E := if r.employment = "permanent" ∨ r.employment = "self-employed" then
    w.getWeight "employment" else 0
  let N := if r.industry = "finance" ∨ r.industry = "it" ∨ r.industry = "pharma" then
    w.getWeight "industry" else 0
  let dti := divDouble r.debt (r.income + 1)
  let D := if dti.le 0.25 then w.getWeight "debt"
    else if dti.gt 0.25 ∧ dti.le 0.5 then w.getWeight "debt" / 2
    else 0
  let P1 : ℚ := if r.debt > 50000 then 0.1 else 0
  let P2 : ℚ := if r.age < 21 ∨ r.age > 75 then 0.05 else 0
  let m := specCountryFactor r.country
  max 0 (min (m * (A + I + E + N + D - P1 - P2)) 1)

/-- Ordered threshold table of the rating classifier in the specification. -/
def ratingThresholds : List (ℚ × String) :=
  [(0.85, "AAA"), (0.70, "AA"), (0.60, "A"), (0.50, "BBB"), (0.40, "BB"), (0.30, "B")]

/-- Classifier of the specification: the label of the first threshold that
the score reaches, `D` when it reaches none. -/
def classifySpec (s : ℚ) : String :=
  match ratingThresholds.find? (fun t => decide (s ≥ t.1)) with
  | some t => t.2
  | none => "D"

/-- Rating labels from worst to best. -/
def ratingOrder : List String := ["D", "B", "BB", "BBB", "A", "AA", "AAA"]

/-- Quality of a rating label: its position in `ratingOrder`. -/
def ratingQuality (label : String) : Nat := ratingOrder.indexOf label

/-- Scored result that the pipeline stores for a record: the record with
`calculatedScore` set, paired with the rating of that score. -/
def scoredResult (c : ClientProfile) : ClientProfile × String :=
  ({ c with calculatedScore := calculateScore c ScoreWeights.defaultWeights },
    getRating (calculateScore c ScoreWeights.defaultWeights))

/-! ## Input loader (`creditRiskScoring.cpp`, lines 166-212) -/

/-- Strings that successive calls `std::getline(stream, x, delim)` deliver on a
stream whose unread characters are the given list, `cur` being the characters
of the current field read so far in reverse order: a field ends at each
delimiter, the characters after the last delimiter form a final field when
there are any, and the call that finds no character at all fails. -/
def getlinesAux (delim : Char) (cur : List Char) : List Char → List String
  | [] => if cur = [] then [] else [String.mk cur.reverse]
  | c :: cs =>
    if c = delim then String.mk cur.reverse :: getlinesAux delim [] cs
    else getlinesAux delim (c :: cur) cs

/-- Strings that successive calls `std::getline(stream, x, delim)` deliver on a
stream that holds the text `s`, until a call fails. -/
def getlines (delim : Char) (s : String) : List String :=
  getlinesAux delim [] s.toList

/-- Outcome of `loadClientProfilesFromCSV`: the returned flag, the vector
`out` as the call leaves it, and the lines written to `std::cerr`. -/
structure LoadResult where
  ok : Bool
  out : List ClientProfile
  cerr : List String

/-- The loop `while (std::getline(file, line))` of `loadClientProfilesFromCSV`
(lines 176-211) on the data rows that remain, followed by the final
`return !out.empty()`.  The conversions `std::stoi` and `std::stod` of the
standard library are parameters; `none` stands for a thrown exception. -/
def loadRows (stoi : String → Option Int) (stod : String → Option ℚ) :
    List String → List ClientProfile → LoadResult
  | [], out => { ok := !out.isEmpty, out := out, cerr := [] }
  | line :: rest, out =>
    match getlines ',' line with
    | id :: name :: country :: type :: ageStr :: incomeStr :: employment :: industry
        :: debtStr :: _ =>
      match stoi ageStr, stod incomeStr, stod debtStr with
      | some age, some income, some debt =>
        let client : ClientProfile :=
          { clientId := id, name := name, country := country, clientType := type,
            age := age, income := income, employment := employment, industry := industry,
            debt := debt }
        loadRows stoi stod rest (out ++ [client])
      | _, _, _ => { ok := false, out := out, cerr := ["Parsing failed for row: " ++ line] }
    | _ => { ok := false, out := out, cerr := ["Invalid row: " ++ line] }

/-- Data rows of a file: its lines without the header line. -/
def dataRows (content : String) : List String :=
  (getlines '\n' content).tail

/-- Function `loadClientProfilesFromCSV`.  The file is given by its content,
`none` when it cannot be opened; `out` is the vector passed by reference. -/
def loadClientProfilesFromCSV (stoi : String → Option Int) (stod : String → Option ℚ)
    (filename : String) (file : Option String) (out : List ClientProfile) : LoadResult :=
  match file with
  | none => { ok := false, out := out, cerr := ["Could not open input file: " ++ filename] }
  | some content => loadRows stoi stod (dataRows content) out

/-- Value of a string of decimal digits, `none` when a character is not a
digit; `acc` is the value of the digits read so far. -/
def digitsValue (acc : Nat) : List Char → Option Nat
  | [] => some acc
  | c :: cs => if c.isDigit then digitsValue (acc * 10 + (c.toNat - 48)) cs else none

/-- Conversion `std::stoi` on the strings that consist of decimal digits only.
The standard function accepts more (leading blanks, a sign, a numeral followed
by other characters); this model reports every other string as an error and
serves to evaluate the loader on sample files. -/
def stoiDigits (s : String) : Option Int :=
  if s.toList = [] then none else (digitsValue 0 s.toList).map Int.ofNat

/-- Conversion `std::stod` on the strings that consist of decimal digits only,
under the same restriction as `stoiDigits`. -/
def stodDigits (s : String) : Option ℚ :=
  if s.toList = [] then none else (digitsValue 0 s.toList).map (fun n => (n : ℚ))

/-! ## Auxiliary notions of the claims -/

/-- Table obtained from `sw` by the calls `setWeight(name, weight)` for the
listed pairs, in order. -/
def ScoreWeights.setAll (sw : ScoreWeights) (sets : List (String × ℚ)) : ScoreWeights :=
  sets.foldl (fun t p => t.setWeight p.1 p.2) sw

/-- Record whose score is maximal apart from the debt penalty: every factor
block of `calculateScore` adds its full weight, the age penalty does not apply
and the country factor is 1. -/
def FullFactors (r : ClientProfile) (w : ScoreWeights) : Prop :=
  ageContribution w r.age = w.getWeight "age"
  ∧ r.income ≥ 30000
  ∧ r.employment ∈ stableEmployment
  ∧ r.industry ∈ safeIndustries
  ∧ (divDouble r.debt (r.income + 1.0)).le 0.25 = true
  ∧ ¬ (r.age < 21 ∨ r.age > 75)
  ∧ specCountryFactor r.country = 1

/-! ## Sample records -/

/-- Helper `makeClient` of `test_creditRiskScoring.cpp`. -/
def makeClient (id : String) (age : Int) (income : ℚ) (emp : String) (industry : String)
    (debt : ℚ) (country : String := "AT") : ClientProfile :=
  { clientId := id, name := "Test Client", country := country, clientType := "retail",
    age := age, income := income, employment := emp, industry := industry, debt := debt }

/-- Record of the test `CalculatesHighScoreCorrectly`. -/
def highScoreClient : ClientProfile :=
  makeClient "C001" 45 100000 "permanent" "finance" 2000

/-- Record of the test `CalculatesLowScoreCorrectly`. -/
def lowScoreClient : ClientProfile :=
  makeClient "C003" 20 5000 "unemployed" "unknown" 30000

/-- Record with the invalid age -5. -/
def invalidAgeClient : ClientProfile :=
  makeClient "C900" (-5) 40000 "permanent" "it" 1000

/-- Record of the test `AppliesCountryAdjustment`. -/
def greekClient : ClientProfile :=
  makeClient "C004" 45 100000 "permanent" "finance" 2000 "GR"

/-- Record with a country code that the table `countryRisk` does not list. -/
def frenchClient : ClientProfile :=
  makeClient "C005" 45 100000 "permanent" "finance" 2000 "FR"

/-- Record with full factors and a debt above 50000. -/
def heavyDebtClient : ClientProfile :=
  makeClient "C006" 45 1000000 "permanent" "finance" 60000

/-- File whose only data row has three fields. -/
def shortRowFile : String :=
  "id,name,country,clientType,age,income,employment,industry,debt\nC001,Test Client,AT\n"

/-- File whose only data row has ten fields. -/
def longRowFile : String :=
  "id,name,country,clientType,age,income,employment,industry,debt\n" ++
  "C001,Test Client,AT,retail,45,100000,permanent,finance,2000,extra\n"

/-- Value of the local `score` of `calculateScore` when the country adjustment
has been applied and the clamp has not (`creditRiskScoring.cpp`, lines
83-124). -/
def countryAdjustedScore (client : ClientProfile) (weights : ScoreWeights) : ℚ :=
  match countryRisk.lookup client.country with
  | some factor => preCountryScore client weights * factor
  | none => preCountryScore client weights

/-! ## Validation on `double` values

The record and the validator once more, with the fields `income` and `debt`
as `double` values that may be a NaN or an infinity: the loader fills them
with `std::stod` (lines 200-203), which reads the texts `nan` and `inf`.  On
finite values this validator agrees with `CreditRisk.validateClientProfile`. -/

namespace Binary64

/-- Record `ClientProfile` of `clientprofile.h`. -/
structure ClientProfile where
  clientId : String
  name : String
  country : String
  clientType : String
  age : Int
  income : IEEE754.Double
  employment : String
  industry : String
  debt : IEEE754.Double
  calculatedScore : IEEE754.Double := 0.0
deriving DecidableEq

/-- Function `validateClientProfile` (`creditRiskScoring.cpp`, lines 46-70):
the returned flag together with the lines written to `std::cerr`. -/
def validateClientProfile (profile : ClientProfile) (row : Int) : Bool × List String :=
  let st : Bool × List String := (true, [])
  let st :=
    if profile.age ≤ 0 ∨ profile.age > 120 then
      (false, st.2 ++ ["Row " ++ toString row ++ ": Invalid age: " ++ toString profile.age])
    else st
  let st :=
    if profile.income < 0 then
      (false, st.2 ++ ["Row " ++ toString row ++ ": Negative income"])
    else st
  let st :=
    if profile.employment = "" ∨ profile.industry = "" then
      (false, st.2 ++ ["Row " ++ toString row ++ ": Missing employment or industry info"])
    else st
  let st :=
    if profile.debt < 0 then
      (false, st.2 ++ ["Row " ++ toString row ++ ": Negative debt"])
    else st
  st

/-- The record with the same fields and finite `double` values. -/
def ofRational (p : CreditRisk.ClientProfile) : ClientProfile :=
  { clientId := p.clientId, name := p.name, country := p.country, clientType := p.clientType,
    age := p.age, income := IEEE754.Double.finite p.income, employment := p.employment,
    industry := p.industry, debt := IEEE754.Double.finite p.debt,
    calculatedScore := IEEE754.Double.finite p.calculatedScore }

/-- Record of the row `C001,Test Client,AT,retail,45,nan,permanent,finance,2000`:
the high-score record with the income read from the text `nan`. -/
def nanIncomeClient : ClientProfile :=
  { clientId := "C001", name := "Test Client", country := "AT", clientType := "retail",
    age := 45, income := IEEE754.Double.nan, employment := "permanent", industry := "finance",
    debt := IEEE754.Double.finite 2000 }

end Binary64

end CreditRisk

/-!
# Risk-weighted assets (`src/evaluation/rwa`)
-/

namespace RWA

/-- Class `RiskWeightTable` of `riskweights.h`: its only member is the map
`table` from asset class to the map from rating to risk weight. -/
structure RiskWeightTable where
  table : List (String × List (String × ℚ)) := []

/-- Assignment `t.table[assetClass] = entries`, which replaces the map of an
existing asset class and inserts a missing one. -/
def RiskWeightTable.assign (t : RiskWeightTable) (assetClass : String)
    (entries : List (String × ℚ)) : RiskWeightTable :=
  ⟨t.table.filter (fun p => p.1 != assetClass) ++ [(assetClass, entries)]⟩

/-- Static method `RiskWeightTable::defaultTable` (`calculateRWA.cpp`, lines
81-102). -/
def RiskWeightTable.defaultTable : RiskWeightTable :=
  let t : RiskWeightTable := {}
  let t := t.assign "corporate"
    [("AAA", 0.2), ("AA", 0.25), ("A", 0.3), ("BBB", 0.5),
      ("BB", 0.75), ("B", 1.0), ("CCC", 1.5), ("D", 1.5)]
  let t := t.assign "sovereign"
    [("AAA", 0.0), ("AA", 0.2), ("A", 0.3), ("BBB", 0.5),
      ("BB", 1.0), ("B", 1.5), ("D", 1.5)]
  let t := t.assign "mortgage"
    [("AAA", 0.5), ("AA", 0.5), ("A", 0.5), ("BBB", 0.75),
      ("BB", 1.0), ("D", 1.5)]
  let t := t.assign "retail"
    [("A", 0.75), ("B", 0.75), ("D", 1.5)]
  let t := t.assign "securitization"
    [("AAA", 0.2), ("AA", 0.5), ("A", 1.0), ("BBB", 1.0), ("D", 1.5)]
  t

/-- Method `RiskWeightTable::getRiskWeight` (`calculateRWA.cpp`, lines
104-111). -/
def RiskWeightTable.getRiskWeight (t : RiskWeightTable) (assetClass rating : String) : ℚ :=
  match t.table.lookup assetClass with
  | some cls =>
    match cls.lookup rating with
    | some r => r
    | none => 1.0 -- Default
  | none => 1.0 -- Default

/-! ## The listed risk weights -/

/-- The pairs of asset class and rating that the default table lists, each
with its risk weight. -/
def listedRiskWeights : List ((String × String) × ℚ) :=
  [(("corporate", "AAA"), 0.2), (("corporate", "AA"), 0.25), (("corporate", "A"), 0.3),
    (("corporate", "BBB"), 0.5), (("corporate", "BB"), 0.75), (("corporate", "B"), 1.0),
    (("corporate", "CCC"), 1.5), (("corporate", "D"), 1.5),
    (("sovereign", "AAA"), 0.0), (("sovereign", "AA"), 0.2), (("sovereign", "A"), 0.3),
    (("sovereign", "BBB"), 0.5), (("sovereign", "BB"), 1.0), (("sovereign", "B"), 1.5),
    (("sovereign", "D"), 1.5),
    (("mortgage", "AAA"), 0.5), (("mortgage", "AA"), 0.5), (("mortgage", "A"), 0.5),
    (("mortgage", "BBB"), 0.75), (("mortgage", "BB"), 1.0), (("mortgage", "D"), 1.5),
    (("retail", "A"), 0.75), (("retail", "B"), 0.75), (("retail", "D"), 1.5),
    (("securitization", "AAA"), 0.2), (("securitization", "AA"), 0.5),
    (("securitization", "A"), 1.0), (("securitization", "BBB"), 1.0),
    (("securitization", "D"), 1.5)]

/-- Entries of a nested table as one list keyed by the pair of asset class
and rating. -/
def flattenTable : List (String × List (String × ℚ)) → List ((String × String) × ℚ)
  | [] => []
  | p :: t => p.2.map (fun q => ((p.1, q.1), q.2)) ++ flattenTable t

/-! ## Capital requirement and input loader (`calculateRWA.cpp`) -/

/-- Function `calculateCapitalRequirement` (`calculateRWA.cpp`, lines 121-123);
the parameter `country` is unnamed in the source and unused. -/
def calculateCapitalRequirement (rwa : ℚ) (_country : String) : ℚ :=
  rwa * 0.08 -- Simplified: 8% flat requirement

/-- Record `Exposure` of `exposuremodel.h`. -/
structure Exposure where
  year : Int
  assetClass : String
  rating : String
  exposureAmount : ℚ
  country : String
deriving DecidableEq

/-- Outcome of `loadExposuresFromCSV`: the returned flag, the vector
`exposures` as the call leaves it, and the lines written to `std::cerr`. -/
structure ExposureLoad where
  ok : Bool
  exposures : List Exposure
  cerr : List String

/-- The loop `while (std::getline(file, line))` of `loadExposuresFromCSV`
(lines 43-72) on the data rows that remain, followed by the final
`return !exposures.empty()`; `lineNumber` is the local counter.  The
conversions `std::stoi` and `std::stod` are parameters; `none` stands for a
thrown exception. -/
def loadExposureRows (stoi : String → Option Int) (stod : String → Option ℚ) :
    List String → Int → List Exposure → ExposureLoad
  | [], _, exposures => { ok := !exposures.isEmpty, exposures := exposures, cerr := [] }
  | line :: rest, lineNumber, exposures =>
    let lineNumber := lineNumber + 1
    match CreditRisk.getlines ',' line with
    | yearStr :: assetClass :: rating :: exposureStr :: country :: _ =>
      match stoi yearStr, stod exposureStr with
      | some year, some exposureAmount =>
        let exp : Exposure :=
          { year := year, assetClass := assetClass, rating := rating,
            exposureAmount := exposureAmount, country := country }
        loadExposureRows stoi stod rest lineNumber (exposures ++ [exp])
      | _, _ =>
        { ok := false, exposures := exposures,
          cerr := ["Invalid value format at line " ++ toString lineNumber ++ ": " ++ line] }
    | _ =>
      { ok := false, exposures := exposures,
        cerr := ["Invalid row structure at line " ++ toString lineNumber ++ ": " ++ line] }

/-- Function `loadExposuresFromCSV` (`calculateRWA.cpp`, lines 32-75).  The
file is given by its content, `none` when it cannot be opened; `exposures` is
the vector passed by reference. -/
def loadExposuresFromCSV (stoi : String → Option Int) (stod : String → Option ℚ)
    (file : Option String) (exposures : List Exposure) : ExposureLoad :=
  match file with
  | none => { ok := false, exposures := exposures, cerr := ["Failed to open file."] }
  | some content => loadExposureRows stoi stod (CreditRisk.dataRows content) 1 exposures

/-- Exposure that the loader makes of one data row, `none` when the row has a
missing field or a numeric field that does not convert. -/
def rowExposure (stoi : String → Option Int) (stod : String → Option ℚ) (line : String) :
    Option Exposure :=
  match CreditRisk.getlines ',' line with
  | yearStr :: assetClass :: rating :: exposureStr :: country :: _ =>
    match stoi yearStr, stod exposureStr with
    | some year, some exposureAmount =>
      some { year := year, assetClass := assetClass, rating := rating,
             exposureAmount := exposureAmount, country := country }
    | _, _ => none
  | _ => none

/-- File of the test `FailsOnMalformedLine`. -/
def malformedFile : String :=
  "Year,AssetClass,Rating,Exposure,Country\n2021,corporate,AA,asdfasdf,DE\n"

/-- File with one well-formed data row followed by a row without its last
field. -/
def lateFailureFile : String :=
  "Year,AssetClass,Rating,Exposure,Country\n2021,corporate,AA,1000000,DE\n2022,retail,A,200000,\n"

/-! ## Main loop (`main` of `calculateRWA.cpp`, lines 206-221) -/

/-- Record `ExposureResult` of `exposuremodel.h`. -/
structure ExposureResult where
  exposure : Exposure
  riskWeight : ℚ
  rwa : ℚ
  capitalRequirement : ℚ
deriving DecidableEq

/-- Function `calculateRWA` (`calculateRWA.cpp`, lines 117-119). -/
def calculateRWA (exposureAmount riskWeight : ℚ) : ℚ :=
  exposureAmount * riskWeight

/-- Line that the main loop writes to `std::cerr` for an exposure whose risk
weight equals 1.0. -/
def defaultWeightDiagnostic (exp : Exposure) : String :=
  "Default risk weight applied (100%) for asset class \x27" ++ exp.assetClass
    ++ "\x27, rating \x27" ++ exp.rating ++ "\x27"

/-- The loop `for (const auto& exp : exposures)` of `main` (lines 209-221) on
the exposures that remain: the results appended to `rwaResults` and the lines
written to `std::cerr`. -/
def resultLoop (weights : RiskWeightTable) :
    List Exposure → List ExposureResult × List String
  | [] => ([], [])
  | exp :: rest =>
    let riskWeight := weights.getRiskWeight exp.assetClass exp.rating
    let cerr := if riskWeight = 1.0 then [defaultWeightDiagnostic exp] else []
    let rwa := calculateRWA exp.exposureAmount riskWeight
    let capital := calculateCapitalRequirement rwa exp.country
    let tail := resultLoop weights rest
    ({ exposure := exp, riskWeight := riskWeight, rwa := rwa, capitalRequirement := capital }
        :: tail.1,
      cerr ++ tail.2)

/-- Exposure with the listed pair corporate/B, whose listed weight is 1.0. -/
def corporateBExposure : Exposure :=
  { year := 2024, assetClass := "corporate", rating := "B", exposureAmount := 1000,
    country := "DE" }

end RWA

/-!
# Loan amortization (`src/evaluation/amortization`)

The functions of this module and of the next one are written over an
arbitrary type `α` of `double` values with its arithmetic, so that what is
proved about the shape of their results (number and order of the entries,
fields copied or set to a constant) holds for every arithmetic, IEEE-754
included.  What is proved about computed values is proved for `α = ℚ`, under
hypotheses that exclude a division by zero.
-/

namespace Amortization

/-- Record `AmortizationEntry` of `amortization.h`. -/
structure AmortizationEntry (α : Type) where
  month : Int
  principal : α
  interest : α
  balance : α

/-- Class `LoanAmortizationCalculator` of `amortization.h` with its
constructor, which stores the three arguments. -/
structure LoanAmortizationCalculator (α : Type) where
  principal_ : α
  annualRate_ : α
  termMonths_ : Int

/-- The loop `for (int i = 1; i <= termMonths_; ++i)` of `calculateSchedule`
(lines 20-28), entered with the current values of `i` and `balance`. -/
def scheduleLoop {α : Type} [Sub α] [Mul α] [OfScientific α]
    (monthlyRate monthlyPayment : α) (termMonths : Int) (i : Int) (balance : α) :
    List (AmortizationEntry α) :=
  if i ≤ termMonths then
    let interest := balance * monthlyRate
    let principalPaid := monthlyPayment - interest
    let balance := balance - principalPaid
    let balance := if i = termMonths then 0.0 else balance -- Ensure last balance is zero
    { month := i, principal := principalPaid, interest := interest, balance := balance }
      :: scheduleLoop monthlyRate monthlyPayment termMonths (i + 1) balance
  else []
termination_by (termMonths + 1 - i).toNat
decreasing_by omega

/-- Method `LoanAmortizationCalculator::calculateSchedule`
(`loanAmortizationCalculator.cpp`, lines 13-31). -/
def LoanAmortizationCalculator.calculateSchedule {α : Type} [Add α] [Sub α] [Mul α] [Div α]
    [One α] [OfScientific α] [HPow α Int α] (c : LoanAmortizationCalculator α) :
    List (AmortizationEntry α) :=
  let monthlyRate := c.annualRate_ / 12.0 / 100.0
  let balance := c.principal_
  let monthlyPayment :=
    (c.principal_ * monthlyRate) / (1 - (1 + monthlyRate) ^ (-c.termMonths_))
  scheduleLoop monthlyRate monthlyPayment c.termMonths_ 1 balance

/-- Calculator of a loan of 1000 at the annual rate `1e-15` per cent over
`termMonths` months, with `double` fields; `readInputFromCSV` accepts these
values. -/
def tinyRateCalculator (termMonths : Int) : LoanAmortizationCalculator IEEE754.Double :=
  { principal_ := 1000.0, annualRate_ := 1e-15, termMonths_ := termMonths }

end Amortization

/-!
# Inflation-adjusted returns (`src/evaluation/inflationreturns`)
-/

namespace InflationReturns

/-- Record `ReturnData` of `returndata.h`. -/
structure ReturnData (α : Type) where
  year : Int
  nominalRate : α
  inflationRate : α

/-- Record `AdjustedReturn` of `calculations.h`. -/
structure AdjustedReturn (α : Type) where
  year : Int
  nominalRate : α
  inflationRate : α
  realRate : α
  accumulated : α

/-- The loop `for (const auto& entry : data)` of
`computeInflationAdjustedReturns` (lines 72-83) on the entries that remain,
entered with the current value of `accumulated`. -/
def adjustLoop {α : Type} [Add α] [Sub α] [Mul α] [Div α] [One α] (accumulated : α) :
    List (ReturnData α) → List (AdjustedReturn α)
  | [] => []
  | entry :: rest =>
    let real := (1 + entry.nominalRate) / (1 + entry.inflationRate) - 1
    let accumulated := accumulated * (1 + real)
    { year := entry.year, nominalRate := entry.nominalRate,
      inflationRate := entry.inflationRate, realRate := real,
      accumulated := accumulated - 1 }
      :: adjustLoop accumulated rest

/-- Function `computeInflationAdjustedReturns`
(`calculateInflationAdjustedReturns.cpp`, lines 68-86). -/
def computeInflationAdjustedReturns {α : Type} [Add α] [Sub α] [Mul α] [Div α] [One α]
    (data : List (ReturnData α)) : List (AdjustedReturn α) :=
  let accumulated : α := 1
  adjustLoop accumulated data

/-- Helper `makeData` of `test_calculateInflationAdjustedReturns.cpp`. -/
def makeData {α : Type} : List Int → List α → List α → List (ReturnData α)
  | y :: years, n :: nominal, i :: inflation =>
    { year := y, nominalRate := n, inflationRate := i } :: makeData years nominal inflation
  | _, _, _ => []

/-- Data of the test `HandlesInvalidYears`. -/
def invalidYearsData : List (ReturnData ℚ) :=
  makeData [-100, 0, 9999] [0.02, 0.03, 0.04] [0.01, 0.01, 0.01]

/-- Data of the test `HandlesMultipleYearsAccumulation`. -/
def multipleYearsData : List (ReturnData ℚ) :=
  makeData [2020, 2021, 2022] [0.05, 0.03, 0.04] [0.02, 0.01, 0.025]

/-! ## Input loader (`calculateInflationAdjustedReturns.cpp`, lines 19-60)

The rates are `double` values as `std::stod` returns them, a NaN or an
infinity included. -/

/-- Condition of the semantic checks of `loadReturnDataFromCSV` (lines 45-47):
true when the row is rejected. -/
def semanticCheckFails (year : Int) (nominal inflation : IEEE754.Double) : Bool :=
  year < 1900 || year > 2100 ||
  nominal < -1.0 || nominal > 1.0 ||
  inflation < -1.0 || inflation > 1.0

/-- Ways in which a call of `loadReturnDataFromCSV` ends: it returns a flag,
or it ends the process through `std::exit(EXIT_FAILURE)`.  Both carry the
vector `out` as the call leaves it and the lines written to `std::cerr`. -/
inductive LoadOutcome where
  | returned (ok : Bool) (out : List (ReturnData IEEE754.Double)) (cerr : List String)
  | exited (out : List (ReturnData IEEE754.Double)) (cerr : List String)

/-- The vector `out` at the end of a call of `loadReturnDataFromCSV`. -/
def LoadOutcome.out : LoadOutcome → List (ReturnData IEEE754.Double)
  | LoadOutcome.returned _ out _ => out
  | LoadOutcome.exited out _ => out

/-- The loop `while (std::getline(file, line))` of `loadReturnDataFromCSV`
(lines 29-57) on the data rows that remain, followed by the final
`return !out.empty()`.  The conversions `std::stoi` and `std::stod` are
parameters; `none` stands for a thrown exception. -/
def loadReturnRows (stoi : String → Option Int) (stod : String → Option IEEE754.Double) :
    List String → List (ReturnData IEEE754.Double) → LoadOutcome
  | [], out => LoadOutcome.returned (!out.isEmpty) out []
  | line :: rest, out =>
    match CreditRisk.getlines ',' line with
    | yearStr :: nominalStr :: inflationStr :: _ =>
      match stoi yearStr, stod nominalStr, stod inflationStr with
      | some year, some nominal, some inflation =>
        -- Semantic checks
        if semanticCheckFails year nominal inflation then
          LoadOutcome.exited out ["Ungültige Werte in Zeile: " ++ line]
        else
          loadReturnRows stoi stod rest
            (out ++ [{ year := year, nominalRate := nominal, inflationRate := inflation }])
      | _, _, _ =>
        LoadOutcome.exited out ["Ungültige Zeile in CSV (Parsing-Fehler): " ++ line]
    | _ => LoadOutcome.exited out ["Strukturfehler in Zeile: " ++ line]

/-- Function `loadReturnDataFromCSV`.  The file is given by its content,
`none` when it cannot be opened; `out` is the vector passed by reference. -/
def loadReturnDataFromCSV (stoi : String → Option Int)
    (stod : String → Option IEEE754.Double) (filename : String) (file : Option String)
    (out : List (ReturnData IEEE754.Double)) : LoadOutcome :=
  match file with
  | none =>
    LoadOutcome.returned false out ["Datei konnte nicht geöffnet werden: " ++ filename]
  | some content => loadReturnRows stoi stod (CreditRisk.dataRows content) out

/-- Row with the year 2000, the nominal rate 0.05 and the inflation rate -1. -/
def fullDeflationRow : ReturnData IEEE754.Double :=
  { year := 2000, nominalRate := 0.05, inflationRate := -1.0 }

end InflationReturns

/-!
# Trading pairs (`src/evaluation/tradingpair`)
-/

namespace TradingPair

/-- Class `Waehrung` of `waehrung.h`: its only member is the set
`validPairs`. -/
structure Waehrung where
  validPairs : List String

/-- Constructor `Waehrung::Waehrung` (`isValidTradingPair.cpp`, lines 119-121). -/
def Waehrung.new : Waehrung :=
  { validPairs := ["EURUSD", "USDJPY", "GBPUSD", "AUDUSD", "USDCHF"] }

/-- Method `Waehrung::IsValidPair` (`isValidTradingPair.cpp`, lines 123-125). -/
def Waehrung.IsValidPair (w : Waehrung) (pair : String) : Bool :=
  w.validPairs.contains pair

/-! ## Dates (`datum.h`, `isValidTradingPair.cpp` lines 29-99)

A `std::string` is a list of characters; `int` is `Int` (the fields of a date
read from eight digits stay below 10000). -/

/-- Data members of the class `Datum` (`datum.h`). -/
structure Datum where
  tag : Int
  monat : Int
  jahr : Int
  format : Int
  valid : Bool
deriving DecidableEq, Repr

/-- Fields of the C library record `std::tm` that `Datum` writes or reads.
The fields `tm_hour`, `tm_min`, `tm_sec` and `tm_isdst` are zero in every
record that `Datum` passes to `mktime` (`std::tm tm = \x7b\x7d`). -/
structure Tm where
  tm_mday : Int
  tm_mon : Int
  tm_year : Int
  tm_wday : Int
deriving DecidableEq, Repr

/-- Leap years of the Gregorian calendar. -/
def isLeapYear (y : Int) : Bool :=
  y % 4 = 0 && (y % 100 != 0 || y % 400 = 0)

/-- Number of days of month `m` (1 to 12) of year `y` in the Gregorian
calendar. -/
def monthLength (y m : Int) : Int :=
  if m = 2 then (if isLeapYear y then 29 else 28)
  else if m = 4 ∨ m = 6 ∨ m = 9 ∨ m = 11 then 30
  else 31

/-- Number of days from 1 January 1970 to day `d` of month `m` (1 to 12) of
year `y`, counted in the Gregorian calendar; the count continues linearly in
`d` outside the month. -/
def daysFromCivil (y m d : Int) : Int :=
  let y1 := if m ≤ 2 then y - 1 else y
  let mp := if m ≤ 2 then m + 9 else m - 3
  365 * y1 + y1 / 4 - y1 / 100 + y1 / 400 + (153 * mp + 2) / 5 + d - 719469

/-- Day of the week of a date, 0 for Sunday to 6 for Saturday; 1 January 1970
was a Thursday. -/
def weekday (y m d : Int) : Int :=
  (daysFromCivil y m d + 4) % 7

/-- Normalisation of a day of the month that lies outside its month `m` (1 to
12) of year `y`: days before the first are counted back from the end of the
month before, days after the last are counted on into the month after. -/
def carryDay (y m d : Int) : Int × Int × Int :=
  if d < 1 then
    let y1 := if m = 1 then y - 1 else y
    let m1 := if m = 1 then 12 else m - 1
    carryDay y1 m1 (d + monthLength y1 m1)
  else if monthLength y m < d then
    carryDay (if m = 12 then y + 1 else y) (if m = 12 then 1 else m + 1) (d - monthLength y m)
  else
    (y, m, d)
termination_by (if d < 1 then 32 - d else d).toNat
decreasing_by
  all_goals simp only [monthLength] at *
  all_goals split_ifs at * <;> omega

/-- Time zone of the process, the environment of `std::mktime`.  A moment is
given in seconds from 1 January 1970 0:00 on the standard clock of the zone,
the clock that `tm_isdst = 0` names.  `stdOffset` gives the seconds by which
the standard clock is ahead of UTC at a moment, `saving` the seconds by which
the clock in force is ahead of the standard clock: 0 outside daylight saving
time, 3600 during an ordinary daylight saving time, -3600 where the clock in
force is an hour behind the standard clock. -/
structure TimeZone where
  stdOffset : Int → Int
  saving : Int → Int

/-- The zone UTC. -/
def TimeZone.utc : TimeZone :=
  { stdOffset := fun _ => 0, saving := fun _ => 0 }

/-- A zone on the days on which its clock is one hour behind its standard
clock, which is one hour ahead of UTC: Europe/Dublin from the last Sunday of
October to the last Sunday of March (the standard time of the zone is Irish
Standard Time), Africa/Casablanca during Ramadan. -/
def TimeZone.hourBehind : TimeZone :=
  { stdOffset := fun _ => 3600, saving := fun _ => -3600 }

/-- A zone whose clock in force is never behind its standard clock and less
than a day ahead of it, and in which no midnight of the standard clock is
the second before 1 January 1970 0:00 UTC. -/
def TimeZone.ClockNotBehind (zone : TimeZone) : Prop :=
  (∀ s, 0 ≤ zone.saving s ∧ zone.saving s < 86400)
  ∧ ∀ n : Int, n * 86400 - zone.stdOffset (n * 86400) ≠ -1

/-- Model of the C library function `std::mktime` on a record whose time of
day is zero and whose `tm_isdst` is zero, for a 64-bit `time_t`.  The fields
are forced into their ranges (first the month, carrying into the year, then
the day of the month) and name midnight of a day on the standard clock of
the zone.  The returned calendar time is this moment in seconds from 1
January 1970 0:00 UTC; the fields that `mktime` stores are those of the same
moment on the clock in force, with `tm_wday` set. -/
def mktime (zone : TimeZone) (tm : Tm) : Tm × Int :=
  let y := tm.tm_year + 1900 + tm.tm_mon / 12
  let m := tm.tm_mon % 12 + 1
  let std := carryDay y m tm.tm_mday
  let s := daysFromCivil std.1 std.2.1 std.2.2 * 86400
  let ymd := carryDay std.1 std.2.1 (std.2.2 + zone.saving s / 86400)
  ({ tm_mday := ymd.2.2, tm_mon := ymd.2.1 - 1, tm_year := ymd.1 - 1900,
     tm_wday := weekday ymd.1 ymd.2.1 ymd.2.2 },
    s - zone.stdOffset s)

/-- Value that `std::stoi` returns on a string of decimal digits. -/
def stoiDigits (cs : List Char) : Int :=
  cs.foldl (fun n c => 10 * n + ((c.toNat : Int) - 48)) 0

/-- Method `Datum::SetAktDatum` (lines 51-58); `ltm` is the local time that
`std::localtime` reports. -/
def Datum.SetAktDatum (self : Datum) (ltm : Tm) : Datum :=
  { self with tag := ltm.tm_mday, monat := ltm.tm_mon + 1, jahr := ltm.tm_year + 1900,
              valid := true }

/-- Constructor `Datum::Datum` (lines 29-31). -/
def Datum.new (ltm : Tm) : Datum :=
  Datum.SetAktDatum { tag := 1, monat := 1, jahr := 2000, format := 1, valid := false } ltm

/-- Method `Datum::SetDatum` (lines 33-49). On a string of eight decimal
digits `std::stoi` throws no exception, so the `catch` branch is never
taken. -/
def Datum.SetDatum (self : Datum) (strDatum : String) : Datum :=
  if strDatum.length ≠ 8 || !strDatum.toList.all Char.isDigit then
    { self with valid := false }
  else
    { self with
      jahr := stoiDigits (strDatum.toList.take 4)
      monat := stoiDigits ((strDatum.toList.drop 4).take 2)
      tag := stoiDigits ((strDatum.toList.drop 6).take 2)
      valid := true }

/-- Method `Datum::CheckDatum` (lines 64-80), in the time zone `zone`. -/
def Datum.CheckDatum (self : Datum) (zone : TimeZone) : Int :=
  if !self.valid then 1
  else if self.jahr < 1900 || self.monat < 1 || self.monat > 12 || self.tag < 1
      || self.tag > 31 then 1
  else
    let r := mktime zone { tm_mday := self.tag, tm_mon := self.monat - 1,
                           tm_year := self.jahr - 1900, tm_wday := 0 }
    if r.2 = -1 then 1
    else if r.1.tm_mday = self.tag ∧ r.1.tm_mon + 1 = self.monat
        ∧ r.1.tm_year + 1900 = self.jahr then 0
    else 1

/-- Method `Datum::IsWeekend` (lines 82-89), in the time zone `zone`. -/
def Datum.IsWeekend (self : Datum) (zone : TimeZone) : Bool :=
  let r := mktime zone { tm_mday := self.tag, tm_mon := self.monat - 1,
                         tm_year := self.jahr - 1900, tm_wday := 0 }
  r.1.tm_wday = 0 || r.1.tm_wday = 6

/-- The list `feiertage` of `Datum::IsBoersentag` (line 97). -/
def feiertage : List String := ["0101", "2512"]

/-- The string `ddmm` of `Datum::IsBoersentag` (lines 95-96). -/
def Datum.ddmm (self : Datum) : String :=
  (if self.tag < 10 then "0" else "") ++ toString self.tag ++
    (if self.monat < 10 then "0" else "") ++ toString self.monat

/-- Method `Datum::IsBoersentag` (lines 91-99), in the time zone `zone`. -/
def Datum.IsBoersentag (self : Datum) (zone : TimeZone) : Bool :=
  if !self.valid then false
  else if self.IsWeekend zone then false
  else !feiertage.contains self.ddmm

/-- Year, month and day that a string of eight digits `YYYYMMDD` names. -/
def dateFields (s : String) : Int × Int × Int :=
  (stoiDigits (s.toList.take 4), stoiDigits ((s.toList.drop 4).take 2),
    stoiDigits ((s.toList.drop 6).take 2))

/-- Statement of the specification: `s` consists of exactly eight decimal
digits. -/
def isEightDigits (s : String) : Bool :=
  s.length = 8 && s.toList.all Char.isDigit

/-- Statement of the specification: `s` consists of exactly eight decimal
digits `YYYYMMDD` that denote an existing date of the Gregorian calendar,
the month in 1 to 12 and the day within the length of the month. -/
def denotesCalendarDate (s : String) : Bool :=
  isEightDigits s
    && 1 ≤ (dateFields s).2.1 && (dateFields s).2.1 ≤ 12
    && 1 ≤ (dateFields s).2.2
    && (dateFields s).2.2 ≤ monthLength (dateFields s).1 (dateFields s).2.1

/-- Statement of the specification: `s` denotes an existing date of the
Gregorian calendar with a year from 1900 on. -/
def denotesExistingDate (s : String) : Bool :=
  denotesCalendarDate s && 1900 ≤ (dateFields s).1

/-- Local time 3 April 2025, at which the sample dates are constructed. -/
def sampleNow : Tm :=
  { tm_mday := 3, tm_mon := 3, tm_year := 125, tm_wday := 4 }

end TradingPair

namespace Banking

/-! ## Bank accounts (`bankingsystem.cpp`)

The values of type `double` are exact rationals. The text written to
`std::cout` is left out. The reading of the clock that `getCurrentTime`
returns is a parameter `now` of every function that logs a transaction. -/

/-- Exceptions thrown by the member functions of `BankAccount`. -/
inductive Exception
  | invalid_argument (what : String)
  | runtime_error (what : String)
deriving DecidableEq, Repr

/-- Record `Transaction` (lines 31-42). -/
structure Transaction where
  transactionID : Int
  type : String
  amount : ℚ
  timestamp : String
  description : String
deriving DecidableEq

/-- Data members of the class `BankAccount` (lines 46-52). -/
structure BankAccount where
  accountNumber : Int
  accountHolder : String
  balance : ℚ
  interestRate : ℚ
  transactionHistory : List Transaction
  nextTransactionID : Int
deriving DecidableEq

/-- Member function `logTransaction` (lines 55-57). -/
def BankAccount.logTransaction (self : BankAccount) (type : String) (amount : ℚ)
    (description now : String) : BankAccount :=
  { self with
    transactionHistory := self.transactionHistory ++
      [{ transactionID := self.nextTransactionID, type := type, amount := amount,
         timestamp := now, description := description }]
    nextTransactionID := self.nextTransactionID + 1 }

/-- Member function `deposit` (lines 89-97): the account after the call and
the exception thrown, if any. -/
def BankAccount.deposit (self : BankAccount) (amount : ℚ) (description now : String) :
    BankAccount × Option Exception :=
  if amount ≤ 0 then
    (self, some (.invalid_argument "Deposit amount must be positive."))
  else
    (({ self with balance := self.balance + amount }).logTransaction "Deposit" amount
      description now, none)

/-- Member function `withdraw` (lines 100-111): the account after the call
and the exception thrown, if any. -/
def BankAccount.withdraw (self : BankAccount) (amount : ℚ) (description now : String) :
    BankAccount × Option Exception :=
  if amount ≤ 0 then
    (self, some (.invalid_argument "Withdrawal amount must be positive."))
  else if self.balance < amount then
    (self, some (.runtime_error "Insufficient funds for withdrawal."))
  else
    (({ self with balance := self.balance - amount }).logTransaction "Withdrawal" amount
      description now, none)

/-- Member function `applyMonthlyInterest` (lines 132-138). -/
def BankAccount.applyMonthlyInterest (self : BankAccount) (now : String) : BankAccount :=
  let interest := self.balance * (self.interestRate / 100.0) / 12.0
  ({ self with balance := self.balance + interest }).logTransaction "Interest" interest
    "Monthly interest applied" now

/-- Constructor of `BankAccount` (lines 61-69): the constructed account, or
the exception that leaves no object behind. -/
def BankAccount.new (accNum : Int) (holder : String) (initialDeposit rate : ℚ)
    (now : String) : Except Exception BankAccount :=
  let self : BankAccount :=
    { accountNumber := accNum, accountHolder := holder, balance := 0.0, interestRate := rate,
      transactionHistory := [], nextTransactionID := 1 }
  if initialDeposit < 0 then
    .error (.invalid_argument "Initial deposit cannot be negative.")
  else if initialDeposit > 0 then
    match self.deposit initialDeposit "Initial deposit" now with
    | (self1, none) => .ok self1
    | (_, some e) => .error e
  else
    .ok self

/-- Member function `transfer` (lines 115-128) on the objects of the program,
held in a list and named by position, so that the sender and the receiver may
be the same object: the objects after the call and the exception thrown, if
any. `now1` and `now2` are the readings of the clock at the two logged
transactions. A position outside the list names no object and leaves the
list as it is. -/
def transfer (heap : List BankAccount) (self toAccount : Nat) (amount : ℚ)
    (now1 now2 : String) : List BankAccount × Option Exception :=
  match heap[self]?, heap[toAccount]? with
  | some sender, some receiver =>
    if amount ≤ 0 then
      (heap, some (.invalid_argument "Transfer amount must be positive."))
    else if sender.balance < amount then
      (heap, some (.runtime_error "Insufficient funds for transfer."))
    else
      match sender.withdraw amount
          ("Transfer to account " ++ toString receiver.accountNumber) now1 with
      | (sender1, some e) => (heap.set self sender1, some e)
      | (sender1, none) =>
        let heap1 := heap.set self sender1
        match heap1[toAccount]? with
        | some receiver1 =>
          let r := receiver1.deposit amount
            ("Transfer from account " ++ toString sender1.accountNumber) now2
          (heap1.set toAccount r.1, r.2)
        | none => (heap1, none)
  | _, _ => (heap, none)

/-- A call of a member function on one of the objects of the program. -/
inductive Call
  | deposit (account : Nat) (amount : ℚ) (description now : String)
  | withdraw (account : Nat) (amount : ℚ) (description now : String)
  | transfer (account toAccount : Nat) (amount : ℚ) (now1 now2 : String)
  | applyMonthlyInterest (account : Nat) (now : String)

/-- Effect of one call on the objects of the program; an exception thrown by
the call is caught by the caller and the objects stay as the call left
them. -/
def Call.run (heap : List BankAccount) : Call → List BankAccount
  | .deposit account amount description now =>
    match heap[account]? with
    | some a => heap.set account (a.deposit amount description now).1
    | none => heap
  | .withdraw account amount description now =>
    match heap[account]? with
    | some a => heap.set account (a.withdraw amount description now).1
    | none => heap
  | .transfer account toAccount amount now1 now2 =>
    (Banking.transfer heap account toAccount amount now1 now2).1
  | .applyMonthlyInterest account now =>
    match heap[account]? with
    | some a => heap.set account (a.applyMonthlyInterest now)
    | none => heap

/-- Effect of a sequence of calls, in order. -/
def runCalls (heap : List BankAccount) (calls : List Call) : List BankAccount :=
  calls.foldl Call.run heap

/-- The calls of `main` (lines 222-227) on the two accounts it creates. -/
def mainCalls : List Call :=
  [.deposit 0 1500.0 "Deposit" "t1", .withdraw 1 500.0 "Withdrawal" "t2",
    .transfer 0 1 2000.0 "t3" "t4", .applyMonthlyInterest 0 "t5",
    .applyMonthlyInterest 1 "t6"]

end Banking

/-! ## Theorems -/

namespace IEEE754

namespace Double

/-! ### Rounding to binary64 -/

/-- An integer is rounded to itself. -/
theorem roundHalfEven_intCast (n : Int) : roundHalfEven (n : ℚ) = n := by
  unfold roundHalfEven
  simp

/-- Rounding to an integer does not go below an integer lower bound. -/
theorem le_roundHalfEven (n : Int) (x : ℚ) (h : (n : ℚ) ≤ x) : n ≤ roundHalfEven x := by
  have hf : n ≤ ⌊x⌋ := Int.le_floor.mpr h
  unfold roundHalfEven
  split_ifs <;> omega

/-- Rounding to an integer does not go above an integer upper bound. -/
theorem roundHalfEven_le (n : Int) (x : ℚ) (h : x ≤ (n : ℚ)) : roundHalfEven x ≤ n := by
  have hfl : (⌊x⌋ : ℚ) ≤ x := Int.floor_le x
  by_cases hx : x = (⌊x⌋ : ℚ)
  · have h0 : x - ⌊x⌋ < 1 / 2 := by rw [← hx]; norm_num
    have hle : ⌊x⌋ ≤ n := by
      have : ((⌊x⌋ : Int) : ℚ) ≤ (n : ℚ) := le_trans hfl h
      exact_mod_cast this
    unfold roundHalfEven
    rw [if_pos h0]
    exact hle
  · have hlt : (⌊x⌋ : ℚ) < x := lt_of_le_of_ne hfl (fun e => hx e.symm)
    have hlt2 : ((⌊x⌋ : Int) : ℚ) < (n : ℚ) := lt_of_lt_of_le hlt h
    have hlt3 : ⌊x⌋ < n := by exact_mod_cast hlt2
    unfold roundHalfEven
    split_ifs <;> omega

/-- The binade of a number between two consecutive powers of two. -/
theorem binade_eq (q : ℚ) (k : Int) (hk : -1022 ≤ k) (h1 : (2 : ℚ) ^ k ≤ |q|)
    (h2 : |q| < (2 : ℚ) ^ (k + 1)) : binade q = k := by
  have hpos : 0 < |q| := lt_of_lt_of_le (zpow_pos (by norm_num) k) h1
  have hlog : Int.log 2 |q| = k := by
    apply le_antisymm
    · have := (Int.lt_zpow_iff_log_lt (b := 2) (by norm_num) hpos (x := k + 1)).mp
        (by exact_mod_cast h2)
      omega
    · exact (Int.zpow_le_iff_le_log (b := 2) (by norm_num) hpos).mp (by exact_mod_cast h1)
  unfold binade
  rw [hlog]
  exact max_eq_left hk

/-- The binade is at least -1022, the largest power of two below a positive
number from `2 ^ (-1022)` on is at most the number, and the number is below
the next power of two. -/
theorem binade_spec (q : ℚ) (hq : 0 < q) :
    -1022 ≤ binade q ∧ q < (2 : ℚ) ^ (binade q + 1)
    ∧ ((2 : ℚ) ^ (-1022 : Int) ≤ q → (2 : ℚ) ^ binade q ≤ q) := by
  have habs : |q| = q := abs_of_pos hq
  have hlt : q < (2 : ℚ) ^ (Int.log 2 q + 1) := by
    exact_mod_cast Int.lt_zpow_succ_log_self (b := 2) (by norm_num) q
  have hle : (2 : ℚ) ^ Int.log 2 q ≤ q := by
    exact_mod_cast Int.zpow_log_le_self (b := 2) (by norm_num) hq
  unfold binade
  rw [habs]
  refine ⟨le_max_right _ _, ?_, ?_⟩
  · refine lt_of_lt_of_le hlt ?_
    exact zpow_le_zpow_right₀ (by norm_num) (by have := le_max_left (Int.log 2 q) (-1022); omega)
  · intro hb
    have hl : -1022 ≤ Int.log 2 q :=
      (Int.zpow_le_iff_le_log (b := 2) (by norm_num) hq).mp (by exact_mod_cast hb)
    rw [max_eq_left hl]
    exact hle

/-- The binade of a positive number that is at most `2 ^ k` is at most `k`. -/
theorem binade_le (q : ℚ) (k : Int) (hq : 0 < q) (hk : -1022 ≤ k) (h : q ≤ (2 : ℚ) ^ k) :
    binade q ≤ k := by
  have habs : |q| = q := abs_of_pos hq
  have hlt : q < (2 : ℚ) ^ (k + 1) :=
    lt_of_le_of_lt h (zpow_lt_zpow_right₀ (by norm_num) (by omega))
  have hlog : Int.log 2 q < k + 1 :=
    (Int.lt_zpow_iff_log_lt (b := 2) (by norm_num) hq).mp (by exact_mod_cast hlt)
  unfold binade
  rw [habs]
  exact max_le (by omega) hk

/-- Zero is rounded to zero. -/
theorem round_zero : round 0 = finite 0 := by
  have h : ¬ ((2 : ℚ) ^ (1024 : Int) ≤ 0) := not_le.mpr (zpow_pos (by norm_num) _)
  simp [round, roundHalfEven, h]

/-- A number between two powers of two of the range of the normal numbers is
rounded to a finite value between the same powers. -/
theorem round_between (a b : Int) (q : ℚ) (ha : -1022 ≤ a) (hb : b ≤ 1023)
    (h1 : (2 : ℚ) ^ a ≤ q) (h2 : q ≤ (2 : ℚ) ^ b) :
    ∃ v, round q = finite v ∧ (2 : ℚ) ^ a ≤ v ∧ v ≤ (2 : ℚ) ^ b := by
  have hq : 0 < q := lt_of_lt_of_le (zpow_pos (by norm_num) a) h1
  obtain ⟨he, _, hlow⟩ := binade_spec q hq
  have hlow2 : (2 : ℚ) ^ binade q ≤ q :=
    hlow (le_trans (zpow_le_zpow_right₀ (by norm_num) ha) h1)
  have heb : binade q ≤ b := binade_le q b hq (by
    by_contra hc
    have : (2 : ℚ) ^ b < (2 : ℚ) ^ a := zpow_lt_zpow_right₀ (by norm_num) (by omega)
    linarith) h2
  have hae : a ≤ binade q := by
    by_contra hc
    have h3 : q < (2 : ℚ) ^ (binade q + 1) := (binade_spec q hq).2.1
    have : (2 : ℚ) ^ (binade q + 1) ≤ (2 : ℚ) ^ a :=
      zpow_le_zpow_right₀ (by norm_num) (by omega)
    linarith
  simp only [round]
  generalize binade q = e at *
  have hu : 0 < (2 : ℚ) ^ (e - 52) := zpow_pos (by norm_num) _
  have hsplit : (2 : ℚ) ^ e = (2 : ℚ) ^ (52 : Nat) * (2 : ℚ) ^ (e - 52) := by
    rw [← zpow_natCast, ← zpow_add₀ (by norm_num)]
    congr 1
    omega
  have hsplitb : (2 : ℚ) ^ b = (2 : ℚ) ^ (b - e + 52).toNat * (2 : ℚ) ^ (e - 52) := by
    rw [← zpow_natCast, ← zpow_add₀ (by norm_num)]
    congr 1
    rw [Int.toNat_of_nonneg (by omega)]
    omega
  have c1 : (((2 : Int) ^ (52 : Nat) : Int) : ℚ) = (2 : ℚ) ^ (52 : Nat) := by norm_cast
  have c2 : (((2 : Int) ^ (b - e + 52).toNat : Int) : ℚ) = (2 : ℚ) ^ (b - e + 52).toNat := by
    norm_cast
  have hr1 : (((2 : Int) ^ (52 : Nat) : Int) : ℚ) ≤ q / (2 : ℚ) ^ (e - 52) := by
    rw [le_div_iff₀ hu, c1, ← hsplit]
    exact hlow2
  have hr2 : q / (2 : ℚ) ^ (e - 52) ≤ (((2 : Int) ^ (b - e + 52).toNat : Int) : ℚ) := by
    rw [div_le_iff₀ hu, c2, ← hsplitb]
    exact h2
  have hn1 := le_roundHalfEven _ _ hr1
  have hn2 := roundHalfEven_le _ _ hr2
  have hv1 : (2 : ℚ) ^ e ≤ (roundHalfEven (q / (2 : ℚ) ^ (e - 52)) : ℚ) * (2 : ℚ) ^ (e - 52) := by
    rw [hsplit, ← c1]
    apply mul_le_mul_of_nonneg_right _ (le_of_lt hu)
    exact_mod_cast hn1
  have hv2 : (roundHalfEven (q / (2 : ℚ) ^ (e - 52)) : ℚ) * (2 : ℚ) ^ (e - 52) ≤ (2 : ℚ) ^ b := by
    rw [hsplitb, ← c2]
    apply mul_le_mul_of_nonneg_right _ (le_of_lt hu)
    exact_mod_cast hn2
  have hpe : 0 < (2 : ℚ) ^ e := zpow_pos (by norm_num) _
  have hfin : ¬ ((2 : ℚ) ^ (1024 : Int)
      ≤ |(roundHalfEven (q / (2 : ℚ) ^ (e - 52)) : ℚ) * (2 : ℚ) ^ (e - 52)|) := by
    rw [abs_of_pos (lt_of_lt_of_le hpe hv1), not_le]
    refine lt_of_le_of_lt hv2 ?_
    exact zpow_lt_zpow_right₀ (by norm_num) (by omega)
  refine ⟨(roundHalfEven (q / (2 : ℚ) ^ (e - 52)) : ℚ) * (2 : ℚ) ^ (e - 52), ?_, ?_, hv2⟩
  · rw [if_neg hfin]
  · exact le_trans (zpow_le_zpow_right₀ (by norm_num) hae) hv1

/-- A number from `2 ^ a` on, in the range of the normal numbers, is rounded
to a value from `2 ^ a` on, which may be the infinity. -/
theorem round_ge (a : Int) (q : ℚ) (ha : -1022 ≤ a) (h1 : (2 : ℚ) ^ a ≤ q) :
    le (finite ((2 : ℚ) ^ a)) (round q) = true := by
  have hq : 0 < q := lt_of_lt_of_le (zpow_pos (by norm_num) a) h1
  obtain ⟨he, hup, hlow⟩ := binade_spec q hq
  have hlow2 : (2 : ℚ) ^ binade q ≤ q :=
    hlow (le_trans (zpow_le_zpow_right₀ (by norm_num) ha) h1)
  have hae : a ≤ binade q := by
    by_contra hc
    have : (2 : ℚ) ^ (binade q + 1) ≤ (2 : ℚ) ^ a :=
      zpow_le_zpow_right₀ (by norm_num) (by omega)
    linarith
  simp only [round]
  generalize binade q = e at *
  have hu : 0 < (2 : ℚ) ^ (e - 52) := zpow_pos (by norm_num) _
  have hsplit : (2 : ℚ) ^ e = (2 : ℚ) ^ (52 : Nat) * (2 : ℚ) ^ (e - 52) := by
    rw [← zpow_natCast, ← zpow_add₀ (by norm_num)]
    congr 1
    omega
  have c1 : (((2 : Int) ^ (52 : Nat) : Int) : ℚ) = (2 : ℚ) ^ (52 : Nat) := by norm_cast
  have hr1 : (((2 : Int) ^ (52 : Nat) : Int) : ℚ) ≤ q / (2 : ℚ) ^ (e - 52) := by
    rw [le_div_iff₀ hu, c1, ← hsplit]
    exact hlow2
  have hn1 := le_roundHalfEven _ _ hr1
  have hv1 : (2 : ℚ) ^ e ≤ (roundHalfEven (q / (2 : ℚ) ^ (e - 52)) : ℚ) * (2 : ℚ) ^ (e - 52) := by
    rw [hsplit, ← c1]
    apply mul_le_mul_of_nonneg_right _ (le_of_lt hu)
    exact_mod_cast hn1
  have hva := le_trans (zpow_le_zpow_right₀ (a := (2 : ℚ)) (by norm_num) hae) hv1
  split_ifs
  · rfl
  · simpa [le] using hva

/-- A number from 1 up to, but excluding, `1 + 2 ^ (-53)` is rounded to 1. -/
theorem round_one_add_tiny (x : ℚ) (h1 : 1 ≤ x) (h2 : x < 1 + (2 : ℚ) ^ (-53 : Int)) :
    round x = finite 1 := by
  have hp : (2 : ℚ) ^ (-53 : Int) < 1 := zpow_lt_one_of_neg₀ (by norm_num) (by norm_num)
  have hb : binade x = 0 := by
    apply binade_eq x 0 (by norm_num)
    · rw [abs_of_pos (by linarith)]; simpa using h1
    · rw [abs_of_pos (by linarith)]
      norm_num
      linarith
  have hu : (2 : ℚ) ^ ((0 : Int) - 52) = 1 / (2 : ℚ) ^ (52 : Nat) := by
    rw [show ((0 : Int) - 52) = -((52 : Nat) : Int) by norm_num, zpow_neg, zpow_natCast]
    simp
  have h53 : (2 : ℚ) ^ (-53 : Int) = 1 / ((2 : ℚ) ^ (52 : Nat) * 2) := by
    rw [show (-53 : Int) = -((53 : Nat) : Int) by norm_num, zpow_neg, zpow_natCast, pow_succ]
    simp
  have hpos : (0 : ℚ) < (2 : ℚ) ^ (52 : Nat) := by positivity
  rw [h53] at h2
  have hmul : x * (2 : ℚ) ^ (52 : Nat) < (2 : ℚ) ^ (52 : Nat) + 1 / 2 := by
    have h3 : x * (2 : ℚ) ^ (52 : Nat)
        < (1 + 1 / ((2 : ℚ) ^ (52 : Nat) * 2)) * (2 : ℚ) ^ (52 : Nat) :=
      mul_lt_mul_of_pos_right h2 hpos
    have e : (1 + 1 / ((2 : ℚ) ^ (52 : Nat) * 2)) * (2 : ℚ) ^ (52 : Nat)
        = (2 : ℚ) ^ (52 : Nat) + 1 / 2 := by
      field_simp
      ring
    linarith
  have hmul1 : (2 : ℚ) ^ (52 : Nat) ≤ x * (2 : ℚ) ^ (52 : Nat) := by nlinarith
  have c1 : (((2 : Int) ^ (52 : Nat) : Int) : ℚ) = (2 : ℚ) ^ (52 : Nat) := by norm_cast
  have hdiv : x / (1 / (2 : ℚ) ^ (52 : Nat)) = x * (2 : ℚ) ^ (52 : Nat) := by
    rw [div_div_eq_mul_div, div_one]
  have hfl : ⌊x / (1 / (2 : ℚ) ^ (52 : Nat))⌋ = (2 : Int) ^ (52 : Nat) := by
    rw [Int.floor_eq_iff, hdiv, c1]
    constructor
    · exact hmul1
    · linarith
  have hfrac : x / (1 / (2 : ℚ) ^ (52 : Nat)) - (((2 : Int) ^ (52 : Nat) : Int) : ℚ) < 1 / 2 := by
    rw [hdiv, c1]
    linarith
  have hr : roundHalfEven (x / (1 / (2 : ℚ) ^ (52 : Nat))) = (2 : Int) ^ (52 : Nat) := by
    unfold roundHalfEven
    rw [hfl, if_pos hfrac]
  have hfin : ¬ ((2 : ℚ) ^ (1024 : Int) ≤ |(1 : ℚ)|) := by
    rw [abs_one, not_le]
    exact one_lt_zpow₀ (by norm_num) (by norm_num)
  have hv : (((2 : Int) ^ (52 : Nat) : Int) : ℚ) * (1 / (2 : ℚ) ^ (52 : Nat)) = 1 := by
    rw [c1]
    field_simp
  simp only [round, hb, hu, hr, hv]
  rw [if_neg hfin]

/-- A multiple of the spacing of its binade, below the overflow threshold, is
rounded to itself. -/
theorem round_eq_self (q : ℚ) (n : Int) (hq : q = (n : ℚ) * (2 : ℚ) ^ (binade q - 52))
    (hlt : |q| < (2 : ℚ) ^ (1024 : Int)) : round q = finite q := by
  have hu : 0 < (2 : ℚ) ^ (binade q - 52) := zpow_pos (by norm_num) _
  have hdiv : q / (2 : ℚ) ^ (binade q - 52) = (n : ℚ) := by
    rw [div_eq_iff (ne_of_gt hu)]
    exact hq
  simp only [round, hdiv, roundHalfEven_intCast, ← hq]
  rw [if_neg (not_le.mpr hlt)]

/-- A multiple of the spacing of the binade `k` that lies in this binade is
rounded to itself. -/
theorem round_eq_self_of_binade (q : ℚ) (k n : Int) (hk : -1022 ≤ k) (hk2 : k ≤ 1023)
    (h1 : (2 : ℚ) ^ k ≤ |q|) (h2 : |q| < (2 : ℚ) ^ (k + 1))
    (hq : q = (n : ℚ) * (2 : ℚ) ^ (k - 52)) : round q = finite q := by
  have hb := binade_eq q k hk h1 h2
  apply round_eq_self q n (by rw [hb]; exact hq)
  exact lt_of_lt_of_le h2 (zpow_le_zpow_right₀ (by norm_num) (by omega))

/-- The number 1 is a binary64 value. -/
theorem round_one : round 1 = finite 1 :=
  round_one_add_tiny 1 le_rfl (by linarith [zpow_pos (a := (2 : ℚ)) (by norm_num) (-53 : Int)])

/-- The number 12 is a binary64 value. -/
theorem round_twelve : round 12 = finite 12 := by
  apply round_eq_self_of_binade 12 3 (12 * 2 ^ 49) (by norm_num) (by norm_num)
  · norm_num
  · norm_num
  · norm_num [zpow_neg]

/-- The number 100 is a binary64 value. -/
theorem round_hundred : round 100 = finite 100 := by
  apply round_eq_self_of_binade 100 6 (100 * 2 ^ 46) (by norm_num) (by norm_num)
  · norm_num
  · norm_num
  · norm_num [zpow_neg]

/-- The number 1000 is a binary64 value. -/
theorem round_thousand : round 1000 = finite 1000 := by
  apply round_eq_self_of_binade 1000 9 (1000 * 2 ^ 43) (by norm_num) (by norm_num)
  · norm_num
  · norm_num
  · norm_num [zpow_neg]

/-- The literals `0.0`, `1.0`, `12.0` and `100.0` denote 0, 1, 12 and 100. -/
theorem literal_values :
    (0.0 : Double) = finite 0 ∧ (1.0 : Double) = finite 1 ∧ (12.0 : Double) = finite 12
    ∧ (100.0 : Double) = finite 100 := by
  refine ⟨?_, ?_, ?_, ?_⟩
  · show round (0.0 : ℚ) = _
    rw [show (0.0 : ℚ) = 0 by norm_num]
    exact round_zero
  · show round (1.0 : ℚ) = _
    rw [show (1.0 : ℚ) = 1 by norm_num]
    exact round_one
  · show round (12.0 : ℚ) = _
    rw [show (12.0 : ℚ) = 12 by norm_num]
    exact round_twelve
  · show round (100.0 : ℚ) = _
    rw [show (100.0 : ℚ) = 100 by norm_num]
    exact round_hundred

/-- For a binary64 value `q` above -1 and at most 1 the sum `1 + q` is not
rounded to zero. -/
theorem round_one_add_ne_zero (q : ℚ) (hrep : round q = finite q) (h1 : -1 < q) (h2 : q ≤ 1) :
    round (1 + q) ≠ finite 0 := by
  have key : ∀ x : ℚ, (2 : ℚ) ^ (-53 : Int) ≤ x → x ≤ (2 : ℚ) ^ (1 : Int) →
      round x ≠ finite 0 := by
    intro x hx1 hx2
    obtain ⟨v, hv, hva, _⟩ := round_between (-53) 1 x (by norm_num) (by norm_num) hx1 hx2
    rw [hv]
    intro hc
    have hv0 : v = 0 := by injection hc
    have := zpow_pos (a := (2 : ℚ)) (by norm_num) (-53 : Int)
    linarith
  have h53 : (2 : ℚ) ^ (-53 : Int) = 1 / (2 : ℚ) ^ (53 : Nat) := by
    rw [show (-53 : Int) = -((53 : Nat) : Int) by norm_num, zpow_neg, zpow_natCast]
    simp
  have hp53 : (0 : ℚ) < (2 : ℚ) ^ (53 : Nat) := by positivity
  have hsmall : (2 : ℚ) ^ (-53 : Int) ≤ 1 / 2 := by
    rw [h53]
    apply div_le_div_of_nonneg_left (by norm_num) (by norm_num)
    norm_num
  by_cases hhalf : -(1 / 2 : ℚ) ≤ q
  · apply key
    · exact le_trans hsmall (by linarith)
    · norm_num
      linarith
  · push_neg at hhalf
    have hb : binade q = -1 := by
      apply binade_eq q (-1) (by norm_num)
      · rw [abs_of_neg (by linarith)]
        norm_num
        linarith
      · rw [abs_of_neg (by linarith)]
        norm_num
        linarith
    have hfin : ∀ v : ℚ, (if (2 : ℚ) ^ (1024 : Int) ≤ |v| then
        (if 0 < q then posInf else negInf) else finite v) = finite q → v = q := by
      intro v hv
      split_ifs at hv
      injection hv
    have hq : (roundHalfEven (q / (2 : ℚ) ^ (binade q - 52)) : ℚ) * (2 : ℚ) ^ (binade q - 52)
        = q := hfin _ hrep
    rw [hb, show ((-1 : Int) - 52) = -53 by norm_num] at hq
    generalize roundHalfEven (q / (2 : ℚ) ^ (-53 : Int)) = n at hq
    rw [h53] at hq
    have hq2 : q = (n : ℚ) / (2 : ℚ) ^ (53 : Nat) := by
      rw [← hq]
      ring
    have hn : -((2 : Int) ^ (53 : Nat)) < n := by
      have : (-((2 : ℚ) ^ (53 : Nat))) < (n : ℚ) := by
        rw [hq2, lt_div_iff₀ hp53] at h1
        linarith
      exact_mod_cast this
    have hn1 : -((2 : Int) ^ (53 : Nat)) + 1 ≤ n := by omega
    have hn2 : (-((2 : ℚ) ^ (53 : Nat)) + 1) ≤ (n : ℚ) := by exact_mod_cast hn1
    apply key
    · have hsum : (1 : ℚ) + (n : ℚ) / (2 : ℚ) ^ (53 : Nat)
          = ((2 : ℚ) ^ (53 : Nat) + (n : ℚ)) / (2 : ℚ) ^ (53 : Nat) := by
        field_simp
      rw [h53, hq2, hsum]
      exact div_le_div_of_nonneg_right (by linarith) (le_of_lt hp53)
    · norm_num
      linarith

/-- The decimal 0.1 is rounded to `3602879701896397 / 2 ^ 55`, the binary64
number `0x3FB999999999999A`. -/
theorem round_tenth :
    round (1 / 10) = finite (3602879701896397 / 36028797018963968) := by
  have hb : binade (1 / 10) = -4 := by
    apply binade_eq (1 / 10) (-4) (by norm_num)
    · rw [abs_of_pos (by norm_num), show (-4 : Int) = -((4 : Nat) : Int) by norm_num, zpow_neg,
        zpow_natCast]
      norm_num
    · rw [abs_of_pos (by norm_num), show (-4 + 1 : Int) = -((3 : Nat) : Int) by norm_num,
        zpow_neg, zpow_natCast]
      norm_num
  have hu : (2 : ℚ) ^ ((-4 : Int) - 52) = 1 / 72057594037927936 := by
    rw [show ((-4 : Int) - 52) = -((56 : Nat) : Int) by norm_num, zpow_neg, zpow_natCast]
    norm_num
  have hdiv : (1 / 10 : ℚ) / (1 / 72057594037927936) = 36028797018963968 / 5 := by norm_num
  have hfl : ⌊(36028797018963968 / 5 : ℚ)⌋ = 7205759403792793 := by
    rw [Int.floor_eq_iff]
    constructor <;> norm_num
  have hr : roundHalfEven (36028797018963968 / 5) = 7205759403792794 := by
    unfold roundHalfEven
    rw [hfl]
    norm_num
  have h1024 : (1 : ℚ) < (2 : ℚ) ^ (1024 : Int) := one_lt_zpow₀ (by norm_num) (by norm_num)
  simp only [round, hb, hu, hdiv, hr]
  rw [if_neg]
  · norm_num
  · rw [not_le, abs_of_pos (by norm_num)]
    refine lt_trans ?_ h1024
    norm_num

/-- The binade depends on the magnitude only. -/
theorem binade_abs (q : ℚ) : binade |q| = binade q := by
  unfold binade
  rw [abs_abs]

/-- Every finite result of `round` is a binary64 value: rounding it again
leaves it as it is. -/
theorem round_isBinary64 (q : ℚ) : (round q).IsBinary64 := by
  by_cases hq0 : q = 0
  · rw [hq0, round_zero]
    exact round_zero
  have hqa : 0 < |q| := abs_pos.mpr hq0
  obtain ⟨he, hup, _⟩ := binade_spec |q| hqa
  rw [binade_abs] at he hup
  have hu : 0 < (2 : ℚ) ^ (binade q - 52) := zpow_pos (by norm_num) _
  have hsplit : (2 : ℚ) ^ (binade q + 1) = (2 : ℚ) ^ (53 : Nat) * (2 : ℚ) ^ (binade q - 52) := by
    rw [← zpow_natCast, ← zpow_add₀ (by norm_num)]
    congr 1
    push_cast
    ring
  have c1 : (((2 : Int) ^ (53 : Nat) : Int) : ℚ) = (2 : ℚ) ^ (53 : Nat) := by norm_cast
  have habs := abs_lt.mp hup
  have hr2 : q / (2 : ℚ) ^ (binade q - 52) ≤ (((2 : Int) ^ (53 : Nat) : Int) : ℚ) := by
    rw [div_le_iff₀ hu, c1, ← hsplit]
    exact le_of_lt habs.2
  have hr1 : ((-((2 : Int) ^ (53 : Nat)) : Int) : ℚ) ≤ q / (2 : ℚ) ^ (binade q - 52) := by
    rw [le_div_iff₀ hu, Int.cast_neg, c1, neg_mul, ← hsplit]
    exact le_of_lt habs.1
  have hn2 := roundHalfEven_le _ _ hr2
  have hn1 := le_roundHalfEven _ _ hr1
  simp only [round]
  generalize roundHalfEven (q / (2 : ℚ) ^ (binade q - 52)) = n at hn1 hn2
  generalize binade q = e at *
  split_ifs with hov
  · trivial
  · trivial
  · show round ((n : ℚ) * (2 : ℚ) ^ (e - 52)) = finite ((n : ℚ) * (2 : ℚ) ^ (e - 52))
    push_neg at hov
    by_cases hn0 : n = 0
    · rw [hn0]
      simp only [Int.cast_zero, zero_mul]
      exact round_zero
    have hvabs : |(n : ℚ) * (2 : ℚ) ^ (e - 52)| = (|n| : ℚ) * (2 : ℚ) ^ (e - 52) := by
      rw [abs_mul, abs_of_pos hu]
    have hnabs : |n| ≤ (2 : Int) ^ (53 : Nat) := abs_le.mpr ⟨hn1, hn2⟩
    have hnpos : 0 < |n| := abs_pos.mpr hn0
    have hvpos : 0 < |(n : ℚ) * (2 : ℚ) ^ (e - 52)| := by
      rw [hvabs]
      exact mul_pos (by exact_mod_cast hnpos) hu
    by_cases htop : |n| = (2 : Int) ^ (53 : Nat)
    · have hv : |(n : ℚ) * (2 : ℚ) ^ (e - 52)| = (2 : ℚ) ^ (e + 1) := by
        rw [hvabs, hsplit, ← c1]
        congr 1
        exact_mod_cast htop
      have hb : binade ((n : ℚ) * (2 : ℚ) ^ (e - 52)) = e + 1 := by
        apply binade_eq _ (e + 1) (by omega)
        · rw [hv]
        · rw [hv]
          exact zpow_lt_zpow_right₀ (by norm_num) (by omega)
      have hdvd : (2 : Int) ∣ n := by
        rcases abs_choice n with h | h
        · rw [h] at htop
          rw [htop]
          exact Dvd.intro_left (2 ^ 52) (by norm_num)
        · rw [h] at htop
          have : n = -((2 : Int) ^ (53 : Nat)) := by omega
          rw [this]
          exact Dvd.intro_left (-(2 ^ 52)) (by norm_num)
      obtain ⟨k, hk⟩ := hdvd
      apply round_eq_self _ k _ hov
      rw [hb, hk]
      push_cast
      rw [show e + 1 - 52 = (e - 52) + 1 by ring, zpow_add₀ (by norm_num), zpow_one]
      ring
    · have hlt : |n| < (2 : Int) ^ (53 : Nat) := lt_of_le_of_ne hnabs htop
      have hvlt : |(n : ℚ) * (2 : ℚ) ^ (e - 52)| < (2 : ℚ) ^ (e + 1) := by
        rw [hvabs, hsplit, ← c1]
        apply mul_lt_mul_of_pos_right _ hu
        exact_mod_cast hlt
      have hlog : Int.log 2 |(n : ℚ) * (2 : ℚ) ^ (e - 52)| < e + 1 :=
        (Int.lt_zpow_iff_log_lt (b := 2) (by norm_num) hvpos).mp (by exact_mod_cast hvlt)
      have hble : binade ((n : ℚ) * (2 : ℚ) ^ (e - 52)) ≤ e := by
        unfold binade
        exact max_le (by omega) he
      have hbge : -1022 ≤ binade ((n : ℚ) * (2 : ℚ) ^ (e - 52)) := le_max_right _ _
      apply round_eq_self _ (n * (2 : Int) ^ (e - binade ((n : ℚ) * (2 : ℚ) ^ (e - 52))).toNat)
        _ hov
      generalize binade ((n : ℚ) * (2 : ℚ) ^ (e - 52)) = e1 at hble hbge
      push_cast
      rw [mul_assoc]
      congr 1
      rw [← zpow_natCast, ← zpow_add₀ (by norm_num)]
      congr 1
      rw [Int.toNat_of_nonneg (by omega)]
      ring


end Double

end IEEE754

namespace CreditRisk

/-- The result of `std::clamp(v, 0.0, 1.0)` lies in the closed unit interval. -/
theorem clamp_unit_bounds (v : ℚ) : 0 ≤ clamp v 0.0 1.0 ∧ clamp v 0.0 1.0 ≤ 1 := by
  have e0 : (0.0 : ℚ) = 0 := by norm_num
  have e1 : (1.0 : ℚ) = 1 := by norm_num
  unfold clamp
  rw [e0, e1]
  split_ifs with h1 h2
  · exact ⟨le_refl 0, zero_le_one⟩
  · exact ⟨zero_le_one, le_refl 1⟩
  · exact ⟨not_lt.mp h1, not_lt.mp h2⟩

/-- C1: for every client profile and every weight table, `calculateScore`
returns a value `s` with `0 ≤ s ≤ 1`. -/
theorem calculateScore_in_unit_interval (client : ClientProfile) (weights : ScoreWeights) :
    0 ≤ calculateScore client weights ∧ calculateScore client weights ≤ 1 := by
  unfold calculateScore
  exact clamp_unit_bounds _

/-! ### Bridging lemmas: the pieces of `calculateScore` -/

/-- The clamp `std::clamp(v, 0.0, 1.0)` is `max 0 (min v 1)`. -/
theorem clamp_eq_max_min (v : ℚ) : clamp v 0.0 1.0 = max 0 (min v 1) := by
  unfold clamp
  norm_num
  split_ifs with h1 h2
  · rw [min_eq_left (by linarith), max_eq_left (by linarith)]
  · rw [min_eq_right (by linarith), max_eq_right (by norm_num)]
  · rw [min_eq_left (by linarith), max_eq_right (by linarith)]

/-- The country adjustment of `calculateScore` multiplies by the factor that
the specification lists: the table entry, and 1 for a country without one. -/
theorem countryRisk_adjust (country : String) (x : ℚ) :
    (match countryRisk.lookup country with
      | some factor => x * factor
      | none => x) = specCountryFactor country * x := by
  unfold countryRisk specCountryFactor
  by_cases h1 : country = "AT"
  · subst h1; simp [List.lookup]; norm_num
  by_cases h2 : country = "DE"
  · subst h2; simp [List.lookup]; norm_num; ring
  by_cases h3 : country = "GR"
  · subst h3; simp [List.lookup]; norm_num; ring
  by_cases h4 : country = "US"
  · subst h4; simp [List.lookup]; norm_num
  by_cases h5 : country = "BR"
  · subst h5; simp [List.lookup]; norm_num; ring
  simp [List.lookup, h1, h2, h3, h4, h5, beq_eq_false_iff_ne.mpr h1,
    beq_eq_false_iff_ne.mpr h2, beq_eq_false_iff_ne.mpr h3, beq_eq_false_iff_ne.mpr h4,
    beq_eq_false_iff_ne.mpr h5]

/-- The function `calculateScore` is the clamp of the country-adjusted
`preCountryScore`. -/
theorem calculateScore_eq_clamp (c : ClientProfile) (w : ScoreWeights) :
    calculateScore c w = clamp (specCountryFactor c.country * preCountryScore c w) 0.0 1.0 := by
  rw [← countryRisk_adjust c.country (preCountryScore c w)]
  rfl

/-- The value `preCountryScore` is the sum of what the five factor blocks add
minus the two penalties. -/
theorem preCountryScore_eq_sum (c : ClientProfile) (w : ScoreWeights) :
    preCountryScore c w =
      ageContribution w c.age
      + (if c.income ≥ 30000 then w.getWeight "income" else 0)
      + (if c.employment ∈ stableEmployment then w.getWeight "employment" else 0)
      + (if c.industry ∈ safeIndustries then w.getWeight "industry" else 0)
      + (if (divDouble c.debt (c.income + 1.0)).le 0.25 then w.getWeight "debt"
          else if (divDouble c.debt (c.income + 1.0)).le 0.5 then w.getWeight "debt" * 0.5
          else 0)
      - (if c.debt > 50000 then 0.1 else 0)
      - (if c.age < 21 ∨ c.age > 75 then 0.05 else 0) := by
  have step : ∀ (p : Prop) [Decidable p] (x a : ℚ),
      (if p then x + a else x) = x + (if p then a else 0) := by
    intro p _ x a; split_ifs <;> simp
  have stepSub : ∀ (p : Prop) [Decidable p] (x a : ℚ),
      (if p then x - a else x) = x - (if p then a else 0) := by
    intro p _ x a; split_ifs <;> simp
  have stepElse : ∀ (p : Prop) [Decidable p] (x a b : ℚ),
      (if p then x + a else x + b) = x + (if p then a else b) := by
    intro p _ x a b; split_ifs <;> rfl
  unfold preCountryScore ageContribution
  simp only [step, stepSub, stepElse]
  norm_num

/-- A ratio that is not at most 0.25 and is at most 0.5 is greater than 0.25. -/
theorem DoubleQuot.gt_quarter_of_le_half (x : DoubleQuot) (h1 : x.le 0.25 = false)
    (h2 : x.le 0.5 = true) : x.gt 0.25 = true := by
  cases x <;> simp_all [DoubleQuot.le, DoubleQuot.gt]

/-- C2: for every record and weight table, `calculateScore` equals the
formula of the specification, `clamp(m * (A + I + E + N + D - P1 - P2), 0, 1)`
with the factor terms, penalties and country factor as the specification
defines them. -/
theorem calculateScore_eq_specScore (r : ClientProfile) (w : ScoreWeights) :
    calculateScore r w = specScore r w := by
  rw [calculateScore_eq_clamp, clamp_eq_max_min, preCountryScore_eq_sum]
  unfold specScore ageContribution
  have hE : r.employment ∈ stableEmployment ↔
      (r.employment = "permanent" ∨ r.employment = "self-employed") := by
    simp [stableEmployment]
  have hN : r.industry ∈ safeIndustries ↔
      (r.industry = "finance" ∨ r.industry = "it" ∨ r.industry = "pharma") := by
    simp [safeIndustries]
  have hD : (if (divDouble r.debt (r.income + 1.0)).le 0.25 then w.getWeight "debt"
        else if (divDouble r.debt (r.income + 1.0)).le 0.5 then w.getWeight "debt" * 0.5
        else 0)
      = (if (divDouble r.debt (r.income + 1)).le 0.25 then w.getWeight "debt"
        else if (divDouble r.debt (r.income + 1)).gt 0.25 ∧ (divDouble r.debt (r.income + 1)).le 0.5
          then w.getWeight "debt" / 2
        else 0) := by
    have e : r.income + 1.0 = r.income + 1 := by norm_num
    rw [e]
    by_cases h1 : (divDouble r.debt (r.income + 1)).le 0.25 = true
    · simp [h1]
    · by_cases h2 : (divDouble r.debt (r.income + 1)).le 0.5 = true
      · have h3 := DoubleQuot.gt_quarter_of_le_half _ (by simpa using h1) h2
        simp [h1, h2, h3]; norm_num; ring
      · simp [h1, h2]
  rw [hD]
  simp only [hE, hN]
  norm_num

/-! ### Rating mapper -/

/-- C3: for every score `s`, `getRating s` is the label of the first
threshold reached in the order 0.85 AAA, 0.70 AA, 0.60 A, 0.50 BBB, 0.40 BB,
0.30 B, and `D` when none is reached; every `s > 1` maps to AAA and every
negative `s` to D; `getRating` maps 0.85 to AAA, 0.8499 to AA, 1.5 to AAA and
-0.1 to D. -/
theorem getRating_first_match (s : ℚ) :
    getRating s = classifySpec s
    ∧ (1 < s → getRating s = "AAA")
    ∧ (s < 0 → getRating s = "D")
    ∧ getRating 0.85 = "AAA" ∧ getRating 0.8499 = "AA"
    ∧ getRating 1.5 = "AAA" ∧ getRating (-0.1) = "D" := by
  refine ⟨?_, ?_, ?_, ?_, ?_, ?_, ?_⟩
  · unfold getRating classifySpec ratingThresholds
    split_ifs with h1 h2 h3 h4 h5 h6
    · simp only [List.find?, decide_eq_true h1]
    · simp only [List.find?, decide_eq_true h2, decide_eq_false h1]
    · simp only [List.find?, decide_eq_true h3, decide_eq_false h1, decide_eq_false h2]
    · simp only [List.find?, decide_eq_true h4, decide_eq_false h1, decide_eq_false h2,
        decide_eq_false h3]
    · simp only [List.find?, decide_eq_true h5, decide_eq_false h1, decide_eq_false h2,
        decide_eq_false h3, decide_eq_false h4]
    · simp only [List.find?, decide_eq_true h6, decide_eq_false h1, decide_eq_false h2,
        decide_eq_false h3, decide_eq_false h4, decide_eq_false h5]
    · simp only [List.find?, decide_eq_false h6, decide_eq_false h1, decide_eq_false h2,
        decide_eq_false h3, decide_eq_false h4, decide_eq_false h5]
  · intro h
    have h1 : s ≥ 0.85 := by norm_num; linarith
    simp [getRating, h1]
  · intro h
    unfold getRating
    split_ifs with h1 h2 h3 h4 h5 h6 <;> norm_num at * <;> linarith
  · norm_num [getRating]
  · norm_num [getRating]
  · norm_num [getRating]
  · norm_num [getRating]

/-- Witness of C3 at the scores 2 and -1. -/
theorem getRating_first_match_witness : getRating 2 = "AAA" ∧ getRating (-1) = "D" :=
  ⟨(getRating_first_match 2).2.1 (by norm_num), (getRating_first_match (-1)).2.2.1 (by norm_num)⟩

/-- Every label that `getRating` returns is one of the seven rating bands. -/
theorem getRating_mem_ratingOrder (s : ℚ) : getRating s ∈ ratingOrder := by
  unfold getRating ratingOrder
  split_ifs <;> simp

/-- Quality of the label `AAA`. -/
theorem ratingQuality_AAA : ratingQuality "AAA" = 6 := by decide

/-- Quality of the label `AA`. -/
theorem ratingQuality_AA : ratingQuality "AA" = 5 := by decide

/-- Quality of the label `A`. -/
theorem ratingQuality_A : ratingQuality "A" = 4 := by decide

/-- Quality of the label `BBB`. -/
theorem ratingQuality_BBB : ratingQuality "BBB" = 3 := by decide

/-- Quality of the label `BB`. -/
theorem ratingQuality_BB : ratingQuality "BB" = 2 := by decide

/-- Quality of the label `B`. -/
theorem ratingQuality_B : ratingQuality "B" = 1 := by decide

/-- Quality of the label `D`. -/
theorem ratingQuality_D : ratingQuality "D" = 0 := by decide

/-- Quality of the rating of a score, as a number from 0 (D) to 6 (AAA). -/
theorem ratingQuality_getRating (s : ℚ) :
    ratingQuality (getRating s) =
      if s ≥ 0.85 then 6 else if s ≥ 0.70 then 5 else if s ≥ 0.60 then 4
      else if s ≥ 0.50 then 3 else if s ≥ 0.40 then 2 else if s ≥ 0.30 then 1 else 0 := by
  unfold getRating
  split_ifs
  · exact ratingQuality_AAA
  · exact ratingQuality_AA
  · exact ratingQuality_A
  · exact ratingQuality_BBB
  · exact ratingQuality_BB
  · exact ratingQuality_B
  · exact ratingQuality_D

/-- One more threshold on top of a monotone, bounded classifier keeps it
monotone and bounded. -/
theorem ite_threshold_mono (t : ℚ) (a b : ℕ) (f : ℚ → ℕ)
    (hf : ∀ s1 s2, s1 ≤ s2 → f s1 ≤ f s2) (hb : ∀ s, f s ≤ b) (hab : b ≤ a) :
    (∀ s1 s2, s1 ≤ s2 → (if s1 ≥ t then a else f s1) ≤ (if s2 ≥ t then a else f s2))
    ∧ (∀ s, (if s ≥ t then a else f s) ≤ a) := by
  constructor
  · intro s1 s2 h
    by_cases h1 : s1 ≥ t
    · have h2 : s2 ≥ t := le_trans h1 h
      rw [if_pos h1, if_pos h2]
    · rw [if_neg h1]
      by_cases h2 : s2 ≥ t
      · rw [if_pos h2]; exact le_trans (hb s1) hab
      · rw [if_neg h2]; exact hf s1 s2 h
  · intro s
    by_cases h1 : s ≥ t
    · rw [if_pos h1]
    · rw [if_neg h1]; exact le_trans (hb s) hab

/-- C4: `getRating` is monotone in rating quality for the order
D < B < BB < BBB < A < AA < AAA: for scores `s1 ≤ s2` the rating of `s1` is
not better than the rating of `s2`. -/
theorem getRating_monotone (s1 s2 : ℚ) (h : s1 ≤ s2) :
    ratingQuality (getRating s1) ≤ ratingQuality (getRating s2) := by
  rw [ratingQuality_getRating, ratingQuality_getRating]
  have m1 := ite_threshold_mono 0.30 1 0 (fun _ => 0) (fun _ _ _ => le_refl 0)
    (fun _ => le_refl 0) (by decide)
  have m2 := ite_threshold_mono 0.40 2 1 _ m1.1 m1.2 (by decide)
  have m3 := ite_threshold_mono 0.50 3 2 _ m2.1 m2.2 (by decide)
  have m4 := ite_threshold_mono 0.60 4 3 _ m3.1 m3.2 (by decide)
  have m5 := ite_threshold_mono 0.70 5 4 _ m4.1 m4.2 (by decide)
  have m6 := ite_threshold_mono 0.85 6 5 _ m5.1 m5.2 (by decide)
  exact m6.1 s1 s2 h

/-- Witness of C4 at the scores 0.45 and 0.75. -/
theorem getRating_monotone_witness :
    (0.45 : ℚ) ≤ 0.75 ∧ ratingQuality (getRating 0.45) ≤ ratingQuality (getRating 0.75) :=
  ⟨by norm_num, getRating_monotone 0.45 0.75 (by norm_num)⟩

/-! ### Validation -/

/-- The flag returned by `validateClientProfile` is true exactly when none of
the four failure conditions of the source holds. -/
theorem validateClientProfile_flag (profile : ClientProfile) (row : Int) :
    (validateClientProfile profile row).1 = true ↔
      (¬ (profile.age ≤ 0 ∨ profile.age > 120) ∧ ¬ profile.income < 0
        ∧ ¬ (profile.employment = "" ∨ profile.industry = "") ∧ ¬ profile.debt < 0) := by
  unfold validateClientProfile
  simp only []
  split_ifs with h1 h2 h3 h4 <;> simp only [Bool.false_eq_true, false_iff, true_iff] <;> tauto

/-- The flag returned by `validateClientProfile` does not depend on the row
index. -/
theorem validateClientProfile_row (profile : ClientProfile) (row row2 : Int) :
    (validateClientProfile profile row).1 = (validateClientProfile profile row2).1 := by
  rw [Bool.eq_iff_iff, validateClientProfile_flag profile row,
    validateClientProfile_flag profile row2]

/-! ### Pipeline -/

/-- The scoring loop started in any state appends, in input order, the scored
result of each record that passes validation. -/
theorem foldl_loopBody_results (clients : List ClientProfile) (st : LoopState) (row : Int) :
    (clients.foldl (loopBody ScoreWeights.defaultWeights) st).results =
      st.results
        ++ (clients.filter (fun c => (validateClientProfile c row).1)).map scoredResult := by
  induction clients generalizing st with
  | nil => simp
  | cons c cs ih =>
    rw [List.foldl_cons, ih]
    have hrow := validateClientProfile_row c st.row row
    cases hv : (validateClientProfile c row).1
    · rw [hv] at hrow
      simp [loopBody, hrow, hv, List.filter_cons]
    · rw [hv] at hrow
      simp [loopBody, hrow, hv, List.filter_cons, scoredResult]

/-- C6: for every input sequence, the result sequence that the pipeline loop
builds is exactly the records that pass `validateClientProfile`, in input
order, each with `calculatedScore` set to `calculateScore` under the default
weights and paired with `getRating` of that score; every record in the result
sequence passes validation, so a failing record never appears in it. -/
theorem scoringLoop_results (clients : List ClientProfile) (row : Int) :
    (scoringLoop clients).results =
      (clients.filter (fun c => (validateClientProfile c row).1)).map
        (fun c =>
          ({ c with calculatedScore := calculateScore c ScoreWeights.defaultWeights },
            getRating (calculateScore c ScoreWeights.defaultWeights)))
    ∧ ∀ p ∈ (scoringLoop clients).results, (validateClientProfile p.1 row).1 = true := by
  have h : (scoringLoop clients).results =
      (clients.filter (fun c => (validateClientProfile c row).1)).map scoredResult := by
    unfold scoringLoop
    simp only []
    rw [foldl_loopBody_results clients _ row]
    simp
  constructor
  · rw [h]; rfl
  · intro p hp
    rw [h, List.mem_map] at hp
    obtain ⟨c, hc, rfl⟩ := hp
    have hc2 := (List.mem_filter.mp hc).2
    exact hc2

/-- C7: if every loaded record fails `validateClientProfile`, the result
sequence is empty and `main` returns exit code 1 without calling
`writeResultsToCSV`. -/
theorem main_no_valid_entries (argc : Int) (filename : String) (fileExists loadOk : Bool)
    (clients : List ClientProfile) (outFile : String)
    (h : ∀ c ∈ clients, ∀ row, (validateClientProfile c row).1 = false) :
    (scoringLoop clients).results = []
    ∧ (main argc filename fileExists loadOk clients outFile).exitCode = 1
    ∧ (main argc filename fileExists loadOk clients outFile).written = none := by
  have hres : (scoringLoop clients).results = [] := by
    unfold scoringLoop
    simp only []
    rw [foldl_loopBody_results clients _ 1]
    have hf : clients.filter (fun c => (validateClientProfile c 1).1) = [] := by
      rw [List.filter_eq_nil_iff]
      intro c hc
      rw [h c hc 1]
      simp
    rw [hf]
    rfl
  refine ⟨hres, ?_, ?_⟩
  · unfold main
    simp only [hres]
    split_ifs <;> rfl
  · unfold main
    simp only [hres]
    split_ifs <;> rfl

/-- Witness of C7: a batch whose only record has age -5. -/
theorem main_no_valid_entries_witness :
    (∀ c ∈ [invalidAgeClient], ∀ row, (validateClientProfile c row).1 = false)
    ∧ (scoringLoop [invalidAgeClient]).results = []
    ∧ (main 2 "clients.csv" true true [invalidAgeClient] "out.csv").exitCode = 1
    ∧ (main 2 "clients.csv" true true [invalidAgeClient] "out.csv").written = none :=
  have hw : ∀ c ∈ [invalidAgeClient], ∀ row, (validateClientProfile c row).1 = false := by
    intro c hc row
    rw [List.mem_singleton] at hc
    subst hc
    cases hv : (validateClientProfile invalidAgeClient row).1
    · rfl
    · exact absurd (Or.inl (by decide : invalidAgeClient.age ≤ 0))
        ((validateClientProfile_flag invalidAgeClient row).mp hv).1
  ⟨hw, main_no_valid_entries 2 "clients.csv" true true [invalidAgeClient] "out.csv" hw⟩

/-! ### Default weights -/

/-- Default weight of the factor `age`. -/
theorem getWeight_default_age : ScoreWeights.defaultWeights.getWeight "age" = 0.1 := by
  simp [ScoreWeights.defaultWeights, ScoreWeights.setWeight, ScoreWeights.getWeight, List.lookup]

/-- Default weight of the factor `income`. -/
theorem getWeight_default_income : ScoreWeights.defaultWeights.getWeight "income" = 0.3 := by
  simp [ScoreWeights.defaultWeights, ScoreWeights.setWeight, ScoreWeights.getWeight, List.lookup]

/-- Default weight of the factor `employment`. -/
theorem getWeight_default_employment :
    ScoreWeights.defaultWeights.getWeight "employment" = 0.2 := by
  simp [ScoreWeights.defaultWeights, ScoreWeights.setWeight, ScoreWeights.getWeight, List.lookup]

/-- Default weight of the factor `industry`. -/
theorem getWeight_default_industry :
    ScoreWeights.defaultWeights.getWeight "industry" = 0.2 := by
  simp [ScoreWeights.defaultWeights, ScoreWeights.setWeight, ScoreWeights.getWeight, List.lookup]

/-- Default weight of the factor `debt`. -/
theorem getWeight_default_debt : ScoreWeights.defaultWeights.getWeight "debt" = 0.2 := by
  simp [ScoreWeights.defaultWeights, ScoreWeights.setWeight, ScoreWeights.getWeight, List.lookup]

/-! ### Age factor -/

/-- Age contribution under the default weights for an age inside the gate
`18 ≤ age ≤ 75`. -/
theorem ageContribution_default (a : Int) (h1 : 18 ≤ a) (h2 : a ≤ 75) :
    ageContribution ScoreWeights.defaultWeights a = (1 - ((|45 - a| : Int) : ℚ) / 45) / 10 := by
  unfold ageContribution
  rw [if_pos ⟨h1, h2⟩, getWeight_default_age]
  push_cast
  norm_num
  ring

/-- C8: with the default weights the age contribution equals exactly 0.10 at
age 45; for every integer age in [18,75] it is at most the value at 45 and
equals it only at age 45; and for ages `a`, `b` in [18,75] with
`|45 - a| < |45 - b|` the contribution at `a` is strictly greater than at `b`. -/
theorem ageContribution_peak :
    ageContribution ScoreWeights.defaultWeights 45 = 0.10
    ∧ (∀ a : Int, 18 ≤ a → a ≤ 75 →
        ageContribution ScoreWeights.defaultWeights a
          ≤ ageContribution ScoreWeights.defaultWeights 45)
    ∧ (∀ a : Int, 18 ≤ a → a ≤ 75 →
        (ageContribution ScoreWeights.defaultWeights a
          = ageContribution ScoreWeights.defaultWeights 45 ↔ a = 45))
    ∧ (∀ a b : Int, 18 ≤ a → a ≤ 75 → 18 ≤ b → b ≤ 75 → |45 - a| < |45 - b| →
        ageContribution ScoreWeights.defaultWeights b
          < ageContribution ScoreWeights.defaultWeights a) := by
  have h45 : ageContribution ScoreWeights.defaultWeights 45 = 1 / 10 := by
    rw [ageContribution_default 45 (by decide) (by decide)]
    norm_num
  refine ⟨by rw [h45]; norm_num, ?_, ?_, ?_⟩
  · intro a h1 h2
    rw [h45, ageContribution_default a h1 h2]
    have h0 : (0 : ℚ) ≤ ((|45 - a| : Int) : ℚ) := by exact_mod_cast abs_nonneg (45 - a)
    linarith
  · intro a h1 h2
    rw [h45, ageContribution_default a h1 h2]
    constructor
    · intro h
      have hz : ((|45 - a| : Int) : ℚ) = 0 := by linarith
      have hz2 : |45 - a| = 0 := by exact_mod_cast hz
      have hz3 : 45 - a = 0 := abs_eq_zero.mp hz2
      omega
    · intro h
      subst h
      norm_num
  · intro a b ha1 ha2 hb1 hb2 hlt
    rw [ageContribution_default a ha1 ha2, ageContribution_default b hb1 hb2]
    have hc : ((|45 - a| : Int) : ℚ) < ((|45 - b| : Int) : ℚ) := by exact_mod_cast hlt
    linarith

/-- Witness of C8 at the ages 40 and 60. -/
theorem ageContribution_peak_witness :
    ageContribution ScoreWeights.defaultWeights 40
        ≤ ageContribution ScoreWeights.defaultWeights 45
    ∧ ageContribution ScoreWeights.defaultWeights 60
        < ageContribution ScoreWeights.defaultWeights 40 :=
  ⟨ageContribution_peak.2.1 40 (by decide) (by decide),
    ageContribution_peak.2.2.2 40 60 (by decide) (by decide) (by decide) (by decide)
      (by decide)⟩

/-! ### Country adjustment -/

/-- Under the default weights the total before the country adjustment is at
most 1. -/
theorem preCountryScore_default_le_one (r : ClientProfile) :
    preCountryScore r ScoreWeights.defaultWeights ≤ 1 := by
  rw [preCountryScore_eq_sum, getWeight_default_income, getWeight_default_employment,
    getWeight_default_industry, getWeight_default_debt]
  have hA : ageContribution ScoreWeights.defaultWeights r.age ≤ 1 / 10 := by
    unfold ageContribution
    split_ifs with h
    · rw [getWeight_default_age]
      have h0 := abs_nonneg (45.0 - (r.age : ℚ))
      have h1 := div_nonneg h0 (by norm_num : (0 : ℚ) ≤ 45.0)
      have e1 : (1.0 : ℚ) = 1 := by norm_num
      have e2 : (0.1 : ℚ) = 1 / 10 := by norm_num
      simp only []
      rw [e1, e2]
      linarith
    · norm_num
  have hI : (if r.income ≥ 30000 then (0.3 : ℚ) else 0) ≤ 3 / 10 := by
    split_ifs <;> norm_num
  have hE : (if r.employment ∈ stableEmployment then (0.2 : ℚ) else 0) ≤ 2 / 10 := by
    split_ifs <;> norm_num
  have hN : (if r.industry ∈ safeIndustries then (0.2 : ℚ) else 0) ≤ 2 / 10 := by
    split_ifs <;> norm_num
  have hD : (if (divDouble r.debt (r.income + 1.0)).le 0.25 then (0.2 : ℚ)
      else if (divDouble r.debt (r.income + 1.0)).le 0.5 then 0.2 * 0.5 else 0) ≤ 2 / 10 := by
    split_ifs <;> norm_num
  have hP1 : (0 : ℚ) ≤ (if r.debt > 50000 then (0.1 : ℚ) else 0) := by
    split_ifs <;> norm_num
  have hP2 : (0 : ℚ) ≤ (if r.age < 21 ∨ r.age > 75 then (0.05 : ℚ) else 0) := by
    split_ifs <;> norm_num
  linarith

/-- C9 (counterexample): the record of the low-score test passes validation,
its total before the country adjustment is negative, and with country `GR`
its score is 0, which is not at most 0.70 times that total. -/
theorem greece_score_exceeds_scaled_total :
    (validateClientProfile lowScoreClient 1).1 = true
    ∧ preCountryScore lowScoreClient ScoreWeights.defaultWeights = -(1 / 180)
    ∧ calculateScore { lowScoreClient with country := "GR" } ScoreWeights.defaultWeights = 0
    ∧ ¬ (calculateScore { lowScoreClient with country := "GR" } ScoreWeights.defaultWeights
          ≤ 0.70 * preCountryScore lowScoreClient ScoreWeights.defaultWeights) := by
  have hv : (validateClientProfile lowScoreClient 1).1 = true := by
    rw [validateClientProfile_flag]
    simp [lowScoreClient, makeClient]
  have hp : preCountryScore lowScoreClient ScoreWeights.defaultWeights = -(1 / 180) := by
    rw [preCountryScore_eq_sum]
    simp [lowScoreClient, makeClient, ageContribution, getWeight_default_age,
      stableEmployment, safeIndustries, divDouble, DoubleQuot.le]
    norm_num
  have hs : calculateScore { lowScoreClient with country := "GR" }
      ScoreWeights.defaultWeights = 0 := by
    rw [calculateScore_eq_clamp]
    have e : preCountryScore { lowScoreClient with country := "GR" }
        ScoreWeights.defaultWeights
        = preCountryScore lowScoreClient ScoreWeights.defaultWeights := rfl
    rw [e, hp]
    simp [specCountryFactor, clamp]
    norm_num
  refine ⟨hv, hp, hs, ?_⟩
  rw [hs, hp]
  norm_num

/-- C9 (amended): for every validated record whose total `p` before the
country adjustment is not negative, under the default weights the score with
country `GR` is at most `0.70 * p`, and when `p > 0` it is strictly lower than
the score of the same record with a country of factor 1.0, such as `AT`. -/
theorem greece_score_scaled (r : ClientProfile) (row : Int) (other : String)
    (_hv : (validateClientProfile r row).1 = true)
    (hp : 0 ≤ preCountryScore r ScoreWeights.defaultWeights)
    (hother : specCountryFactor other = 1) :
    calculateScore { r with country := "GR" } ScoreWeights.defaultWeights
        ≤ 0.70 * preCountryScore r ScoreWeights.defaultWeights
    ∧ (0 < preCountryScore r ScoreWeights.defaultWeights →
        calculateScore { r with country := "GR" } ScoreWeights.defaultWeights
          < calculateScore { r with country := other } ScoreWeights.defaultWeights) := by
  have h1 := preCountryScore_default_le_one r
  have eG : preCountryScore { r with country := "GR" } ScoreWeights.defaultWeights
      = preCountryScore r ScoreWeights.defaultWeights := rfl
  have eA : preCountryScore { r with country := other } ScoreWeights.defaultWeights
      = preCountryScore r ScoreWeights.defaultWeights := rfl
  have hG : calculateScore { r with country := "GR" } ScoreWeights.defaultWeights
      = 0.70 * preCountryScore r ScoreWeights.defaultWeights := by
    rw [calculateScore_eq_clamp, eG, clamp_eq_max_min]
    have hf : specCountryFactor "GR" = 0.70 := by simp [specCountryFactor]
    show max 0 (min (specCountryFactor "GR" * _) 1) = _
    rw [hf, min_eq_left (by norm_num; linarith), max_eq_right (by norm_num; linarith)]
  have hA : calculateScore { r with country := other } ScoreWeights.defaultWeights
      = preCountryScore r ScoreWeights.defaultWeights := by
    rw [calculateScore_eq_clamp, eA, clamp_eq_max_min]
    show max 0 (min (specCountryFactor other * _) 1) = _
    rw [hother, one_mul, min_eq_left h1, max_eq_right hp]
  constructor
  · rw [hG]
  · intro hpos
    rw [hG, hA]
    norm_num
    linarith

/-- Witness of C9 (amended): the record of the high-score test, compared with
country `AT`. -/
theorem greece_score_scaled_witness :
    (validateClientProfile highScoreClient 1).1 = true
    ∧ 0 ≤ preCountryScore highScoreClient ScoreWeights.defaultWeights
    ∧ specCountryFactor "AT" = 1
    ∧ calculateScore { highScoreClient with country := "GR" } ScoreWeights.defaultWeights
        ≤ 0.70 * preCountryScore highScoreClient ScoreWeights.defaultWeights
    ∧ calculateScore { highScoreClient with country := "GR" } ScoreWeights.defaultWeights
        < calculateScore { highScoreClient with country := "AT" } ScoreWeights.defaultWeights :=
  have hv : (validateClientProfile highScoreClient 1).1 = true := by
    rw [validateClientProfile_flag]
    simp [highScoreClient, makeClient]
  have hpos : 0 < preCountryScore highScoreClient ScoreWeights.defaultWeights := by
    rw [preCountryScore_eq_sum]
    simp [highScoreClient, makeClient, ageContribution, getWeight_default_age,
      getWeight_default_income, getWeight_default_employment, getWeight_default_industry,
      getWeight_default_debt, stableEmployment, safeIndustries, divDouble, DoubleQuot.le]
    norm_num
  have ho : specCountryFactor "AT" = 1 := by norm_num [specCountryFactor]
  ⟨hv, le_of_lt hpos, ho,
    (greece_score_scaled highScoreClient 1 "AT" hv (le_of_lt hpos) ho).1,
    (greece_score_scaled highScoreClient 1 "AT" hv (le_of_lt hpos) ho).2 hpos⟩

/-! ### Sample records -/

/-- C10: the record with age 45, income 100000, employment `permanent`,
industry `finance`, debt 2000 and country `AT` has, under the default weights,
a score that is at least 0.85 and at most 1.0, and the rating of that score is
`AAA`. -/
theorem highScoreClient_rating :
    highScoreClient.age = 45 ∧ highScoreClient.income = 100000
    ∧ highScoreClient.employment = "permanent" ∧ highScoreClient.industry = "finance"
    ∧ highScoreClient.debt = 2000 ∧ highScoreClient.country = "AT"
    ∧ calculateScore highScoreClient ScoreWeights.defaultWeights ≥ 0.85
    ∧ calculateScore highScoreClient ScoreWeights.defaultWeights ≤ 1.0
    ∧ getRating (calculateScore highScoreClient ScoreWeights.defaultWeights) = "AAA" := by
  have hs : calculateScore highScoreClient ScoreWeights.defaultWeights = 1 := by
    rw [calculateScore_eq_clamp, preCountryScore_eq_sum]
    simp [highScoreClient, makeClient, ageContribution, getWeight_default_age,
      getWeight_default_income, getWeight_default_employment, getWeight_default_industry,
      getWeight_default_debt, stableEmployment, safeIndustries, divDouble, DoubleQuot.le,
      specCountryFactor, clamp]
    norm_num
  refine ⟨rfl, rfl, rfl, rfl, rfl, rfl, ?_, ?_, ?_⟩
  · rw [hs]; norm_num
  · rw [hs]; norm_num
  · rw [hs]; norm_num [getRating]

/-- C11: the record with age 20, income 5000, employment `unemployed`,
industry `unknown`, debt 30000 and country `AT` has, under the default
weights, a score in `[0, 0.4)` and a rating that is `B` or `D`. -/
theorem lowScoreClient_rating :
    lowScoreClient.age = 20 ∧ lowScoreClient.income = 5000
    ∧ lowScoreClient.employment = "unemployed" ∧ lowScoreClient.industry = "unknown"
    ∧ lowScoreClient.debt = 30000 ∧ lowScoreClient.country = "AT"
    ∧ 0 ≤ calculateScore lowScoreClient ScoreWeights.defaultWeights
    ∧ calculateScore lowScoreClient ScoreWeights.defaultWeights < 0.4
    ∧ (getRating (calculateScore lowScoreClient ScoreWeights.defaultWeights) = "B"
      ∨ getRating (calculateScore lowScoreClient ScoreWeights.defaultWeights) = "D") := by
  have hs : calculateScore lowScoreClient ScoreWeights.defaultWeights = 0 := by
    rw [calculateScore_eq_clamp, preCountryScore_eq_sum]
    simp [lowScoreClient, makeClient, ageContribution, getWeight_default_age,
      stableEmployment, safeIndustries, divDouble, DoubleQuot.le, specCountryFactor, clamp]
    norm_num
  refine ⟨rfl, rfl, rfl, rfl, rfl, rfl, ?_, ?_, ?_⟩
  · rw [hs]
  · rw [hs]; norm_num
  · right; rw [hs]; norm_num [getRating]

/-- C12: under the default weights, every record with country `GR` has a score
of at most 0.70, hence strictly below 0.85. -/
theorem greek_score_below_top_band (r : ClientProfile) (h : r.country = "GR") :
    calculateScore r ScoreWeights.defaultWeights ≤ 0.70
    ∧ calculateScore r ScoreWeights.defaultWeights < 0.85 := by
  have h1 := preCountryScore_default_le_one r
  have hf : specCountryFactor "GR" = 0.70 := by simp [specCountryFactor]
  have hle : calculateScore r ScoreWeights.defaultWeights ≤ 0.70 := by
    rw [calculateScore_eq_clamp, clamp_eq_max_min, h, hf]
    apply max_le
    · norm_num
    · apply le_trans (min_le_left _ _)
      norm_num
      linarith
  refine ⟨hle, lt_of_le_of_lt hle ?_⟩
  norm_num

/-- Witness of C12: the otherwise ideal record of the test
`AppliesCountryAdjustment`. -/
theorem greek_score_below_top_band_witness :
    greekClient.country = "GR"
    ∧ calculateScore greekClient ScoreWeights.defaultWeights ≤ 0.70
    ∧ calculateScore greekClient ScoreWeights.defaultWeights < 0.85 :=
  ⟨rfl, greek_score_below_top_band greekClient rfl⟩

/-- C13: for every record and weight table, when the country is none of AT,
DE, GR, US, BR the score equals the score of the same record with country
`AT`. -/
theorem unlisted_country_score (r : ClientProfile) (w : ScoreWeights)
    (h : r.country ∉ ["AT", "DE", "GR", "US", "BR"]) :
    calculateScore r w = calculateScore { r with country := "AT" } w := by
  have hne : r.country ≠ "AT" ∧ r.country ≠ "DE" ∧ r.country ≠ "GR" ∧ r.country ≠ "US"
      ∧ r.country ≠ "BR" := by
    simpa using h
  obtain ⟨h1, h2, h3, h4, h5⟩ := hne
  have hf : specCountryFactor r.country = 1 := by
    simp [specCountryFactor, h1, h2, h3, h4, h5]
  have hA : specCountryFactor "AT" = 1 := by norm_num [specCountryFactor]
  have e : preCountryScore { r with country := "AT" } w = preCountryScore r w := rfl
  rw [calculateScore_eq_clamp, calculateScore_eq_clamp, e, hf]
  show _ = clamp (specCountryFactor "AT" * _) 0.0 1.0
  rw [hA]

/-- Witness of C13: a record with country `FR`. -/
theorem unlisted_country_score_witness :
    frenchClient.country ∉ ["AT", "DE", "GR", "US", "BR"]
    ∧ calculateScore frenchClient ScoreWeights.defaultWeights
      = calculateScore { frenchClient with country := "AT" } ScoreWeights.defaultWeights :=
  have h : frenchClient.country ∉ ["AT", "DE", "GR", "US", "BR"] := by decide
  ⟨h, unlisted_country_score frenchClient ScoreWeights.defaultWeights h⟩

/-! ### Weight table -/

/-- A key that no entry of an association list carries is not found. -/
theorem lookup_none_of_no_key (k : String) (l : List (String × ℚ))
    (h : ∀ p ∈ l, p.1 ≠ k) : l.lookup k = none := by
  induction l with
  | nil => rfl
  | cons a l ih =>
    obtain ⟨a1, a2⟩ := a
    have ha : a1 ≠ k := h (a1, a2) (List.mem_cons_self _ _)
    have hb : (k == a1) = false := beq_eq_false_iff_ne.mpr (fun e => ha e.symm)
    rw [List.lookup_cons, hb]
    exact ih (fun p hp => h p (List.mem_cons_of_mem _ hp))

/-- Removing the entries of another key does not change what a key finds. -/
theorem lookup_filter_other (k k2 : String) (l : List (String × ℚ)) (h : k2 ≠ k) :
    (l.filter (fun p => p.1 != k)).lookup k2 = l.lookup k2 := by
  induction l with
  | nil => rfl
  | cons a l ih =>
    obtain ⟨a1, a2⟩ := a
    by_cases ha : a1 = k
    · subst ha
      have hb : (k2 == a1) = false := beq_eq_false_iff_ne.mpr h
      simp only [List.filter_cons, bne_self_eq_false, Bool.false_eq_true, if_false,
        List.lookup_cons, hb]
      exact ih
    · have hb : (a1 != k) = true := bne_iff_ne.mpr ha
      simp only [List.filter_cons, hb, if_true, List.lookup_cons]
      rw [ih]

/-- A table without an entry for a name yields 0.0 for it. -/
theorem getWeight_of_no_key (t : ScoreWeights) (k : String)
    (h : ∀ p ∈ t.weights, p.1 ≠ k) : t.getWeight k = 0.0 := by
  unfold ScoreWeights.getWeight
  rw [lookup_none_of_no_key k t.weights h]

/-- Calls of `setWeight` for other names do not create an entry for a name. -/
theorem setAll_no_key (sets : List (String × ℚ)) (sw : ScoreWeights) (k : String)
    (hsw : ∀ p ∈ sw.weights, p.1 ≠ k) (hsets : ∀ p ∈ sets, p.1 ≠ k) :
    ∀ p ∈ (sw.setAll sets).weights, p.1 ≠ k := by
  induction sets generalizing sw with
  | nil => exact hsw
  | cons a sets ih =>
    have step : ∀ p ∈ (sw.setWeight a.1 a.2).weights, p.1 ≠ k := by
      intro p hp
      unfold ScoreWeights.setWeight at hp
      rcases List.mem_cons.mp hp with hp | hp
      · rw [hp]; exact hsets a (List.mem_cons_self _ _)
      · exact hsw p (List.mem_filter.mp hp).1
    exact ih (sw.setWeight a.1 a.2) step (fun p hp => hsets p (List.mem_cons_of_mem _ hp))

/-- C14: `getWeight` returns 0.0 for every factor name that has no entry in
the table: in a table built from the empty one by calls of `setWeight` for
other names, in particular in the empty table, and in `defaultWeights()` for
every name other than age, income, employment, industry and debt. -/
theorem getWeight_unknown_name (t : ScoreWeights) (k : String) (sets : List (String × ℚ)) :
    ((∀ p ∈ t.weights, p.1 ≠ k) → t.getWeight k = 0.0)
    ∧ ((∀ p ∈ sets, p.1 ≠ k) → (ScoreWeights.setAll {} sets).getWeight k = 0.0)
    ∧ ({} : ScoreWeights).getWeight k = 0.0
    ∧ (k ∉ ["age", "income", "employment", "industry", "debt"] →
        ScoreWeights.defaultWeights.getWeight k = 0.0) := by
  refine ⟨getWeight_of_no_key t k, ?_, ?_, ?_⟩
  · intro h
    apply getWeight_of_no_key
    exact setAll_no_key sets {} k (fun p hp => absurd hp (List.not_mem_nil p)) h
  · rfl
  · intro h
    have hd : ScoreWeights.defaultWeights = ScoreWeights.setAll {}
        [("age", 0.1), ("income", 0.3), ("employment", 0.2), ("industry", 0.2),
          ("debt", 0.2)] := rfl
    rw [hd]
    apply getWeight_of_no_key
    apply setAll_no_key _ {} k (fun p hp => absurd hp (List.not_mem_nil p))
    intro p hp e
    apply h
    rw [← e]
    simp only [List.mem_cons, List.mem_singleton, List.not_mem_nil, or_false] at hp ⊢
    rcases hp with hp | hp | hp | hp | hp <;> rw [hp] <;> simp

/-- Witness of C14: the name `leverage` in the default table and in a table
with the single entry `age`. -/
theorem getWeight_unknown_name_witness :
    ScoreWeights.defaultWeights.getWeight "leverage" = 0.0
    ∧ (ScoreWeights.setAll {} [("age", 0.5)]).getWeight "leverage" = 0.0 :=
  ⟨(getWeight_unknown_name {} "leverage" []).2.2.2 (by decide),
    (getWeight_unknown_name {} "leverage" [("age", 0.5)]).2.1 (by decide)⟩

/-- C15: after `setWeight(k, v)`, for any table and any weight `v`,
`getWeight(k)` is `v`, whether or not `k` had an entry, and `getWeight(k2)` is
unchanged for every other name `k2`. -/
theorem setWeight_getWeight (t : ScoreWeights) (k k2 : String) (v : ℚ) :
    (t.setWeight k v).getWeight k = v
    ∧ (k2 ≠ k → (t.setWeight k v).getWeight k2 = t.getWeight k2) := by
  constructor
  · simp [ScoreWeights.setWeight, ScoreWeights.getWeight, List.lookup_cons]
  · intro h
    have hb : (k2 == k) = false := beq_eq_false_iff_ne.mpr h
    unfold ScoreWeights.setWeight ScoreWeights.getWeight
    simp only [List.lookup_cons, hb]
    rw [lookup_filter_other k k2 t.weights h]

/-- Witness of C15: overwriting `age` in the default table leaves `debt`. -/
theorem setWeight_getWeight_witness :
    (ScoreWeights.defaultWeights.setWeight "age" 7).getWeight "age" = 7
    ∧ (ScoreWeights.defaultWeights.setWeight "age" 7).getWeight "debt"
      = ScoreWeights.defaultWeights.getWeight "debt" :=
  ⟨(setWeight_getWeight ScoreWeights.defaultWeights "age" "debt" 7).1,
    (setWeight_getWeight ScoreWeights.defaultWeights "age" "debt" 7).2 (by decide)⟩

/-- C16: in `ScoreWeights::defaultWeights()`, `getWeight` returns 0.10 for
`age`, 0.30 for `income`, 0.20 for `employment`, 0.20 for `industry` and 0.20
for `debt`. -/
theorem defaultWeights_values :
    ScoreWeights.defaultWeights.getWeight "age" = 0.10
    ∧ ScoreWeights.defaultWeights.getWeight "income" = 0.30
    ∧ ScoreWeights.defaultWeights.getWeight "employment" = 0.20
    ∧ ScoreWeights.defaultWeights.getWeight "industry" = 0.20
    ∧ ScoreWeights.defaultWeights.getWeight "debt" = 0.20 := by
  rw [getWeight_default_age, getWeight_default_income, getWeight_default_employment,
    getWeight_default_industry, getWeight_default_debt]
  norm_num

/-! ### Debt penalty -/

/-- Under the default weights, a record with full factors and a debt above
50000 has the score 0.9: the total 1.0 of the factors minus the penalty 0.1. -/
theorem fullFactors_debt_score (r : ClientProfile)
    (hf : FullFactors r ScoreWeights.defaultWeights) (hd : r.debt > 50000) :
    calculateScore r ScoreWeights.defaultWeights = 0.9 := by
  obtain ⟨hA, hI, hE, hN, hD, hP, hC⟩ := hf
  rw [calculateScore_eq_clamp, preCountryScore_eq_sum, hA, hC, if_pos hI, if_pos hE,
    if_pos hN, if_pos hD, if_pos hd, if_neg hP, getWeight_default_age,
    getWeight_default_income, getWeight_default_employment, getWeight_default_industry,
    getWeight_default_debt]
  norm_num [clamp]

/-- C18 (counterexample): no validated record with a debt above 50000, full
factors, no age penalty and country factor 1 has a score below 0.85 under the
default weights. -/
theorem no_fullFactors_record_below_top_band :
    ¬ ∃ (r : ClientProfile) (row : Int),
        (validateClientProfile r row).1 = true ∧ r.debt > 50000
        ∧ FullFactors r ScoreWeights.defaultWeights
        ∧ calculateScore r ScoreWeights.defaultWeights < 0.85 := by
  rintro ⟨r, row, _, hd, hf, hlt⟩
  rw [fullFactors_debt_score r hf hd] at hlt
  norm_num at hlt

/-- C18 (amended): every validated record with a debt above 50000 for which
every factor contributes its full default weight, no age penalty applies and
the country factor is 1 has, under the default weights, the score 0.90, which
is not below 0.85, and the rating `AAA`. -/
theorem fullFactors_debt_penalty_keeps_top_band (r : ClientProfile) (row : Int)
    (_hv : (validateClientProfile r row).1 = true) (hd : r.debt > 50000)
    (hf : FullFactors r ScoreWeights.defaultWeights) :
    calculateScore r ScoreWeights.defaultWeights = 0.90
    ∧ calculateScore r ScoreWeights.defaultWeights ≥ 0.85
    ∧ getRating (calculateScore r ScoreWeights.defaultWeights) = "AAA" := by
  have hs := fullFactors_debt_score r hf hd
  rw [hs]
  refine ⟨by norm_num, by norm_num, ?_⟩
  norm_num [getRating]

/-- Witness of C18 (amended): age 45, income 1000000, `permanent`, `finance`,
debt 60000, country `AT`. -/
theorem fullFactors_debt_penalty_keeps_top_band_witness :
    (validateClientProfile heavyDebtClient 1).1 = true
    ∧ heavyDebtClient.debt > 50000
    ∧ FullFactors heavyDebtClient ScoreWeights.defaultWeights
    ∧ calculateScore heavyDebtClient ScoreWeights.defaultWeights = 0.90 :=
  have hv : (validateClientProfile heavyDebtClient 1).1 = true := by
    rw [validateClientProfile_flag]
    simp [heavyDebtClient, makeClient]
  have hd : heavyDebtClient.debt > 50000 := by
    norm_num [heavyDebtClient, makeClient]
  have hf : FullFactors heavyDebtClient ScoreWeights.defaultWeights := by
    unfold FullFactors
    simp [heavyDebtClient, makeClient, ageContribution, stableEmployment, safeIndustries,
      divDouble, DoubleQuot.le, specCountryFactor]
    norm_num
  ⟨hv, hd, hf, (fullFactors_debt_penalty_keeps_top_band heavyDebtClient 1 hv hd hf).1⟩

/-! ### Input loader -/

/-- Successive `std::getline` calls deliver at most one string more than the
text has delimiters. -/
theorem getlinesAux_length (delim : Char) (cs cur : List Char) :
    (getlinesAux delim cur cs).length ≤ cs.count delim + 1 := by
  induction cs generalizing cur with
  | nil =>
    unfold getlinesAux
    split_ifs <;> simp
  | cons c cs ih =>
    unfold getlinesAux
    by_cases hc : c = delim
    · subst hc
      rw [if_pos rfl, List.count_cons_self, List.length_cons]
      exact Nat.succ_le_succ (ih [])
    · rw [if_neg hc, List.count_cons_of_ne (fun e => hc e.symm)]
      exact ih (c :: cur)

/-- The row loop of the loader returns false when a row that remains has
fewer than nine fields. -/
theorem loadRows_short_row (stoi : String → Option Int) (stod : String → Option ℚ)
    (rows : List String) (out : List ClientProfile) (row : String) (hrow : row ∈ rows)
    (hshort : (getlines ',' row).length < 9) :
    (loadRows stoi stod rows out).ok = false := by
  induction rows generalizing out with
  | nil => exact absurd hrow (List.not_mem_nil row)
  | cons line rest ih =>
    unfold loadRows
    split
    · rename_i hfields
      have hne : row ≠ line := by
        intro e
        rw [e, hfields] at hshort
        simp only [List.length_cons] at hshort
        omega
      have hrest : row ∈ rest := by
        rcases List.mem_cons.mp hrow with h | h
        · exact absurd h hne
        · exact h
      split
      · exact ih _ hrest
      · rfl
    · rfl

/-- C19 (amended): `loadClientProfilesFromCSV` returns false whenever a data
row has fewer than nine comma-separated fields, whatever the file holds
otherwise and however the numeric conversions behave. -/
theorem load_fails_on_short_row (stoi : String → Option Int) (stod : String → Option ℚ)
    (filename content : String) (out : List ClientProfile) (row : String)
    (hrow : row ∈ dataRows content) (hshort : row.toList.count ',' + 1 < 9) :
    (loadClientProfilesFromCSV stoi stod filename (some content) out).ok = false := by
  unfold loadClientProfilesFromCSV
  apply loadRows_short_row stoi stod (dataRows content) out row hrow
  unfold getlines
  exact lt_of_le_of_lt (getlinesAux_length ',' row.toList []) hshort

/-- Witness of C19 (amended): a file whose data row has three fields. -/
theorem load_fails_on_short_row_witness :
    "C001,Test Client,AT" ∈ dataRows shortRowFile
    ∧ ("C001,Test Client,AT".toList.count ',') + 1 < 9
    ∧ (loadClientProfilesFromCSV stoiDigits stodDigits "clients.csv" (some shortRowFile)
        []).ok = false :=
  have hrow : "C001,Test Client,AT" ∈ dataRows shortRowFile := by decide
  have hshort : ("C001,Test Client,AT".toList.count ',') + 1 < 9 := by decide
  ⟨hrow, hshort,
    load_fails_on_short_row stoiDigits stodDigits "clients.csv" shortRowFile []
      "C001,Test Client,AT" hrow hshort⟩

/-- C19 (counterexample): a file whose only data row has ten comma-separated
fields is loaded without failure; the loader returns true and stores the
record made of the first nine fields. -/
theorem load_accepts_long_row :
    dataRows longRowFile
      = ["C001,Test Client,AT,retail,45,100000,permanent,finance,2000,extra"]
    ∧ ("C001,Test Client,AT,retail,45,100000,permanent,finance,2000,extra".toList.count ',')
        + 1 = 10
    ∧ (loadClientProfilesFromCSV stoiDigits stodDigits "clients.csv" (some longRowFile)
        []).ok = true
    ∧ (loadClientProfilesFromCSV stoiDigits stodDigits "clients.csv" (some longRowFile)
        []).out = [makeClient "C001" 45 100000 "permanent" "finance" 2000] := by
  refine ⟨by decide, by decide, by decide, ?_⟩
  simp [loadClientProfilesFromCSV, dataRows, longRowFile, getlines, getlinesAux, loadRows,
    stoiDigits, stodDigits, digitsValue, makeClient]

/-! ### Clamp and monotonicity -/

/-- The function `calculateScore` is the clamp of `countryAdjustedScore`. -/
theorem calculateScore_eq_clamp_adjusted (c : ClientProfile) (w : ScoreWeights) :
    calculateScore c w = clamp (countryAdjustedScore c w) 0.0 1.0 := rfl

/-- The country adjustment multiplies the total by the country factor. -/
theorem countryAdjustedScore_eq (c : ClientProfile) (w : ScoreWeights) :
    countryAdjustedScore c w = specCountryFactor c.country * preCountryScore c w :=
  countryRisk_adjust c.country (preCountryScore c w)

/-- Every country factor is positive and at most 1. -/
theorem specCountryFactor_bounds (country : String) :
    0 < specCountryFactor country ∧ specCountryFactor country ≤ 1 := by
  unfold specCountryFactor
  split_ifs <;> norm_num

/-- The clamp to the unit interval is monotone. -/
theorem clamp_mono (u v : ℚ) (h : u ≤ v) : clamp u 0.0 1.0 ≤ clamp v 0.0 1.0 := by
  rw [clamp_eq_max_min, clamp_eq_max_min]
  exact max_le_max le_rfl (min_le_min h le_rfl)

/-- C33: under the default weights, for every record the country-adjusted
total before the clamp is at most 1.0, so `calculateScore` equals the maximum
of 0 and that total. -/
theorem upper_clamp_inactive (r : ClientProfile) :
    countryAdjustedScore r ScoreWeights.defaultWeights ≤ 1.0
    ∧ calculateScore r ScoreWeights.defaultWeights
      = max 0 (countryAdjustedScore r ScoreWeights.defaultWeights) := by
  have hp := preCountryScore_default_le_one r
  obtain ⟨hf0, hf1⟩ := specCountryFactor_bounds r.country
  have hle : countryAdjustedScore r ScoreWeights.defaultWeights ≤ 1 := by
    rw [countryAdjustedScore_eq]
    by_cases h0 : 0 ≤ preCountryScore r ScoreWeights.defaultWeights
    · nlinarith
    · nlinarith
  constructor
  · norm_num
    exact hle
  · rw [calculateScore_eq_clamp_adjusted, clamp_eq_max_min, min_eq_left hle]

/-- The debt tier contributes less for a larger debt-to-income ratio, when
the debt weight is not negative. -/
theorem debtTier_anti (wd x1 x2 : ℚ) (hw : 0 ≤ wd) (hx : x1 ≤ x2) :
    (if (DoubleQuot.finite x2).le 0.25 then wd
      else if (DoubleQuot.finite x2).le 0.5 then wd * 0.5 else 0)
    ≤ (if (DoubleQuot.finite x1).le 0.25 then wd
      else if (DoubleQuot.finite x1).le 0.5 then wd * 0.5 else 0) := by
  simp only [DoubleQuot.le, decide_eq_true_eq]
  split_ifs <;> norm_num at * <;> linarith

/-- The total before the country adjustment in terms of the finite
debt-to-income ratio, for a record with a non-negative income. -/
theorem preCountryScore_of_income_nonneg (c : ClientProfile) (w : ScoreWeights)
    (hi : 0 ≤ c.income) :
    preCountryScore c w =
      ageContribution w c.age
      + (if c.income ≥ 30000 then w.getWeight "income" else 0)
      + (if c.employment ∈ stableEmployment then w.getWeight "employment" else 0)
      + (if c.industry ∈ safeIndustries then w.getWeight "industry" else 0)
      + (if (DoubleQuot.finite (c.debt / (c.income + 1))).le 0.25 then w.getWeight "debt"
          else if (DoubleQuot.finite (c.debt / (c.income + 1))).le 0.5
            then w.getWeight "debt" * 0.5
          else 0)
      - (if c.debt > 50000 then 0.1 else 0)
      - (if c.age < 21 ∨ c.age > 75 then 0.05 else 0) := by
  have e1 : c.income + 1.0 = c.income + 1 := by norm_num
  have h0 : c.income + 1 ≠ 0 := by linarith
  rw [preCountryScore_eq_sum, e1]
  unfold divDouble
  rw [if_neg h0]

/-- The score is monotone in the total before the country adjustment, for
two records with the same country. -/
theorem calculateScore_mono_of_pre (c1 c2 : ClientProfile) (w : ScoreWeights)
    (hc : c1.country = c2.country) (h : preCountryScore c1 w ≤ preCountryScore c2 w) :
    calculateScore c1 w ≤ calculateScore c2 w := by
  rw [calculateScore_eq_clamp, calculateScore_eq_clamp, hc]
  apply clamp_mono
  exact mul_le_mul_of_nonneg_left h (le_of_lt (specCountryFactor_bounds c2.country).1)

/-- C34: for every two validated records that differ only in debt, with
`debt1 ≤ debt2`, and every weight table whose debt weight is not negative, the
score of the record with `debt2` is at most the score of the record with
`debt1`. -/
theorem more_debt_never_improves (r : ClientProfile) (debt2 : ℚ) (w : ScoreWeights)
    (row : Int) (hv1 : (validateClientProfile r row).1 = true)
    (_hv2 : (validateClientProfile { r with debt := debt2 } row).1 = true)
    (hle : r.debt ≤ debt2) (hw : 0 ≤ w.getWeight "debt") :
    calculateScore { r with debt := debt2 } w ≤ calculateScore r w := by
  have hi : 0 ≤ r.income := not_lt.mp ((validateClientProfile_flag r row).mp hv1).2.1
  refine calculateScore_mono_of_pre { r with debt := debt2 } r w rfl ?_
  rw [preCountryScore_of_income_nonneg r w hi,
    preCountryScore_of_income_nonneg { r with debt := debt2 } w hi]
  have hpos : 0 < r.income + 1 := by linarith
  have hx : r.debt / (r.income + 1) ≤ debt2 / (r.income + 1) :=
    div_le_div_of_nonneg_right hle (le_of_lt hpos)
  have hD := debtTier_anti (w.getWeight "debt") _ _ hw hx
  have hP : (if r.debt > 50000 then (0.1 : ℚ) else 0)
      ≤ (if debt2 > 50000 then (0.1 : ℚ) else 0) := by
    split_ifs with h1 h2 <;> norm_num
    exact h2 (lt_of_lt_of_le h1 hle)
  show ageContribution w r.age
      + (if r.income ≥ 30000 then w.getWeight "income" else 0)
      + (if r.employment ∈ stableEmployment then w.getWeight "employment" else 0)
      + (if r.industry ∈ safeIndustries then w.getWeight "industry" else 0)
      + (if (DoubleQuot.finite (debt2 / (r.income + 1))).le 0.25 then w.getWeight "debt"
          else if (DoubleQuot.finite (debt2 / (r.income + 1))).le 0.5
            then w.getWeight "debt" * 0.5
          else 0)
      - (if debt2 > 50000 then 0.1 else 0)
      - (if r.age < 21 ∨ r.age > 75 then 0.05 else 0) ≤ _
  linarith

/-- Witness of C34: the high-score record with its debt raised from 2000 to
60000, under the default weights. -/
theorem more_debt_never_improves_witness :
    (validateClientProfile highScoreClient 1).1 = true
    ∧ (validateClientProfile { highScoreClient with debt := 60000 } 1).1 = true
    ∧ highScoreClient.debt ≤ 60000
    ∧ 0 ≤ ScoreWeights.defaultWeights.getWeight "debt"
    ∧ calculateScore { highScoreClient with debt := 60000 } ScoreWeights.defaultWeights
      ≤ calculateScore highScoreClient ScoreWeights.defaultWeights :=
  have hv1 : (validateClientProfile highScoreClient 1).1 = true := by
    rw [validateClientProfile_flag]
    simp [highScoreClient, makeClient]
  have hv2 : (validateClientProfile { highScoreClient with debt := 60000 } 1).1 = true := by
    rw [validateClientProfile_flag]
    simp [highScoreClient, makeClient]
  have hle : highScoreClient.debt ≤ 60000 := by
    norm_num [highScoreClient, makeClient]
  have hw : 0 ≤ ScoreWeights.defaultWeights.getWeight "debt" := by
    rw [getWeight_default_debt]; norm_num
  ⟨hv1, hv2, hle, hw,
    more_debt_never_improves highScoreClient 60000 ScoreWeights.defaultWeights 1 hv1 hv2 hle
      hw⟩

/-- C35: for every two validated records that differ only in income, with
`income1 ≤ income2`, and every weight table whose income and debt weights are
not negative, the score of the record with `income2` is at least the score of
the record with `income1`. -/
theorem more_income_never_lowers (r : ClientProfile) (income2 : ℚ) (w : ScoreWeights)
    (row : Int) (hv1 : (validateClientProfile r row).1 = true)
    (_hv2 : (validateClientProfile { r with income := income2 } row).1 = true)
    (hle : r.income ≤ income2) (hwi : 0 ≤ w.getWeight "income")
    (hwd : 0 ≤ w.getWeight "debt") :
    calculateScore r w ≤ calculateScore { r with income := income2 } w := by
  have hflag := (validateClientProfile_flag r row).mp hv1
  have hi : 0 ≤ r.income := not_lt.mp hflag.2.1
  have hd : 0 ≤ r.debt := not_lt.mp hflag.2.2.2
  have hi2 : 0 ≤ income2 := le_trans hi hle
  refine calculateScore_mono_of_pre r { r with income := income2 } w rfl ?_
  rw [preCountryScore_of_income_nonneg r w hi,
    preCountryScore_of_income_nonneg { r with income := income2 } w hi2]
  have hpos : 0 < r.income + 1 := by linarith
  have hx : r.debt / (income2 + 1) ≤ r.debt / (r.income + 1) :=
    div_le_div_of_nonneg_left hd hpos (by linarith)
  have hD := debtTier_anti (w.getWeight "debt") _ _ hwd hx
  have hI : (if r.income ≥ 30000 then w.getWeight "income" else 0)
      ≤ (if income2 ≥ 30000 then w.getWeight "income" else 0) := by
    split_ifs with h1 h2
    · exact le_refl _
    · exact absurd (le_trans h1 hle) h2
    · exact hwi
    · exact le_refl _
  show _ ≤ ageContribution w r.age
      + (if income2 ≥ 30000 then w.getWeight "income" else 0)
      + (if r.employment ∈ stableEmployment then w.getWeight "employment" else 0)
      + (if r.industry ∈ safeIndustries then w.getWeight "industry" else 0)
      + (if (DoubleQuot.finite (r.debt / (income2 + 1))).le 0.25 then w.getWeight "debt"
          else if (DoubleQuot.finite (r.debt / (income2 + 1))).le 0.5
            then w.getWeight "debt" * 0.5
          else 0)
      - (if r.debt > 50000 then 0.1 else 0)
      - (if r.age < 21 ∨ r.age > 75 then 0.05 else 0)
  linarith

/-- Witness of C35: the low-score record with its income raised from 5000 to
200000, under the default weights. -/
theorem more_income_never_lowers_witness :
    (validateClientProfile lowScoreClient 1).1 = true
    ∧ (validateClientProfile { lowScoreClient with income := 200000 } 1).1 = true
    ∧ lowScoreClient.income ≤ 200000
    ∧ calculateScore lowScoreClient ScoreWeights.defaultWeights
      ≤ calculateScore { lowScoreClient with income := 200000 } ScoreWeights.defaultWeights :=
  have hv1 : (validateClientProfile lowScoreClient 1).1 = true := by
    rw [validateClientProfile_flag]
    simp [lowScoreClient, makeClient]
  have hv2 : (validateClientProfile { lowScoreClient with income := 200000 } 1).1 = true := by
    rw [validateClientProfile_flag]
    simp [lowScoreClient, makeClient]
  have hle : lowScoreClient.income ≤ 200000 := by
    norm_num [lowScoreClient, makeClient]
  ⟨hv1, hv2, hle,
    more_income_never_lowers lowScoreClient 200000 ScoreWeights.defaultWeights 1 hv1 hv2 hle
      (by rw [getWeight_default_income]; norm_num)
      (by rw [getWeight_default_debt]; norm_num)⟩

/-! ### Validation on `double` values -/

namespace Binary64

/-- The flag returned by `validateClientProfile` is true exactly when none of
the four failure conditions of the source holds. -/
theorem validateClientProfile_flag_double (profile : ClientProfile) (row : Int) :
    (validateClientProfile profile row).1 = true ↔
      (¬ (profile.age ≤ 0 ∨ profile.age > 120) ∧ ¬ profile.income < 0
        ∧ ¬ (profile.employment = "" ∨ profile.industry = "") ∧ ¬ profile.debt < 0) := by
  unfold validateClientProfile
  simp only []
  split_ifs with h1 h2 h3 h4 <;> simp only [Bool.false_eq_true, false_iff, true_iff] <;> tauto

/-- On a record with finite values the validator on `double` values returns
what the validator on rational values returns. -/
theorem validateClientProfile_ofRational (p : CreditRisk.ClientProfile) (row : Int) :
    validateClientProfile (ofRational p) row = CreditRisk.validateClientProfile p row := by
  have hi : (IEEE754.Double.finite p.income < 0) ↔ p.income < 0 := by
    show IEEE754.Double.lt (IEEE754.Double.finite p.income) (IEEE754.Double.finite 0) = true ↔ _
    simp [IEEE754.Double.lt]
  have hd : (IEEE754.Double.finite p.debt < 0) ↔ p.debt < 0 := by
    show IEEE754.Double.lt (IEEE754.Double.finite p.debt) (IEEE754.Double.finite 0) = true ↔ _
    simp [IEEE754.Double.lt]
  unfold validateClientProfile CreditRisk.validateClientProfile ofRational
  simp only [hi, hd]

/-- A `double` value is not below 0 exactly when it is at least 0 or a NaN. -/
theorem not_lt_zero_iff (x : IEEE754.Double) :
    ¬ x < 0 ↔ (x ≥ 0 ∨ x = IEEE754.Double.nan) := by
  cases x with
  | finite q =>
    show ¬ (IEEE754.Double.lt (IEEE754.Double.finite q) (IEEE754.Double.finite 0) = true) ↔
      (IEEE754.Double.le (IEEE754.Double.finite 0) (IEEE754.Double.finite q) = true ∨ _)
    simp [IEEE754.Double.lt, IEEE754.Double.le]
  | posInf => decide
  | negInf => decide
  | nan => decide

/-- C5 (counterexample): the record with the income NaN passes
`validateClientProfile`, although its income is not at least 0. -/
theorem nan_income_passes_validation :
    (validateClientProfile nanIncomeClient 1).1 = true
    ∧ ¬ (nanIncomeClient.income ≥ 0)
    ∧ ¬ ((validateClientProfile nanIncomeClient 1).1 = true ↔
      (0 < nanIncomeClient.age ∧ nanIncomeClient.age ≤ 120 ∧ nanIncomeClient.income ≥ 0
        ∧ nanIncomeClient.employment ≠ "" ∧ nanIncomeClient.industry ≠ ""
        ∧ nanIncomeClient.debt ≥ 0)) := by
  have hv : (validateClientProfile nanIncomeClient 1).1 = true := by
    rw [validateClientProfile_flag_double]
    refine ⟨by decide, by decide, by decide, ?_⟩
    show ¬ (IEEE754.Double.lt (IEEE754.Double.finite 2000) (IEEE754.Double.finite 0) = true)
    simp [IEEE754.Double.lt]
  have hn : ¬ (nanIncomeClient.income ≥ 0) := by decide
  exact ⟨hv, hn, fun h => hn (h.mp hv).2.2.1⟩

/-- C5 (amended): for every record and row index, `validateClientProfile`
returns true if and only if `0 < age ≤ 120`, `income` is not below 0,
`employment` and `industry` are non-empty and `debt` is not below 0, where a
value is not below 0 exactly when it is at least 0 or a NaN; the returned
flag is the same for every row index. -/
theorem validateClientProfile_iff_not_below_zero (profile : ClientProfile) (row row2 : Int) :
    ((validateClientProfile profile row).1 = true ↔
      (0 < profile.age ∧ profile.age ≤ 120
        ∧ (profile.income ≥ 0 ∨ profile.income = IEEE754.Double.nan)
        ∧ profile.employment ≠ "" ∧ profile.industry ≠ ""
        ∧ (profile.debt ≥ 0 ∨ profile.debt = IEEE754.Double.nan)))
    ∧ ((validateClientProfile profile row).1 = true ↔
      (0 < profile.age ∧ profile.age ≤ 120 ∧ ¬ profile.income < 0
        ∧ profile.employment ≠ "" ∧ profile.industry ≠ "" ∧ ¬ profile.debt < 0))
    ∧ (validateClientProfile profile row).1 = (validateClientProfile profile row2).1 := by
  have h2 : (validateClientProfile profile row).1 = true ↔
      (0 < profile.age ∧ profile.age ≤ 120 ∧ ¬ profile.income < 0
        ∧ profile.employment ≠ "" ∧ profile.industry ≠ "" ∧ ¬ profile.debt < 0) := by
    rw [validateClientProfile_flag_double profile row]
    simp only [not_or, not_le, not_lt, gt_iff_lt, ne_eq]
    tauto
  refine ⟨?_, h2, ?_⟩
  · rw [h2, not_lt_zero_iff, not_lt_zero_iff]
  · rw [Bool.eq_iff_iff, validateClientProfile_flag_double profile row,
      validateClientProfile_flag_double profile row2]

/-! ### Debt-to-income divisor on `double` values -/

/-- The sum `x + 1.0` of a `double` value that is neither below 0 nor a NaN
is at least 1. -/
theorem one_le_add_one (x : IEEE754.Double) (h : ¬ x < 0) (hn : x ≠ IEEE754.Double.nan) :
    x + 1.0 ≥ 1 := by
  rw [IEEE754.Double.literal_values.2.1]
  cases x with
  | finite q =>
    have hq : 0 ≤ q := by
      by_contra hc
      apply h
      show IEEE754.Double.lt (IEEE754.Double.finite q) (IEEE754.Double.finite 0) = true
      simpa [IEEE754.Double.lt] using hc
    have := IEEE754.Double.round_ge 0 (q + 1) (by norm_num) (by norm_num; exact hq)
    rw [zpow_zero] at this
    exact this
  | posInf => decide
  | negInf => exact absurd (by decide) h
  | nan => exact absurd rfl hn

/-- C17 (counterexample): the record with the income NaN passes
`validateClientProfile`, and its divisor `income + 1.0` is a NaN, which is
not at least 1. -/
theorem nan_income_divisor_not_at_least_one :
    (validateClientProfile nanIncomeClient 1).1 = true
    ∧ nanIncomeClient.income + 1.0 = IEEE754.Double.nan
    ∧ ¬ (nanIncomeClient.income + 1.0 ≥ 1) := by
  have hv : (validateClientProfile nanIncomeClient 1).1 = true := by
    rw [validateClientProfile_flag_double]
    refine ⟨by decide, by decide, by decide, ?_⟩
    show ¬ (IEEE754.Double.lt (IEEE754.Double.finite 2000) (IEEE754.Double.finite 0) = true)
    simp [IEEE754.Double.lt]
  have hs : nanIncomeClient.income + 1.0 = IEEE754.Double.nan := by
    rw [IEEE754.Double.literal_values.2.1]
    rfl
  refine ⟨hv, hs, ?_⟩
  rw [hs]
  decide

/-- C17 (amended): for every record that `validateClientProfile` accepts, the
divisor `income + 1.0` of the debt-to-income ratio (line 105) is at least 1
when the income is not a NaN and is a NaN when the income is a NaN; in both
cases it is not zero, so the division is not a division by zero. -/
theorem validated_divisor_never_zero (profile : ClientProfile) (row : Int)
    (h : (validateClientProfile profile row).1 = true) :
    (profile.income ≠ IEEE754.Double.nan → profile.income + 1.0 ≥ 1)
    ∧ (profile.income = IEEE754.Double.nan → profile.income + 1.0 = IEEE754.Double.nan)
    ∧ profile.income + 1.0 ≠ 0 := by
  have hi : ¬ profile.income < 0 := ((validateClientProfile_flag_double profile row).mp h).2.1
  have hnan : IEEE754.Double.nan + (1.0 : IEEE754.Double) = IEEE754.Double.nan := by
    rw [IEEE754.Double.literal_values.2.1]
    rfl
  refine ⟨fun hn => one_le_add_one _ hi hn, ?_, ?_⟩
  · intro hn
    rw [hn]
    exact hnan
  · by_cases hn : profile.income = IEEE754.Double.nan
    · rw [hn, hnan]
      exact fun e => IEEE754.Double.noConfusion e
    · have h1 := one_le_add_one _ hi hn
      intro hc
      rw [hc] at h1
      exact absurd h1 (by decide)

/-- Witness of C17 (amended): the record of the high-score test. -/
theorem validated_divisor_never_zero_witness :
    (validateClientProfile (ofRational highScoreClient) 1).1 = true
    ∧ (ofRational highScoreClient).income + 1.0 ≥ 1
    ∧ (ofRational highScoreClient).income + 1.0 ≠ 0 :=
  have hv : (validateClientProfile (ofRational highScoreClient) 1).1 = true := by
    rw [validateClientProfile_ofRational, validateClientProfile_flag]
    simp [highScoreClient, makeClient]
  ⟨hv, (validated_divisor_never_zero (ofRational highScoreClient) 1 hv).1
      (fun e => IEEE754.Double.noConfusion e),
    (validated_divisor_never_zero (ofRational highScoreClient) 1 hv).2.2⟩

end Binary64

end CreditRisk

namespace RWA

/-- Lookup of a pair in the entries of one asset class. -/
theorem lookup_class_entries (c0 c r : String) (m : List (String × ℚ)) :
    (m.map (fun q => ((c0, q.1), q.2))).lookup (c, r) = if c = c0 then m.lookup r else none := by
  induction m with
  | nil => simp
  | cons q m ih =>
    obtain ⟨q1, q2⟩ := q
    rw [List.map_cons, List.lookup_cons, List.lookup_cons, ih]
    by_cases hc : c = c0
    · subst hc
      by_cases hr : r = q1
      · subst hr; simp
      · have hb : (r == q1) = false := beq_eq_false_iff_ne.mpr hr
        have hp : ((c, r) == (c, q1)) = false := by
          rw [beq_eq_false_iff_ne]; intro e; exact hr (Prod.mk.inj e).2
        simp [hb, hp]
    · have hp : ((c, r) == (c0, q1)) = false := by
        rw [beq_eq_false_iff_ne]; intro e; exact hc (Prod.mk.inj e).1
      simp [hc, hp]

/-- An asset class without an entry has no pair in the flattened table. -/
theorem lookup_flatten_none (t : List (String × List (String × ℚ))) (c r : String)
    (h : c ∉ t.map Prod.fst) : (flattenTable t).lookup (c, r) = none := by
  induction t with
  | nil => rfl
  | cons p t ih =>
    have hc : c ≠ p.1 := fun e => h (by simp [e])
    have ht : c ∉ t.map Prod.fst := fun e => h (by simp at e ⊢; exact Or.inr e)
    unfold flattenTable
    rw [List.lookup_append, lookup_class_entries, if_neg hc, ih ht]
    rfl

/-- The nested lookup of `getRiskWeight` finds what the flattened table holds
for the pair, when no asset class occurs twice. -/
theorem lookup_nested_eq_flatten (t : List (String × List (String × ℚ))) (c r : String)
    (h : (t.map Prod.fst).Nodup) :
    (match t.lookup c with
      | some cls => cls.lookup r
      | none => none) = (flattenTable t).lookup (c, r) := by
  induction t with
  | nil => rfl
  | cons p t ih =>
    obtain ⟨p1, p2⟩ := p
    rw [List.map_cons, List.nodup_cons] at h
    unfold flattenTable
    rw [List.lookup_append, lookup_class_entries, List.lookup_cons]
    by_cases hc : c = p1
    · subst hc
      rw [if_pos rfl, lookup_flatten_none t c r h.1]
      simp
    · have hb : (c == p1) = false := beq_eq_false_iff_ne.mpr hc
      rw [if_neg hc, hb]
      simp only [Option.none_or]
      exact ih h.2

/-- C20: for every asset class `c` and rating `r`, `getRiskWeight` on the
default table returns the listed weight when the pair `(c, r)` is listed and
1.0 otherwise; corporate/AAA gives 0.2 and corporate/BB gives 0.75, and an
unknown rating, an unknown class, a lowercase rating and empty strings all
give 1.0. -/
theorem getRiskWeight_default (c r : String) :
    RiskWeightTable.defaultTable.getRiskWeight c r =
      (match listedRiskWeights.lookup (c, r) with
        | some w => w
        | none => 1.0)
    ∧ RiskWeightTable.defaultTable.getRiskWeight "corporate" "AAA" = 0.2
    ∧ RiskWeightTable.defaultTable.getRiskWeight "corporate" "BB" = 0.75
    ∧ RiskWeightTable.defaultTable.getRiskWeight "corporate" "ZZZ" = 1.0
    ∧ RiskWeightTable.defaultTable.getRiskWeight "alienAsset" "AAA" = 1.0
    ∧ RiskWeightTable.defaultTable.getRiskWeight "corporate" "aaa" = 1.0
    ∧ RiskWeightTable.defaultTable.getRiskWeight "" "" = 1.0 := by
  have hflat : flattenTable RiskWeightTable.defaultTable.table = listedRiskWeights := by rfl
  have hnd : (RiskWeightTable.defaultTable.table.map Prod.fst).Nodup := by decide
  have key : ∀ c r : String, RiskWeightTable.defaultTable.getRiskWeight c r =
      (match listedRiskWeights.lookup (c, r) with
        | some w => w
        | none => 1.0) := by
    intro c r
    rw [← hflat, ← lookup_nested_eq_flatten _ c r hnd]
    unfold RiskWeightTable.getRiskWeight
    cases RiskWeightTable.defaultTable.table.lookup c <;> rfl
  exact ⟨key c r, rfl, rfl, rfl, rfl, rfl, rfl⟩

/-! ### Capital requirement and input loader -/

/-- C21: for every `rwa` and every country, `calculateCapitalRequirement`
returns `rwa * 0.08`, which is 8% of `rwa` and the same for any two countries;
for 1000 it returns 80. -/
theorem calculateCapitalRequirement_flat (rwa : ℚ) (country country2 : String) :
    calculateCapitalRequirement rwa country = rwa * 0.08
    ∧ calculateCapitalRequirement rwa country = rwa * 8 / 100
    ∧ calculateCapitalRequirement rwa country = calculateCapitalRequirement rwa country2
    ∧ calculateCapitalRequirement 1000 "AT" = 80 := by
  unfold calculateCapitalRequirement
  refine ⟨rfl, ?_, rfl, ?_⟩ <;> norm_num
  ring

/-- A row that yields an exposure is appended and the loop goes on. -/
theorem loadExposureRows_cons_some (stoi : String → Option Int) (stod : String → Option ℚ)
    (line : String) (rest : List String) (lineNumber : Int) (exposures : List Exposure)
    (e : Exposure) (h : rowExposure stoi stod line = some e) :
    loadExposureRows stoi stod (line :: rest) lineNumber exposures
      = loadExposureRows stoi stod rest (lineNumber + 1) (exposures ++ [e]) := by
  unfold rowExposure at h
  rw [loadExposureRows]
  split at h
  · split at h
    · rw [← Option.some.inj h]
    · exact absurd h (by simp)
  · exact absurd h (by simp)

/-- A row that yields no exposure ends the load with the flag false and the
vector as it is. -/
theorem loadExposureRows_cons_none (stoi : String → Option Int) (stod : String → Option ℚ)
    (line : String) (rest : List String) (lineNumber : Int) (exposures : List Exposure)
    (h : rowExposure stoi stod line = none) :
    (loadExposureRows stoi stod (line :: rest) lineNumber exposures).ok = false
    ∧ (loadExposureRows stoi stod (line :: rest) lineNumber exposures).exposures
      = exposures := by
  unfold rowExposure at h
  rw [loadExposureRows]
  split at h
  · split at h
    · exact absurd h (by simp)
    · exact ⟨rfl, rfl⟩
  · exact ⟨rfl, rfl⟩

/-- The load keeps, after the exposures it was given, those of the rows
before the first row that yields none. -/
theorem loadExposureRows_exposures (stoi : String → Option Int) (stod : String → Option ℚ)
    (rows : List String) (lineNumber : Int) (exposures : List Exposure) :
    (loadExposureRows stoi stod rows lineNumber exposures).exposures
      = exposures
        ++ (rows.takeWhile (fun r => (rowExposure stoi stod r).isSome)).filterMap
            (rowExposure stoi stod) := by
  induction rows generalizing lineNumber exposures with
  | nil => simp [loadExposureRows]
  | cons line rest ih =>
    cases hrow : rowExposure stoi stod line with
    | none =>
      rw [(loadExposureRows_cons_none stoi stod line rest lineNumber exposures hrow).2]
      simp [List.takeWhile_cons, hrow]
    | some e =>
      rw [loadExposureRows_cons_some stoi stod line rest lineNumber exposures e hrow, ih]
      simp [List.takeWhile_cons, hrow, List.filterMap_cons]

/-- When every row yields an exposure, the load returns whether the vector
ends up non-empty. -/
theorem loadExposureRows_ok_of_all (stoi : String → Option Int) (stod : String → Option ℚ)
    (rows : List String) (lineNumber : Int) (exposures : List Exposure)
    (h : ∀ r ∈ rows, (rowExposure stoi stod r).isSome = true) :
    (loadExposureRows stoi stod rows lineNumber exposures).ok
      = !(exposures ++ rows.filterMap (rowExposure stoi stod)).isEmpty := by
  induction rows generalizing lineNumber exposures with
  | nil => simp [loadExposureRows]
  | cons line rest ih =>
    have hl := h line (List.mem_cons_self _ _)
    obtain ⟨e, he⟩ := Option.isSome_iff_exists.mp hl
    rw [loadExposureRows_cons_some stoi stod line rest lineNumber exposures e he,
      ih _ _ (fun r hr => h r (List.mem_cons_of_mem _ hr))]
    simp [List.filterMap_cons, he]

/-- C22 (amended): when `loadExposuresFromCSV` returns false on an initially
empty vector, the file has no data row or a data row with a missing field or
an unparseable numeric value; the vector then holds exactly the exposures of
the data rows before the first such row, and it is empty exactly when the
file has no data row or its first data row is such a row. -/
theorem loadExposures_failure_keeps_earlier_rows (stoi : String → Option Int)
    (stod : String → Option ℚ) (content : String)
    (h : (loadExposuresFromCSV stoi stod (some content) []).ok = false) :
    (CreditRisk.dataRows content = []
      ∨ ∃ r ∈ CreditRisk.dataRows content, rowExposure stoi stod r = none)
    ∧ (loadExposuresFromCSV stoi stod (some content) []).exposures
      = ((CreditRisk.dataRows content).takeWhile
          (fun r => (rowExposure stoi stod r).isSome)).filterMap (rowExposure stoi stod)
    ∧ ((loadExposuresFromCSV stoi stod (some content) []).exposures = []
      ↔ (CreditRisk.dataRows content).head?.bind (rowExposure stoi stod) = none) := by
  have hexp := loadExposureRows_exposures stoi stod (CreditRisk.dataRows content) 1 []
  unfold loadExposuresFromCSV at h ⊢
  simp only [List.nil_append] at hexp
  refine ⟨?_, hexp, ?_⟩
  · by_contra hc
    rw [not_or] at hc
    obtain ⟨hne, hall⟩ := hc
    have hall2 : ∀ r ∈ CreditRisk.dataRows content,
        (rowExposure stoi stod r).isSome = true := by
      intro r hr
      cases hrow : rowExposure stoi stod r with
      | none => exact absurd ⟨r, hr, hrow⟩ hall
      | some e => rfl
    rw [loadExposureRows_ok_of_all stoi stod _ 1 [] hall2] at h
    cases hrows : CreditRisk.dataRows content with
    | nil => exact hne hrows
    | cons r rest =>
      rw [hrows] at h hall2
      obtain ⟨e, he⟩ := Option.isSome_iff_exists.mp (hall2 r (List.mem_cons_self _ _))
      simp [List.filterMap_cons, he] at h
  · rw [hexp]
    cases hrows : CreditRisk.dataRows content with
    | nil => simp
    | cons r rest =>
      cases hrow : rowExposure stoi stod r with
      | none => simp [List.takeWhile_cons, hrow]
      | some e => simp [List.takeWhile_cons, hrow, List.filterMap_cons]

/-- Witness of C22 (amended): the file of the test `FailsOnMalformedLine`. -/
theorem loadExposures_failure_keeps_earlier_rows_witness :
    (loadExposuresFromCSV CreditRisk.stoiDigits CreditRisk.stodDigits (some malformedFile)
      []).ok = false
    ∧ (loadExposuresFromCSV CreditRisk.stoiDigits CreditRisk.stodDigits (some malformedFile)
      []).exposures = [] :=
  have h : (loadExposuresFromCSV CreditRisk.stoiDigits CreditRisk.stodDigits
      (some malformedFile) []).ok = false := by decide
  ⟨h, ((loadExposures_failure_keeps_earlier_rows CreditRisk.stoiDigits CreditRisk.stodDigits
      malformedFile h).2.2).mpr (by decide)⟩

/-- C22 (counterexample): on a file whose first data row is well formed and
whose second data row lacks its last field, `loadExposuresFromCSV` returns
false on an initially empty vector and leaves the exposure of the first row
in it. -/
theorem loadExposures_failure_keeps_first_row :
    (loadExposuresFromCSV CreditRisk.stoiDigits CreditRisk.stodDigits (some lateFailureFile)
      []).ok = false
    ∧ (loadExposuresFromCSV CreditRisk.stoiDigits CreditRisk.stodDigits (some lateFailureFile)
      []).exposures
      = [{ year := 2021, assetClass := "corporate", rating := "AA",
           exposureAmount := 1000000, country := "DE" }]
    ∧ (loadExposuresFromCSV CreditRisk.stoiDigits CreditRisk.stodDigits (some lateFailureFile)
      []).exposures ≠ [] := by
  have he : (loadExposuresFromCSV CreditRisk.stoiDigits CreditRisk.stodDigits
      (some lateFailureFile) []).exposures
      = [{ year := 2021, assetClass := "corporate", rating := "AA",
           exposureAmount := 1000000, country := "DE" }] := by
    simp [loadExposuresFromCSV, CreditRisk.dataRows, lateFailureFile, CreditRisk.getlines,
      CreditRisk.getlinesAux, loadExposureRows, CreditRisk.stoiDigits, CreditRisk.stodDigits,
      CreditRisk.digitsValue]
  refine ⟨by decide, he, ?_⟩
  rw [he]
  simp

/-! ### Default-weight diagnostic -/

/-- On the default table `getRiskWeight` returns the listed weight of a listed
pair and 1.0 for any other pair. -/
theorem getRiskWeight_default_eq_listed (c r : String) :
    RiskWeightTable.defaultTable.getRiskWeight c r =
      (match listedRiskWeights.lookup (c, r) with
        | some w => w
        | none => 1.0) := by
  have hflat : flattenTable RiskWeightTable.defaultTable.table = listedRiskWeights := by rfl
  have hnd : (RiskWeightTable.defaultTable.table.map Prod.fst).Nodup := by decide
  rw [← hflat, ← lookup_nested_eq_flatten _ c r hnd]
  unfold RiskWeightTable.getRiskWeight
  cases RiskWeightTable.defaultTable.table.lookup c <;> rfl

/-- The main loop writes the diagnostic for exactly the exposures whose risk
weight equals 1.0, in their order. -/
theorem resultLoop_cerr (weights : RiskWeightTable) (exposures : List Exposure) :
    (resultLoop weights exposures).2
      = (exposures.filter
          (fun e => decide (weights.getRiskWeight e.assetClass e.rating = 1.0))).map
          defaultWeightDiagnostic := by
  induction exposures with
  | nil => rfl
  | cons exp rest ih =>
    rw [resultLoop]
    simp only []
    rw [ih, List.filter_cons]
    by_cases h : weights.getRiskWeight exp.assetClass exp.rating = 1.0
    · simp [h]
    · simp [h]

/-- C39 (counterexample): the pair corporate/B is listed in the default table
with the weight 1.0, `getRiskWeight` returns 1.0 for it, and the main loop
writes the default-weight diagnostic for an exposure with this pair. -/
theorem listed_pair_gets_diagnostic :
    listedRiskWeights.lookup ("corporate", "B") = some 1.0
    ∧ RiskWeightTable.defaultTable.getRiskWeight "corporate" "B" = 1.0
    ∧ (resultLoop RiskWeightTable.defaultTable [corporateBExposure]).2
      = [defaultWeightDiagnostic corporateBExposure] := by
  have hw : RiskWeightTable.defaultTable.getRiskWeight "corporate" "B" = 1.0 := rfl
  refine ⟨rfl, hw, ?_⟩
  rw [resultLoop_cerr]
  have hd : decide (RiskWeightTable.defaultTable.getRiskWeight corporateBExposure.assetClass
      corporateBExposure.rating = 1.0) = true := decide_eq_true hw
  simp only [List.filter_cons, hd, if_true, List.filter_nil, List.map_cons, List.map_nil]

/-- C39 (amended): for an exposure whose pair of asset class and rating is
absent from the default table, `getRiskWeight` returns 1.0 and the main loop
writes the default-weight diagnostic; for an exposure whose pair is listed
with a weight other than 1.0, `getRiskWeight` returns that weight and the
loop writes no diagnostic; the pairs listed with the weight 1.0 are
corporate/B, sovereign/BB, mortgage/BB, securitization/A and
securitization/BBB. -/
theorem diagnostic_for_absent_pairs (exp : Exposure) :
    (listedRiskWeights.lookup (exp.assetClass, exp.rating) = none →
      RiskWeightTable.defaultTable.getRiskWeight exp.assetClass exp.rating = 1.0
      ∧ (resultLoop RiskWeightTable.defaultTable [exp]).2 = [defaultWeightDiagnostic exp])
    ∧ (∀ w, listedRiskWeights.lookup (exp.assetClass, exp.rating) = some w → w ≠ 1.0 →
      RiskWeightTable.defaultTable.getRiskWeight exp.assetClass exp.rating = w
      ∧ RiskWeightTable.defaultTable.getRiskWeight exp.assetClass exp.rating ≠ 1.0
      ∧ (resultLoop RiskWeightTable.defaultTable [exp]).2 = [])
    ∧ (listedRiskWeights.filter (fun p => decide (p.2 = 1.0))).map (fun p => p.1)
      = [("corporate", "B"), ("sovereign", "BB"), ("mortgage", "BB"),
          ("securitization", "A"), ("securitization", "BBB")] := by
  refine ⟨?_, ?_, ?_⟩
  · intro h
    have hw : RiskWeightTable.defaultTable.getRiskWeight exp.assetClass exp.rating = 1.0 := by
      rw [getRiskWeight_default_eq_listed, h]
    refine ⟨hw, ?_⟩
    rw [resultLoop_cerr]
    simp [hw]
  · intro w h hne
    have hw : RiskWeightTable.defaultTable.getRiskWeight exp.assetClass exp.rating = w := by
      rw [getRiskWeight_default_eq_listed, h]
    refine ⟨hw, by rw [hw]; exact hne, ?_⟩
    rw [resultLoop_cerr]
    have hd : decide (RiskWeightTable.defaultTable.getRiskWeight exp.assetClass exp.rating
        = 1.0) = false := by
      rw [hw]; exact decide_eq_false hne
    simp only [List.filter_cons, hd, List.filter_nil, List.map_nil]
    rfl
  · simp [listedRiskWeights]
    norm_num

/-- Witness of C39 (amended): the unknown rating `ZZZ` and the listed pair
corporate/AAA. -/
theorem diagnostic_for_absent_pairs_witness :
    RiskWeightTable.defaultTable.getRiskWeight "corporate" "ZZZ" = 1.0
    ∧ RiskWeightTable.defaultTable.getRiskWeight "corporate" "AAA" ≠ 1.0 :=
  ⟨((diagnostic_for_absent_pairs
      { year := 2024, assetClass := "corporate", rating := "ZZZ", exposureAmount := 1000,
        country := "DE" }).1 rfl).1,
    ((diagnostic_for_absent_pairs
      { year := 2024, assetClass := "corporate", rating := "AAA", exposureAmount := 1000,
        country := "DE" }).2.1 0.2 rfl (by norm_num)).2.1⟩

end RWA

namespace Amortization

/-- One pass of the loop when the loop condition holds. -/
theorem scheduleLoop_of_le {α : Type} [Sub α] [Mul α] [OfScientific α]
    (monthlyRate monthlyPayment : α) (termMonths i : Int) (balance : α) (h : i ≤ termMonths) :
    scheduleLoop monthlyRate monthlyPayment termMonths i balance
      = { month := i, principal := monthlyPayment - balance * monthlyRate,
          interest := balance * monthlyRate,
          balance := if i = termMonths then 0.0
            else balance - (monthlyPayment - balance * monthlyRate) }
        :: scheduleLoop monthlyRate monthlyPayment termMonths (i + 1)
            (if i = termMonths then 0.0
              else balance - (monthlyPayment - balance * monthlyRate)) := by
  rw [scheduleLoop, if_pos h]

/-- The loop ends when the loop condition fails. -/
theorem scheduleLoop_of_gt {α : Type} [Sub α] [Mul α] [OfScientific α]
    (monthlyRate monthlyPayment : α) (termMonths i : Int) (balance : α) (h : termMonths < i) :
    scheduleLoop monthlyRate monthlyPayment termMonths i balance = [] := by
  rw [scheduleLoop, if_neg (not_le.mpr h)]

/-- The months of the entries that the loop appends count up from `i` to
`termMonths`. -/
theorem scheduleLoop_months {α : Type} [Sub α] [Mul α] [OfScientific α]
    (monthlyRate monthlyPayment : α) (termMonths : Int) (d : Nat) (i : Int) (balance : α)
    (hd : (termMonths + 1 - i).toNat = d) :
    (scheduleLoop monthlyRate monthlyPayment termMonths i balance).map (fun e => e.month)
      = (List.range d).map (fun (k : Nat) => i + (k : Int)) := by
  induction d generalizing i balance with
  | zero =>
    rw [scheduleLoop_of_gt _ _ _ _ _ (by omega)]
    rfl
  | succ d ih =>
    rw [scheduleLoop_of_le _ _ _ _ _ (by omega), List.map_cons, ih (i + 1) _ (by omega),
      List.range_succ_eq_map, List.map_cons, List.map_map]
    congr 1
    · simp
    · apply List.map_congr_left
      intro k _
      simp only [Function.comp, Nat.succ_eq_add_one]
      push_cast
      ring

/-- C23: for every principal, annual rate and `termMonths = n ≥ 1`, in every
arithmetic, `calculateSchedule` returns exactly `n` entries and the entry at
position `k` (counted from 0) has `month = k + 1`. -/
theorem calculateSchedule_months {α : Type} [Add α] [Sub α] [Mul α] [Div α] [One α]
    [OfScientific α] [HPow α Int α] (principal annualRate : α) (n : Int) (hn : 1 ≤ n) :
    ((LoanAmortizationCalculator.mk principal annualRate n).calculateSchedule.length : Int) = n
    ∧ ∀ (k : Nat) (hk : k < (LoanAmortizationCalculator.mk principal annualRate
          n).calculateSchedule.length),
        ((LoanAmortizationCalculator.mk principal annualRate n).calculateSchedule.get
          ⟨k, hk⟩).month = (k : Int) + 1 := by
  have hm := scheduleLoop_months (annualRate / 12.0 / 100.0)
    ((principal * (annualRate / 12.0 / 100.0))
      / (1 - (1 + annualRate / 12.0 / 100.0) ^ (-n))) n n.toNat 1 principal (by omega)
  have hlen : (LoanAmortizationCalculator.mk principal annualRate n).calculateSchedule.length
      = n.toNat := by
    have := congrArg List.length hm
    simpa [LoanAmortizationCalculator.calculateSchedule] using this
  constructor
  · rw [hlen]; omega
  · intro k hk
    have h1 : ((LoanAmortizationCalculator.mk principal annualRate n).calculateSchedule.map
        (fun e => e.month)).get? k = some ((1 : Int) + (k : Int)) := by
      unfold LoanAmortizationCalculator.calculateSchedule
      simp only []
      rw [hm, List.get?_eq_getElem?, List.getElem?_map, List.getElem?_range (by omega)]
      rfl
    rw [List.get?_eq_getElem?, List.getElem?_map, List.getElem?_eq_getElem hk] at h1
    simp only [Option.map_some', Option.some.injEq] at h1
    rw [List.get_eq_getElem, h1]
    ring

/-- Witness of C23: the loan of the test `CorrectNumberOfEntries`. -/
theorem calculateSchedule_months_witness :
    (1 : Int) ≤ 12
    ∧ ((LoanAmortizationCalculator.mk (100000 : ℚ) 5.0 12).calculateSchedule.length : Int)
      = 12 :=
  ⟨by decide, (calculateSchedule_months (100000 : ℚ) 5.0 12 (by decide)).1⟩

/-- The last entry that the loop appends has the balance `0.0`. -/
theorem scheduleLoop_last_balance {α : Type} [Sub α] [Mul α] [OfScientific α]
    (monthlyRate monthlyPayment : α) (termMonths : Int) (d : Nat) (i : Int) (balance : α)
    (hd : (termMonths - i).toNat = d) (hi : i ≤ termMonths) :
    ((scheduleLoop monthlyRate monthlyPayment termMonths i balance).getLast?).map
      (fun e => e.balance) = some 0.0 := by
  induction d generalizing i balance with
  | zero =>
    have hit : i = termMonths := by omega
    rw [scheduleLoop_of_le _ _ _ _ _ hi, scheduleLoop_of_gt _ _ _ _ _ (by omega)]
    simp [hit]
  | succ d ih =>
    have hne : i ≠ termMonths := by omega
    rw [scheduleLoop_of_le _ _ _ _ _ hi, if_neg hne]
    have ih2 := ih (i + 1) (balance - (monthlyPayment - balance * monthlyRate)) (by omega)
      (by omega)
    rw [scheduleLoop_of_le _ _ _ _ _ (by omega)] at ih2 ⊢
    rw [List.getLast?_cons_cons]
    exact ih2

/-- C26: for every principal, annual rate and term `n ≥ 1`, in every
arithmetic, the balance of the last schedule entry is the constant `0.0`. -/
theorem calculateSchedule_last_balance {α : Type} [Add α] [Sub α] [Mul α] [Div α] [One α]
    [OfScientific α] [HPow α Int α] (principal annualRate : α) (n : Int) (hn : 1 ≤ n) :
    ((LoanAmortizationCalculator.mk principal annualRate n).calculateSchedule.getLast?).map
      (fun e => e.balance) = some 0.0 := by
  unfold LoanAmortizationCalculator.calculateSchedule
  exact scheduleLoop_last_balance _ _ n (n - 1).toNat 1 principal rfl hn

/-- Witness of C26: the loan of the test `FinalBalanceIsZero`. -/
theorem calculateSchedule_last_balance_witness :
    (1 : Int) ≤ 24
    ∧ ((LoanAmortizationCalculator.mk (120000 : ℚ) 3.0 24).calculateSchedule.getLast?).map
      (fun e => e.balance) = some 0.0 :=
  ⟨by decide, calculateSchedule_last_balance (120000 : ℚ) 3.0 24 (by decide)⟩

/-! ### Values of the schedule in exact arithmetic -/

/-- In exact arithmetic every entry that the loop appends has the payment
`principal + interest = monthlyPayment`. -/
theorem scheduleLoop_payment (monthlyRate monthlyPayment : ℚ) (termMonths : Int) (d : Nat)
    (i : Int) (balance : ℚ) (hd : (termMonths + 1 - i).toNat = d) :
    ∀ e ∈ scheduleLoop monthlyRate monthlyPayment termMonths i balance,
      e.principal + e.interest = monthlyPayment := by
  induction d generalizing i balance with
  | zero =>
    rw [scheduleLoop_of_gt _ _ _ _ _ (by omega)]
    intro e he
    exact absurd he (List.not_mem_nil e)
  | succ d ih =>
    rw [scheduleLoop_of_le _ _ _ _ _ (by omega)]
    intro e he
    rcases List.mem_cons.mp he with h | h
    · rw [h]; ring
    · exact ih (i + 1) _ (by omega) e h

/-- For a positive principal, a positive rate and a term of at least one
month, the divisor of the monthly payment lies strictly between 0 and 1. -/
theorem payment_divisor_pos (monthlyRate : ℚ) (n : Int) (hr : 0 < monthlyRate) (hn : 1 ≤ n) :
    0 < 1 - (1 + monthlyRate) ^ (-n) ∧ 1 - (1 + monthlyRate) ^ (-n) < 1 := by
  have h1 : (1 + monthlyRate) ^ (-n) < 1 :=
    zpow_lt_one_of_neg₀ (by linarith) (by omega)
  have h2 : 0 < (1 + monthlyRate) ^ (-n) := zpow_pos (by linarith) _
  constructor <;> linarith

/-- C24 (amended): in exact arithmetic, for every principal > 0, annual rate
> 0 and term `n ≥ 1`, every schedule entry satisfies
`principal + interest = P * r / (1 - (1 + r) ^ (-n))` with
`r = annualRate / 12 / 100`, where the divisor is not zero; so every entry has
the payment of the first one. -/
theorem calculateSchedule_payment_stable (P annualRate : ℚ) (n : Int) (_hP : 0 < P)
    (hr : 0 < annualRate) (hn : 1 ≤ n) :
    1 - (1 + annualRate / 12 / 100) ^ (-n) ≠ 0
    ∧ (∀ e ∈ (LoanAmortizationCalculator.mk P annualRate n).calculateSchedule,
        e.principal + e.interest
          = P * (annualRate / 12 / 100) / (1 - (1 + annualRate / 12 / 100) ^ (-n)))
    ∧ (∀ e ∈ (LoanAmortizationCalculator.mk P annualRate n).calculateSchedule,
        ∀ e0 ∈ (LoanAmortizationCalculator.mk P annualRate n).calculateSchedule.head?,
          e.principal + e.interest = e0.principal + e0.interest) := by
  have e12 : (12.0 : ℚ) = 12 := by norm_num
  have e100 : (100.0 : ℚ) = 100 := by norm_num
  have hrm : 0 < annualRate / 12 / 100 := by positivity
  have hpay : ∀ e ∈ (LoanAmortizationCalculator.mk P annualRate n).calculateSchedule,
      e.principal + e.interest
        = P * (annualRate / 12 / 100) / (1 - (1 + annualRate / 12 / 100) ^ (-n)) := by
    unfold LoanAmortizationCalculator.calculateSchedule
    simp only [e12, e100]
    exact scheduleLoop_payment _ _ n _ 1 P rfl
  refine ⟨ne_of_gt (payment_divisor_pos _ n hrm hn).1, hpay, ?_⟩
  intro e he e0 he0
  have he0' : e0 ∈ (LoanAmortizationCalculator.mk P annualRate n).calculateSchedule :=
    List.mem_of_mem_head? he0
  rw [hpay e he, hpay e0 he0']

/-- Witness of C24 (amended): the loan of the test `MonthlyPaymentIsStable`. -/
theorem calculateSchedule_payment_stable_witness :
    (0 : ℚ) < 200000 ∧ (0 : ℚ) < 4.5 ∧ (1 : Int) ≤ 36
    ∧ ∀ e ∈ (LoanAmortizationCalculator.mk (200000 : ℚ) 4.5 36).calculateSchedule,
        e.principal + e.interest
          = 200000 * (4.5 / 12 / 100) / (1 - (1 + 4.5 / 12 / 100) ^ (-(36 : Int))) :=
  ⟨by norm_num, by norm_num, by decide,
    (calculateSchedule_payment_stable 200000 4.5 36 (by norm_num) (by norm_num)
      (by decide)).2.1⟩

/-- In exact arithmetic, when the rate is positive and the payment exceeds
the interest on the balance, the principal parts of the entries that the loop
appends are at least the first one and strictly increase. -/
theorem scheduleLoop_principal_increases (monthlyRate monthlyPayment : ℚ) (termMonths : Int)
    (d : Nat) (i : Int) (balance : ℚ) (hd : (termMonths + 1 - i).toNat = d)
    (hr : 0 < monthlyRate) (hpp : 0 < monthlyPayment - balance * monthlyRate) :
    (∀ e ∈ scheduleLoop monthlyRate monthlyPayment termMonths i balance,
      monthlyPayment - balance * monthlyRate ≤ e.principal)
    ∧ (scheduleLoop monthlyRate monthlyPayment termMonths i balance).Pairwise
      (fun a b => a.principal < b.principal) := by
  induction d generalizing i balance with
  | zero =>
    rw [scheduleLoop_of_gt _ _ _ _ _ (by omega)]
    exact ⟨fun e he => absurd he (List.not_mem_nil e), List.Pairwise.nil⟩
  | succ d ih =>
    rw [scheduleLoop_of_le _ _ _ _ _ (by omega)]
    by_cases hit : i = termMonths
    · rw [scheduleLoop_of_gt _ _ _ _ _ (by omega)]
      constructor
      · intro e he
        rw [List.mem_singleton] at he
        rw [he]
      · exact List.pairwise_singleton _ _
    · rw [if_neg hit]
      have hnext : monthlyPayment
          - (balance - (monthlyPayment - balance * monthlyRate)) * monthlyRate
          = (monthlyPayment - balance * monthlyRate) * (1 + monthlyRate) := by ring
      have hgt : monthlyPayment - balance * monthlyRate
          < monthlyPayment
            - (balance - (monthlyPayment - balance * monthlyRate)) * monthlyRate := by
        rw [hnext]
        nlinarith
      obtain ⟨ih1, ih2⟩ := ih (i + 1) (balance - (monthlyPayment - balance * monthlyRate))
        (by omega) (lt_trans hpp hgt)
      constructor
      · intro e he
        rcases List.mem_cons.mp he with h | h
        · rw [h]
        · exact le_of_lt (lt_of_lt_of_le hgt (ih1 e h))
      · rw [List.pairwise_cons]
        exact ⟨fun e he => lt_of_lt_of_le hgt (ih1 e he), ih2⟩

/-- C25 (amended): in exact arithmetic, for every principal > 0, annual rate
> 0 and term `n ≥ 2`, of any two schedule entries the later one has the strictly lower
interest and the strictly higher principal part; so these strictly decrease
and increase from each month to the next, and the first and the last entry
hold the extremes. -/
theorem calculateSchedule_interest_decreases (P annualRate : ℚ) (n : Int) (hP : 0 < P)
    (hr : 0 < annualRate) (hn : 2 ≤ n) :
    (LoanAmortizationCalculator.mk P annualRate n).calculateSchedule.Pairwise
      (fun a b => b.interest < a.interest ∧ a.principal < b.principal) := by
  have e12 : (12.0 : ℚ) = 12 := by norm_num
  have e100 : (100.0 : ℚ) = 100 := by norm_num
  have hrm : 0 < annualRate / 12 / 100 := by positivity
  obtain ⟨hd0, hd1⟩ := payment_divisor_pos (annualRate / 12 / 100) n hrm (by omega)
  have hnum : 0 < P * (annualRate / 12 / 100) := by positivity
  have hpp : 0 < P * (annualRate / 12 / 100) / (1 - (1 + annualRate / 12 / 100) ^ (-n))
      - P * (annualRate / 12 / 100) := by
    rw [sub_pos, lt_div_iff₀ hd0]
    nlinarith
  have hpay := scheduleLoop_payment (annualRate / 12 / 100)
    (P * (annualRate / 12 / 100) / (1 - (1 + annualRate / 12 / 100) ^ (-n))) n _ 1 P rfl
  have hinc := (scheduleLoop_principal_increases (annualRate / 12 / 100)
    (P * (annualRate / 12 / 100) / (1 - (1 + annualRate / 12 / 100) ^ (-n))) n _ 1 P rfl
    hrm hpp).2
  unfold LoanAmortizationCalculator.calculateSchedule
  simp only [e12, e100]
  rw [List.pairwise_iff_getElem] at hinc ⊢
  intro j k hj hk hjk
  have h1 := hinc j k hj hk hjk
  have h2 := hpay _ (List.getElem_mem hj)
  have h3 := hpay _ (List.getElem_mem hk)
  exact ⟨by linarith, h1⟩

/-- Witness of C25 (amended): the loan of the tests `InterestDecreasesOverTime` and
`PrincipalIncreasesOverTime`. -/
theorem calculateSchedule_interest_decreases_witness :
    (0 : ℚ) < 150000 ∧ (0 : ℚ) < 6.0 ∧ (2 : Int) ≤ 24
    ∧ (LoanAmortizationCalculator.mk (150000 : ℚ) 6.0 24).calculateSchedule.Pairwise
      (fun a b => b.interest < a.interest ∧ a.principal < b.principal) :=
  ⟨by norm_num, by norm_num, by decide,
    calculateSchedule_interest_decreases 150000 6.0 24 (by norm_num) (by norm_num)
      (by decide)⟩

/-! ### Repayment in exact arithmetic -/

/-- In exact arithmetic the principal parts of the entries that the loop
appends sum to the balance at loop entry minus the balance that remains
after the passes, `d` being the number of passes. -/
theorem scheduleLoop_principal_sum (monthlyRate monthlyPayment : ℚ) (termMonths : Int)
    (d : Nat) (i : Int) (balance : ℚ) (hd : (termMonths + 1 - i).toNat = d)
    (hr : monthlyRate ≠ 0) :
    ((scheduleLoop monthlyRate monthlyPayment termMonths i balance).map
        (fun e => e.principal)).sum
      = balance - (balance * (1 + monthlyRate) ^ d
          - monthlyPayment * ((1 + monthlyRate) ^ d - 1) / monthlyRate) := by
  induction d generalizing i balance with
  | zero =>
    rw [scheduleLoop_of_gt _ _ _ _ _ (by omega)]
    simp
  | succ d ih =>
    rw [scheduleLoop_of_le _ _ _ _ _ (by omega), List.map_cons, List.sum_cons,
      ih (i + 1) _ (by omega)]
    by_cases hit : i = termMonths
    · have hd0 : d = 0 := by omega
      subst hd0
      simp only [pow_zero, zero_add, pow_one]
      field_simp
      ring
    · rw [if_neg hit]
      simp only [pow_succ]
      field_simp
      ring

/-- C36: in exact arithmetic, for every principal > 0, annual rate > 0 and
term `n ≥ 1`, the principal parts of the schedule entries sum to the loan
principal, so the balance that remains after the last payment is 0 before the
code sets it to 0. -/
theorem principal_parts_repay_loan (P annualRate : ℚ) (n : Int) (_hP : 0 < P)
    (hr : 0 < annualRate) (hn : 1 ≤ n) :
    ((LoanAmortizationCalculator.mk P annualRate n).calculateSchedule.map
        (fun e => e.principal)).sum = P
    ∧ P - ((LoanAmortizationCalculator.mk P annualRate n).calculateSchedule.map
        (fun e => e.principal)).sum = 0 := by
  have e12 : (12.0 : ℚ) = 12 := by norm_num
  have e100 : (100.0 : ℚ) = 100 := by norm_num
  have hrm : 0 < annualRate / 12 / 100 := by positivity
  have hsum : ((LoanAmortizationCalculator.mk P annualRate n).calculateSchedule.map
      (fun e => e.principal)).sum = P := by
    unfold LoanAmortizationCalculator.calculateSchedule
    simp only [e12, e100]
    rw [scheduleLoop_principal_sum _ _ n n.toNat 1 P (by omega) (ne_of_gt hrm)]
    have hq1 : 1 < 1 + annualRate / 12 / 100 := by linarith
    have hk : n.toNat ≠ 0 := by omega
    have hqk : 1 < (1 + annualRate / 12 / 100) ^ n.toNat := one_lt_pow₀ hq1 hk
    have hz : (1 + annualRate / 12 / 100) ^ (-n)
        = ((1 + annualRate / 12 / 100) ^ n.toNat)⁻¹ := by
      rw [zpow_neg, ← zpow_natCast, Int.toNat_of_nonneg (by omega)]
    rw [hz]
    have h1 : (1 + annualRate / 12 / 100) ^ n.toNat ≠ 0 := by positivity
    have h2 : (1 + annualRate / 12 / 100) ^ n.toNat - 1 ≠ 0 := by linarith
    have h3 : annualRate / 12 / 100 ≠ 0 := ne_of_gt hrm
    generalize (1 + annualRate / 12 / 100) ^ n.toNat = Q at *
    generalize annualRate / 12 / 100 = m at *
    have h4 : 1 - Q⁻¹ ≠ 0 := by
      have : Q⁻¹ < 1 := inv_lt_one_of_one_lt₀ hqk
      linarith
    field_simp
    ring
  exact ⟨hsum, by rw [hsum]; ring⟩

/-- Witness of C36: the loan of the test `FinalBalanceIsZero`. -/
theorem principal_parts_repay_loan_witness :
    (0 : ℚ) < 120000 ∧ (0 : ℚ) < 3.0 ∧ (1 : Int) ≤ 24
    ∧ ((LoanAmortizationCalculator.mk (120000 : ℚ) 3.0 24).calculateSchedule.map
        (fun e => e.principal)).sum = 120000 :=
  ⟨by norm_num, by norm_num, by decide,
    (principal_parts_repay_loan 120000 3.0 24 (by norm_num) (by norm_num) (by decide)).1⟩

/-! ### The schedule in binary64 arithmetic at a tiny rate -/

/-- In binary64 the monthly rate of the annual rate `1e-15` is a positive
number of at most `2 ^ (-58)`. -/
theorem tinyRate_monthlyRate :
    ∃ m : ℚ, (1e-15 : IEEE754.Double) / 12.0 / 100.0 = IEEE754.Double.finite m
      ∧ (2 : ℚ) ^ (-61 : Int) ≤ m ∧ m ≤ (2 : ℚ) ^ (-58 : Int) := by
  obtain ⟨_, _, h12, h100⟩ := IEEE754.Double.literal_values
  have hz : ∀ k : Nat, (2 : ℚ) ^ (-(k : Int)) = 1 / (2 : ℚ) ^ k := by
    intro k
    rw [zpow_neg, zpow_natCast]
    simp
  obtain ⟨r0, hr0, ha0, hb0⟩ := IEEE754.Double.round_between (-50) (-49) (1e-15 : ℚ)
    (by norm_num) (by norm_num)
    (by rw [show (-50 : Int) = -((50 : Nat) : Int) by norm_num, hz]; norm_num)
    (by rw [show (-49 : Int) = -((49 : Nat) : Int) by norm_num, hz]; norm_num)
  have e0 : (1e-15 : IEEE754.Double) = IEEE754.Double.finite r0 := hr0
  rw [show (-50 : Int) = -((50 : Nat) : Int) by norm_num, hz] at ha0
  rw [show (-49 : Int) = -((49 : Nat) : Int) by norm_num, hz] at hb0
  obtain ⟨r1, hr1, ha1, hb1⟩ := IEEE754.Double.round_between (-54) (-52) (r0 / 12)
    (by norm_num) (by norm_num)
    (by rw [show (-54 : Int) = -((54 : Nat) : Int) by norm_num, hz]
        rw [le_div_iff₀ (by norm_num)]
        norm_num at ha0 ⊢
        linarith)
    (by rw [show (-52 : Int) = -((52 : Nat) : Int) by norm_num, hz]
        rw [div_le_iff₀ (by norm_num)]
        norm_num at hb0 ⊢
        linarith)
  have e1 : IEEE754.Double.finite r0 / 12.0 = IEEE754.Double.finite r1 := by
    rw [h12]
    show IEEE754.Double.div _ _ = _
    simp only [IEEE754.Double.div]
    rw [if_neg (by norm_num)]
    exact hr1
  rw [show (-54 : Int) = -((54 : Nat) : Int) by norm_num, hz] at ha1
  rw [show (-52 : Int) = -((52 : Nat) : Int) by norm_num, hz] at hb1
  obtain ⟨m, hm, ha2, hb2⟩ := IEEE754.Double.round_between (-61) (-58) (r1 / 100)
    (by norm_num) (by norm_num)
    (by rw [show (-61 : Int) = -((61 : Nat) : Int) by norm_num, hz]
        rw [le_div_iff₀ (by norm_num)]
        norm_num at ha1 ⊢
        linarith)
    (by rw [show (-58 : Int) = -((58 : Nat) : Int) by norm_num, hz]
        rw [div_le_iff₀ (by norm_num)]
        norm_num at hb1 ⊢
        linarith)
  have e2 : IEEE754.Double.finite r1 / 100.0 = IEEE754.Double.finite m := by
    rw [h100]
    show IEEE754.Double.div _ _ = _
    simp only [IEEE754.Double.div]
    rw [if_neg (by norm_num)]
    exact hm
  exact ⟨m, by rw [e0, e1, e2], ha2, hb2⟩

/-- In binary64, at the annual rate `1e-15` the sum `1 + monthlyRate` is 1,
the divisor of the payment formula is zero, and the monthly payment of the
loan of 1000 is the infinity; the schedule is the loop run with this
payment. -/
theorem tinyRate_payment (n : Int) :
    ∃ m w : ℚ, 0 < m ∧ 0 < w
      ∧ (1e-15 : IEEE754.Double) / 12.0 / 100.0 = IEEE754.Double.finite m
      ∧ (1000.0 : IEEE754.Double) * IEEE754.Double.finite m = IEEE754.Double.finite w
      ∧ (1000.0 * ((1e-15 : IEEE754.Double) / 12.0 / 100.0))
          / (1 - (1 + (1e-15 : IEEE754.Double) / 12.0 / 100.0) ^ (-n))
        = IEEE754.Double.posInf
      ∧ (tinyRateCalculator n).calculateSchedule
        = scheduleLoop (IEEE754.Double.finite m) IEEE754.Double.posInf n 1 (1000.0) := by
  obtain ⟨m, hm, ha, hb⟩ := tinyRate_monthlyRate
  have hz : ∀ k : Nat, (2 : ℚ) ^ (-(k : Int)) = 1 / (2 : ℚ) ^ k := by
    intro k
    rw [zpow_neg, zpow_natCast]
    simp
  have hmpos : 0 < m := lt_of_lt_of_le (zpow_pos (by norm_num) _) ha
  have h1000 : (1000.0 : IEEE754.Double) = IEEE754.Double.finite 1000 := by
    show IEEE754.Double.round (1000.0 : ℚ) = _
    rw [show (1000.0 : ℚ) = 1000 by norm_num]
    exact IEEE754.Double.round_thousand
  have ha' := ha
  have hb' := hb
  rw [show (-61 : Int) = -((61 : Nat) : Int) by norm_num, hz] at ha'
  rw [show (-58 : Int) = -((58 : Nat) : Int) by norm_num, hz] at hb'
  obtain ⟨w, hw, haw, _⟩ := IEEE754.Double.round_between (-52) (-48) (1000 * m)
    (by norm_num) (by norm_num)
    (by rw [show (-52 : Int) = -((52 : Nat) : Int) by norm_num, hz]
        norm_num at ha' ⊢
        linarith)
    (by rw [show (-48 : Int) = -((48 : Nat) : Int) by norm_num, hz]
        norm_num at hb' ⊢
        linarith)
  have hwpos : 0 < w := lt_of_lt_of_le (zpow_pos (by norm_num) _) haw
  have hmul : (1000.0 : IEEE754.Double) * IEEE754.Double.finite m = IEEE754.Double.finite w := by
    rw [h1000]
    exact hw
  have hone : (1 : IEEE754.Double) + IEEE754.Double.finite m = IEEE754.Double.finite 1 := by
    show IEEE754.Double.round (1 + m) = _
    apply IEEE754.Double.round_one_add_tiny
    · linarith
    · have : (2 : ℚ) ^ (-58 : Int) < (2 : ℚ) ^ (-53 : Int) :=
        zpow_lt_zpow_right₀ (by norm_num) (by norm_num)
      linarith
  have hpow : (IEEE754.Double.finite 1 : IEEE754.Double) ^ (-n) = IEEE754.Double.finite 1 := by
    show IEEE754.Double.pow _ _ = _
    unfold IEEE754.Double.pow
    split_ifs <;> rfl
  have hsub : (1 : IEEE754.Double) - IEEE754.Double.finite 1 = IEEE754.Double.finite 0 := by
    show IEEE754.Double.round (1 + -1) = _
    rw [show (1 : ℚ) + -1 = 0 by norm_num]
    exact IEEE754.Double.round_zero
  have hdiv : IEEE754.Double.finite w / IEEE754.Double.finite 0 = IEEE754.Double.posInf := by
    show IEEE754.Double.div _ _ = _
    simp [IEEE754.Double.div, ne_of_gt hwpos, hwpos]
  have hpay : (1000.0 * ((1e-15 : IEEE754.Double) / 12.0 / 100.0))
      / (1 - (1 + (1e-15 : IEEE754.Double) / 12.0 / 100.0) ^ (-n)) = IEEE754.Double.posInf := by
    rw [hm, hmul, hone, hpow, hsub, hdiv]
  refine ⟨m, w, hmpos, hwpos, hm, hmul, hpay, ?_⟩
  unfold LoanAmortizationCalculator.calculateSchedule tinyRateCalculator
  simp only [hm, hmul, hone, hpow, hsub, hdiv]

/-- In binary64, the pass of the loop that starts from the balance 1000 with
an infinite payment stores an infinite principal part and leaves the balance
at minus infinity. -/
theorem tinyRate_first_pass (m w : ℚ) (n : Int) (hn : 1 < n)
    (hmul : (1000.0 : IEEE754.Double) * IEEE754.Double.finite m = IEEE754.Double.finite w) :
    scheduleLoop (IEEE754.Double.finite m) IEEE754.Double.posInf n 1 (1000.0)
      = { month := 1, principal := IEEE754.Double.posInf, interest := IEEE754.Double.finite w,
          balance := IEEE754.Double.negInf }
        :: scheduleLoop (IEEE754.Double.finite m) IEEE754.Double.posInf n 2
            IEEE754.Double.negInf := by
  rw [scheduleLoop_of_le _ _ _ _ _ (by omega), hmul, if_neg (by omega)]
  have h1000 : (1000.0 : IEEE754.Double) = IEEE754.Double.finite 1000 := by
    show IEEE754.Double.round (1000.0 : ℚ) = _
    rw [show (1000.0 : ℚ) = 1000 by norm_num]
    exact IEEE754.Double.round_thousand
  rw [h1000]
  rfl

/-- In binary64, a pass of the loop that starts from the balance minus
infinity with an infinite payment stores the interest minus infinity and an
infinite principal part. -/
theorem tinyRate_later_pass (m : ℚ) (n i : Int) (hm : 0 < m) (hi : i ≤ n) :
    scheduleLoop (IEEE754.Double.finite m) IEEE754.Double.posInf n i IEEE754.Double.negInf
      = { month := i, principal := IEEE754.Double.posInf, interest := IEEE754.Double.negInf,
          balance := if i = n then 0.0 else IEEE754.Double.negInf }
        :: scheduleLoop (IEEE754.Double.finite m) IEEE754.Double.posInf n (i + 1)
            (if i = n then 0.0 else IEEE754.Double.negInf) := by
  have hint : IEEE754.Double.negInf * IEEE754.Double.finite m = IEEE754.Double.negInf := by
    show IEEE754.Double.mul _ _ = _
    simp [IEEE754.Double.mul, ne_of_gt hm, hm]
  rw [scheduleLoop_of_le _ _ _ _ _ hi, hint]
  rfl

/-- C24 (counterexample): in binary64 arithmetic the loan of 1000 at the
annual rate `1e-15` per cent over 2 months has a positive principal, a
positive rate and a term of at least 1; the payment formula evaluates to the
infinity, the first entry has `principal + interest` infinite and the second
entry has `principal + interest` NaN, which is not the value of the
formula. -/
theorem tiny_rate_payment_not_stable :
    (0 : IEEE754.Double) < (tinyRateCalculator 2).principal_
    ∧ (0 : IEEE754.Double) < (tinyRateCalculator 2).annualRate_
    ∧ (1 : Int) ≤ (tinyRateCalculator 2).termMonths_
    ∧ (1000.0 * ((1e-15 : IEEE754.Double) / 12.0 / 100.0))
          / (1 - (1 + (1e-15 : IEEE754.Double) / 12.0 / 100.0) ^ (-(2 : Int)))
        = IEEE754.Double.posInf
    ∧ (tinyRateCalculator 2).calculateSchedule.map (fun e => e.principal + e.interest)
        = [IEEE754.Double.posInf, IEEE754.Double.nan]
    ∧ ¬ (∀ e ∈ (tinyRateCalculator 2).calculateSchedule,
          e.principal + e.interest
            = (1000.0 * ((1e-15 : IEEE754.Double) / 12.0 / 100.0))
              / (1 - (1 + (1e-15 : IEEE754.Double) / 12.0 / 100.0) ^ (-(2 : Int)))) := by
  obtain ⟨m, w, hm, hw, _, hmul, hpay, hs⟩ := tinyRate_payment 2
  have hsched : (tinyRateCalculator 2).calculateSchedule
      = [{ month := 1, principal := IEEE754.Double.posInf,
           interest := IEEE754.Double.finite w, balance := IEEE754.Double.negInf },
         { month := 2, principal := IEEE754.Double.posInf,
           interest := IEEE754.Double.negInf, balance := 0.0 }] := by
    rw [hs, tinyRate_first_pass m w 2 (by decide) hmul,
      tinyRate_later_pass m 2 2 hm le_rfl, scheduleLoop_of_gt _ _ _ _ _ (by decide)]
    simp
  have hsum : (tinyRateCalculator 2).calculateSchedule.map (fun e => e.principal + e.interest)
      = [IEEE754.Double.posInf, IEEE754.Double.nan] := by
    rw [hsched]
    rfl
  have h1000 : (1000.0 : IEEE754.Double) = IEEE754.Double.finite 1000 := by
    show IEEE754.Double.round (1000.0 : ℚ) = _
    rw [show (1000.0 : ℚ) = 1000 by norm_num]
    exact IEEE754.Double.round_thousand
  obtain ⟨r0, hr0, ha0, _⟩ := IEEE754.Double.round_between (-1022) 0 (1e-15 : ℚ)
    (by norm_num) (by norm_num)
    (by
      have h1 : (2 : ℚ) ^ (-1022 : Int) ≤ (2 : ℚ) ^ (-50 : Int) :=
        zpow_le_zpow_right₀ (by norm_num) (by norm_num)
      have h2 : (2 : ℚ) ^ (-50 : Int) ≤ 1e-15 := by
        rw [show (-50 : Int) = -((50 : Nat) : Int) by norm_num, zpow_neg, zpow_natCast]
        norm_num
      exact le_trans h1 h2)
    (by norm_num)
  have hrate : (1e-15 : IEEE754.Double) = IEEE754.Double.finite r0 := hr0
  have hr0pos : 0 < r0 := lt_of_lt_of_le (zpow_pos (by norm_num) _) ha0
  refine ⟨?_, ?_, by decide, hpay, hsum, ?_⟩
  · show IEEE754.Double.lt (IEEE754.Double.finite 0) (1000.0 : IEEE754.Double) = true
    rw [h1000]
    simp [IEEE754.Double.lt]
  · show IEEE754.Double.lt (IEEE754.Double.finite 0) (1e-15 : IEEE754.Double) = true
    rw [hrate]
    simpa [IEEE754.Double.lt] using hr0pos
  · intro hall
    rw [hpay, hsched] at hall
    have h2 := hall _ (List.mem_cons_of_mem _ (List.mem_singleton.mpr rfl))
    exact absurd h2 (by decide)

/-- C25 (counterexample): in binary64 arithmetic the loan of 1000 at the
annual rate `1e-15` per cent over 3 months has a positive principal, a
positive rate and a term of at least 2; the interest parts of its three
entries are a finite number, minus infinity and minus infinity, and the
principal parts are three times the infinity, so from the second month to
the third neither does the interest strictly decrease nor the principal part
strictly increase. -/
theorem tiny_rate_interest_not_decreasing :
    (0 : IEEE754.Double) < (tinyRateCalculator 3).principal_
    ∧ (0 : IEEE754.Double) < (tinyRateCalculator 3).annualRate_
    ∧ (2 : Int) ≤ (tinyRateCalculator 3).termMonths_
    ∧ (∃ w : ℚ, (tinyRateCalculator 3).calculateSchedule.map (fun e => e.interest)
        = [IEEE754.Double.finite w, IEEE754.Double.negInf, IEEE754.Double.negInf])
    ∧ (tinyRateCalculator 3).calculateSchedule.map (fun e => e.principal)
        = [IEEE754.Double.posInf, IEEE754.Double.posInf, IEEE754.Double.posInf]
    ∧ ¬ (IEEE754.Double.negInf < IEEE754.Double.negInf)
    ∧ ¬ (IEEE754.Double.posInf < IEEE754.Double.posInf)
    ∧ ¬ ((tinyRateCalculator 3).calculateSchedule.Pairwise
          (fun a b => b.interest < a.interest ∧ a.principal < b.principal)) := by
  obtain ⟨m, w, hm, hw, _, hmul, hpay, hs⟩ := tinyRate_payment 3
  have hsched : (tinyRateCalculator 3).calculateSchedule
      = [{ month := 1, principal := IEEE754.Double.posInf,
           interest := IEEE754.Double.finite w, balance := IEEE754.Double.negInf },
         { month := 2, principal := IEEE754.Double.posInf,
           interest := IEEE754.Double.negInf, balance := IEEE754.Double.negInf },
         { month := 3, principal := IEEE754.Double.posInf,
           interest := IEEE754.Double.negInf, balance := 0.0 }] := by
    rw [hs, tinyRate_first_pass m w 3 (by decide) hmul,
      tinyRate_later_pass m 3 2 hm (by decide)]
    simp only [show ¬ ((2 : Int) = 3) by decide, if_false]
    rw [show (2 : Int) + 1 = 3 by decide, tinyRate_later_pass m 3 3 hm le_rfl,
      scheduleLoop_of_gt _ _ _ _ _ (by decide)]
    simp
  have h1000 : (1000.0 : IEEE754.Double) = IEEE754.Double.finite 1000 := by
    show IEEE754.Double.round (1000.0 : ℚ) = _
    rw [show (1000.0 : ℚ) = 1000 by norm_num]
    exact IEEE754.Double.round_thousand
  obtain ⟨r0, hr0, ha0, _⟩ := IEEE754.Double.round_between (-1022) 0 (1e-15 : ℚ)
    (by norm_num) (by norm_num)
    (by
      have h1 : (2 : ℚ) ^ (-1022 : Int) ≤ (2 : ℚ) ^ (-50 : Int) :=
        zpow_le_zpow_right₀ (by norm_num) (by norm_num)
      have h2 : (2 : ℚ) ^ (-50 : Int) ≤ 1e-15 := by
        rw [show (-50 : Int) = -((50 : Nat) : Int) by norm_num, zpow_neg, zpow_natCast]
        norm_num
      exact le_trans h1 h2)
    (by norm_num)
  have hrate : (1e-15 : IEEE754.Double) = IEEE754.Double.finite r0 := hr0
  have hr0pos : 0 < r0 := lt_of_lt_of_le (zpow_pos (by norm_num) _) ha0
  refine ⟨?_, ?_, by decide, ⟨w, by rw [hsched]; rfl⟩, by rw [hsched]; rfl, by decide,
    by decide, ?_⟩
  · show IEEE754.Double.lt (IEEE754.Double.finite 0) (1000.0 : IEEE754.Double) = true
    rw [h1000]
    simp [IEEE754.Double.lt]
  · show IEEE754.Double.lt (IEEE754.Double.finite 0) (1e-15 : IEEE754.Double) = true
    rw [hrate]
    simpa [IEEE754.Double.lt] using hr0pos
  · rw [hsched]
    intro hp
    have h23 := (List.pairwise_cons.mp (List.pairwise_cons.mp hp).2).1 _
      (List.mem_singleton.mpr rfl)
    exact absurd h23.1 (by decide)

end Amortization

namespace InflationReturns

/-- The loop appends one result for each entry, with the year and the two
rates of the entry. -/
theorem adjustLoop_copies {α : Type} [Add α] [Sub α] [Mul α] [Div α] [One α]
    (accumulated : α) (data : List (ReturnData α)) :
    (adjustLoop accumulated data).map (fun r => (r.year, r.nominalRate, r.inflationRate))
      = data.map (fun e => (e.year, e.nominalRate, e.inflationRate)) := by
  induction data generalizing accumulated with
  | nil => rfl
  | cons entry rest ih =>
    rw [adjustLoop, List.map_cons, List.map_cons, ih]

/-- The loop appends one result for each entry. -/
theorem adjustLoop_length {α : Type} [Add α] [Sub α] [Mul α] [Div α] [One α]
    (accumulated : α) (data : List (ReturnData α)) :
    (adjustLoop accumulated data).length = data.length := by
  have h := congrArg List.length (adjustLoop_copies accumulated data)
  simpa using h

/-- The real rates that the loop stores are computed from the rates of the
entries alone. -/
theorem adjustLoop_realRate {α : Type} [Add α] [Sub α] [Mul α] [Div α] [One α]
    (accumulated : α) (data : List (ReturnData α)) :
    (adjustLoop accumulated data).map (fun r => r.realRate)
      = data.map (fun e => (1 + e.nominalRate) / (1 + e.inflationRate) - 1) := by
  induction data generalizing accumulated with
  | nil => rfl
  | cons entry rest ih =>
    rw [adjustLoop, List.map_cons, List.map_cons, ih]

/-- C27: for every input entry with `1 + inflationRate ≠ 0`, in exact
arithmetic, the result at the position of the entry has
`realRate = (1 + nominalRate) / (1 + inflationRate) - 1`, which is the nominal
rate when the inflation rate is zero. -/
theorem realRate_formula (data : List (ReturnData ℚ)) (k : Nat) (hk : k < data.length)
    (hr : k < (computeInflationAdjustedReturns data).length)
    (_h0 : 1 + data[k].inflationRate ≠ 0) :
    (computeInflationAdjustedReturns data)[k].realRate
      = (1 + data[k].nominalRate) / (1 + data[k].inflationRate) - 1
    ∧ (data[k].inflationRate = 0 →
        (computeInflationAdjustedReturns data)[k].realRate = data[k].nominalRate) := by
  have h := adjustLoop_realRate (1 : ℚ) data
  have hk2 : ((computeInflationAdjustedReturns data).map (fun r => r.realRate))[k]?
      = (data.map (fun e => (1 + e.nominalRate) / (1 + e.inflationRate) - 1))[k]? := by
    unfold computeInflationAdjustedReturns
    rw [h]
  rw [List.getElem?_map, List.getElem?_map, List.getElem?_eq_getElem hr,
    List.getElem?_eq_getElem hk] at hk2
  simp only [Option.map_some', Option.some.injEq] at hk2
  refine ⟨hk2, ?_⟩
  intro hz
  rw [hk2, hz]
  ring

/-- Witness of C27: the first entry of the test `HandlesMultipleYearsAccumulation`. -/
theorem realRate_formula_witness :
    (computeInflationAdjustedReturns multipleYearsData)[0].realRate
      = (1 + multipleYearsData[0].nominalRate) / (1 + multipleYearsData[0].inflationRate) - 1 :=
  (realRate_formula multipleYearsData 0 (by decide) (by decide) (by
    simp [multipleYearsData, makeData]; norm_num)).1

/-- C29: in every arithmetic, the result of `computeInflationAdjustedReturns`
has the length of the input, and the result at each position carries the
year, the nominal rate and the inflation rate of the input entry at that
position, whatever the year is; the years -100, 0 and 9999 are kept. -/
theorem compute_keeps_entries {α : Type} [Add α] [Sub α] [Mul α] [Div α] [One α]
    (data : List (ReturnData α)) :
    (computeInflationAdjustedReturns data).length = data.length
    ∧ (computeInflationAdjustedReturns data).map
        (fun r => (r.year, r.nominalRate, r.inflationRate))
      = data.map (fun e => (e.year, e.nominalRate, e.inflationRate))
    ∧ (computeInflationAdjustedReturns invalidYearsData).map (fun r => r.year)
      = [-100, 0, 9999] := by
  refine ⟨adjustLoop_length 1 data, adjustLoop_copies 1 data, ?_⟩
  have h := congrArg (List.map (fun t : Int × ℚ × ℚ => t.1)) (adjustLoop_copies 1 invalidYearsData)
  simp only [List.map_map] at h
  exact h

/-! ### Range check of the loader and the divisor -/

/-- The literal `-1.0` denotes -1. -/
theorem neg_one_literal : (-1.0 : IEEE754.Double) = IEEE754.Double.finite (-1) := by
  show IEEE754.Double.neg (1.0 : IEEE754.Double) = _
  rw [IEEE754.Double.literal_values.2.1]
  rfl

/-- A row passes the semantic checks exactly when the year lies in
`[1900, 2100]` and none of the four comparisons of the rates succeeds. -/
theorem semanticCheckFails_eq_false (year : Int) (nominal inflation : IEEE754.Double) :
    semanticCheckFails year nominal inflation = false ↔
      (1900 ≤ year ∧ year ≤ 2100 ∧ ¬ nominal < -1.0 ∧ ¬ nominal > 1.0
        ∧ ¬ inflation < -1.0 ∧ ¬ inflation > 1.0) := by
  unfold semanticCheckFails
  simp only [Bool.or_eq_false_iff, decide_eq_false_iff_not, not_lt]
  tauto

/-- A rate that fails neither comparison of the range check is a NaN or a
finite number in `[-1, 1]`. -/
theorem accepted_rate (x : IEEE754.Double) (h1 : ¬ x < -1.0) (h2 : ¬ x > 1.0) :
    x = IEEE754.Double.nan ∨ ∃ q : ℚ, x = IEEE754.Double.finite q ∧ -1 ≤ q ∧ q ≤ 1 := by
  rw [neg_one_literal] at h1
  rw [gt_iff_lt, IEEE754.Double.literal_values.2.1] at h2
  cases x with
  | finite q =>
    right
    refine ⟨q, rfl, ?_, ?_⟩
    · by_contra hc
      apply h1
      show IEEE754.Double.lt (IEEE754.Double.finite q) (IEEE754.Double.finite (-1)) = true
      simpa [IEEE754.Double.lt] using hc
    · by_contra hc
      apply h2
      show IEEE754.Double.lt (IEEE754.Double.finite 1) (IEEE754.Double.finite q) = true
      simpa [IEEE754.Double.lt] using hc
  | posInf => exact absurd (by decide) h2
  | negInf => exact absurd (by decide) h1
  | nan => exact Or.inl rfl

/-- For a binary64 rate that passes the range check and is not -1 the divisor
`1 + rate` is not zero. -/
theorem divisor_ne_zero_of_accepted (x : IEEE754.Double) (h1 : ¬ x < -1.0) (h2 : ¬ x > 1.0)
    (hb : x.IsBinary64) (hne : x ≠ IEEE754.Double.finite (-1)) : 1 + x ≠ 0 := by
  rcases accepted_rate x h1 h2 with hn | ⟨q, hq, hq1, hq2⟩
  · rw [hn]
    exact fun e => IEEE754.Double.noConfusion e
  · rw [hq] at hb hne ⊢
    have hlt : -1 < q := lt_of_le_of_ne hq1 (fun e => hne (by rw [← e]))
    exact IEEE754.Double.round_one_add_ne_zero q hb hlt hq2

/-- Every entry that the loader appends has passed the semantic checks and,
when `std::stod` returns binary64 values, holds a binary64 inflation rate. -/
theorem loadReturnRows_entries_checked (stoi : String → Option Int)
    (stod : String → Option IEEE754.Double) (rows : List String)
    (out : List (ReturnData IEEE754.Double))
    (hstod : ∀ s x, stod s = some x → x.IsBinary64)
    (h : ∀ e ∈ out, semanticCheckFails e.year e.nominalRate e.inflationRate = false
      ∧ e.inflationRate.IsBinary64) :
    ∀ e ∈ (loadReturnRows stoi stod rows out).out,
      semanticCheckFails e.year e.nominalRate e.inflationRate = false
      ∧ e.inflationRate.IsBinary64 := by
  induction rows generalizing out with
  | nil => exact h
  | cons line rest ih =>
    rw [loadReturnRows]
    split
    · split
      · rename_i year nominal inflation hy hn hi
        split
        · exact h
        · rename_i hc
          apply ih
          intro e he
          rcases List.mem_append.mp he with h1 | h1
          · exact h e h1
          · rw [List.mem_singleton] at h1
            rw [h1]
            exact ⟨by simpa using hc, hstod _ _ hi⟩
      · exact h
    · exact h

/-- C37 (counterexample): the row with year 2000, nominal rate 0.05 and
inflation rate -1 passes the semantic checks of the loader, and its divisor
`1 + inflationRate` is zero. -/
theorem range_check_admits_zero_divisor :
    semanticCheckFails fullDeflationRow.year fullDeflationRow.nominalRate
        fullDeflationRow.inflationRate = false
    ∧ fullDeflationRow.inflationRate = IEEE754.Double.finite (-1)
    ∧ 1 + fullDeflationRow.inflationRate = 0
    ∧ ((computeInflationAdjustedReturns [fullDeflationRow]).map
          (fun r => 1 + r.inflationRate)) = [0] := by
  have hz : ∀ k : Nat, (2 : ℚ) ^ (-(k : Int)) = 1 / (2 : ℚ) ^ k := by
    intro k
    rw [zpow_neg, zpow_natCast]
    simp
  obtain ⟨v, hv, hv1, hv2⟩ := IEEE754.Double.round_between (-5) (-4) (0.05 : ℚ)
    (by norm_num) (by norm_num)
    (by rw [show (-5 : Int) = -((5 : Nat) : Int) by norm_num, hz]; norm_num)
    (by rw [show (-4 : Int) = -((4 : Nat) : Int) by norm_num, hz]; norm_num)
  rw [show (-5 : Int) = -((5 : Nat) : Int) by norm_num, hz] at hv1
  rw [show (-4 : Int) = -((4 : Nat) : Int) by norm_num, hz] at hv2
  have hnom : (0.05 : IEEE754.Double) = IEEE754.Double.finite v := hv
  have hsum : (1 : IEEE754.Double) + IEEE754.Double.finite (-1) = 0 := by
    show IEEE754.Double.round (1 + -1) = _
    rw [show (1 : ℚ) + -1 = 0 by norm_num]
    exact IEEE754.Double.round_zero
  refine ⟨?_, neg_one_literal, ?_, ?_⟩
  · rw [semanticCheckFails_eq_false]
    simp only [fullDeflationRow, hnom, neg_one_literal, IEEE754.Double.literal_values.2.1,
      gt_iff_lt]
    refine ⟨by decide, by decide, ?_, ?_, by decide, by decide⟩
    · show ¬ (IEEE754.Double.lt (IEEE754.Double.finite v) (IEEE754.Double.finite (-1)) = true)
      simp only [IEEE754.Double.lt, decide_eq_true_eq, not_lt]
      norm_num at hv1
      linarith
    · show ¬ (IEEE754.Double.lt (IEEE754.Double.finite 1) (IEEE754.Double.finite v) = true)
      simp only [IEEE754.Double.lt, decide_eq_true_eq, not_lt]
      norm_num at hv2
      linarith
  · show (1 : IEEE754.Double) + (-1.0 : IEEE754.Double) = 0
    rw [neg_one_literal]
    exact hsum
  · show [(1 : IEEE754.Double) + (-1.0 : IEEE754.Double)] = [0]
    rw [neg_one_literal, hsum]

/-- C37 (amended): for every row that passes the semantic checks of the
loader and whose inflation rate, a binary64 value, is not -1, the divisor
`1 + inflationRate` is not zero; it is a NaN when the rate is a NaN, which
passes the checks.  This holds for every entry that a load into an empty
vector stores. -/
theorem range_check_divisor_nonzero (year : Int) (nominal inflation : IEEE754.Double)
    (h : semanticCheckFails year nominal inflation = false) (hb : inflation.IsBinary64)
    (hne : inflation ≠ IEEE754.Double.finite (-1)) :
    1 + inflation ≠ 0
    ∧ (inflation = IEEE754.Double.nan → 1 + inflation = IEEE754.Double.nan)
    ∧ ∀ (stoi : String → Option Int) (stod : String → Option IEEE754.Double)
        (filename content : String), (∀ s x, stod s = some x → x.IsBinary64) →
        ∀ e ∈ (loadReturnDataFromCSV stoi stod filename (some content) []).out,
          e.inflationRate ≠ IEEE754.Double.finite (-1) → 1 + e.inflationRate ≠ 0 := by
  have hc := (semanticCheckFails_eq_false year nominal inflation).mp h
  refine ⟨divisor_ne_zero_of_accepted inflation hc.2.2.2.2.1 hc.2.2.2.2.2 hb hne, ?_, ?_⟩
  · intro hn
    rw [hn]
    rfl
  · intro stoi stod filename content hstod e he hi
    have hall := loadReturnRows_entries_checked stoi stod (CreditRisk.dataRows content) []
      hstod (fun e he => absurd he (List.not_mem_nil e))
    obtain ⟨hce, hbe⟩ := hall e he
    have hc2 := (semanticCheckFails_eq_false _ _ _).mp hce
    exact divisor_ne_zero_of_accepted _ hc2.2.2.2.2.1 hc2.2.2.2.2.2 hbe hi

/-- Witness of C37 (amended): the first row of the test
`ValidCSVLoadsSuccessfully`. -/
theorem range_check_divisor_nonzero_witness :
    semanticCheckFails 1994 0.04 0.03 = false
    ∧ (0.03 : IEEE754.Double).IsBinary64
    ∧ (0.03 : IEEE754.Double) ≠ IEEE754.Double.finite (-1)
    ∧ 1 + (0.03 : IEEE754.Double) ≠ 0 := by
  have hz : ∀ k : Nat, (2 : ℚ) ^ (-(k : Int)) = 1 / (2 : ℚ) ^ k := by
    intro k
    rw [zpow_neg, zpow_natCast]
    simp
  obtain ⟨v, hv, hv1, hv2⟩ := IEEE754.Double.round_between (-5) (-4) (0.04 : ℚ)
    (by norm_num) (by norm_num)
    (by rw [show (-5 : Int) = -((5 : Nat) : Int) by norm_num, hz]; norm_num)
    (by rw [show (-4 : Int) = -((4 : Nat) : Int) by norm_num, hz]; norm_num)
  obtain ⟨u, hu, hu1, hu2⟩ := IEEE754.Double.round_between (-6) (-5) (0.03 : ℚ)
    (by norm_num) (by norm_num)
    (by rw [show (-6 : Int) = -((6 : Nat) : Int) by norm_num, hz]; norm_num)
    (by rw [show (-5 : Int) = -((5 : Nat) : Int) by norm_num, hz]; norm_num)
  rw [show (-5 : Int) = -((5 : Nat) : Int) by norm_num, hz] at hv1 hu2
  rw [show (-4 : Int) = -((4 : Nat) : Int) by norm_num, hz] at hv2
  rw [show (-6 : Int) = -((6 : Nat) : Int) by norm_num, hz] at hu1
  norm_num at hv1 hv2 hu1 hu2
  have hnom : (0.04 : IEEE754.Double) = IEEE754.Double.finite v := hv
  have hinf : (0.03 : IEEE754.Double) = IEEE754.Double.finite u := hu
  have hb : (0.03 : IEEE754.Double).IsBinary64 := IEEE754.Double.round_isBinary64 (0.03 : ℚ)
  have hne : (0.03 : IEEE754.Double) ≠ IEEE754.Double.finite (-1) := by
    rw [hinf]
    intro e
    injection e with e1
    linarith
  have hcheck : semanticCheckFails 1994 0.04 0.03 = false := by
    rw [semanticCheckFails_eq_false]
    simp only [hnom, hinf, neg_one_literal, IEEE754.Double.literal_values.2.1, gt_iff_lt]
    refine ⟨by decide, by decide, ?_, ?_, ?_, ?_⟩
    · show ¬ (IEEE754.Double.lt (IEEE754.Double.finite v) (IEEE754.Double.finite (-1)) = true)
      simp only [IEEE754.Double.lt, decide_eq_true_eq, not_lt]
      linarith
    · show ¬ (IEEE754.Double.lt (IEEE754.Double.finite 1) (IEEE754.Double.finite v) = true)
      simp only [IEEE754.Double.lt, decide_eq_true_eq, not_lt]
      linarith
    · show ¬ (IEEE754.Double.lt (IEEE754.Double.finite u) (IEEE754.Double.finite (-1)) = true)
      simp only [IEEE754.Double.lt, decide_eq_true_eq, not_lt]
      linarith
    · show ¬ (IEEE754.Double.lt (IEEE754.Double.finite 1) (IEEE754.Double.finite u) = true)
      simp only [IEEE754.Double.lt, decide_eq_true_eq, not_lt]
      linarith
  exact ⟨hcheck, hb, hne, (range_check_divisor_nonzero 1994 0.04 0.03 hcheck hb hne).1⟩

end InflationReturns

namespace TradingPair

/-- C30: for every string `p`, `IsValidPair p` is true if and only if `p` is
one of `EURUSD`, `USDJPY`, `GBPUSD`, `AUDUSD`, `USDCHF`; `EURUSD` is valid and
`XYZ123` is not. -/
theorem isValidPair_iff (p : String) :
    (Waehrung.new.IsValidPair p = true ↔
      (p = "EURUSD" ∨ p = "USDJPY" ∨ p = "GBPUSD" ∨ p = "AUDUSD" ∨ p = "USDCHF"))
    ∧ Waehrung.new.IsValidPair "EURUSD" = true
    ∧ Waehrung.new.IsValidPair "XYZ123" = false := by
  refine ⟨?_, by decide, by decide⟩
  simp [Waehrung.IsValidPair, Waehrung.new]

/-! ### Calendar and `mktime` -/

/-- A month has 28 to 31 days. -/
theorem monthLength_bounds (y m : Int) : 28 ≤ monthLength y m ∧ monthLength y m ≤ 31 := by
  unfold monthLength
  split_ifs <;> omega

/-- A day inside its month is left as it is. -/
theorem carryDay_in_range (y m d : Int) (h1 : 1 ≤ d) (h2 : d ≤ monthLength y m) :
    carryDay y m d = (y, m, d) := by
  rw [carryDay]
  simp [not_lt.mpr h1, not_lt.mpr h2]

/-- A day after the end of its month is counted on into the next month. -/
theorem carryDay_over (y m d : Int) (h1 : 1 ≤ d) (h2 : monthLength y m < d) :
    carryDay y m d
      = carryDay (if m = 12 then y + 1 else y) (if m = 12 then 1 else m + 1)
          (d - monthLength y m) := by
  rw [carryDay]
  simp [not_lt.mpr h1, h2]

/-- A day before the first of its month is counted back from the end of the
month before. -/
theorem carryDay_under (y m d : Int) (h1 : d < 1) :
    carryDay y m d
      = carryDay (if m = 1 then y - 1 else y) (if m = 1 then 12 else m - 1)
          (d + monthLength (if m = 1 then y - 1 else y) (if m = 1 then 12 else m - 1)) := by
  rw [carryDay]
  simp [h1]

/-- The day count of the first day of a month is one more than the day count
of the last day of the month before. -/
theorem daysFromCivil_next_month (y m : Int) (h1 : 1 ≤ m) (h2 : m ≤ 12) :
    daysFromCivil (if m = 12 then y + 1 else y) (if m = 12 then 1 else m + 1) 1
      = daysFromCivil y m (monthLength y m) + 1 := by
  unfold daysFromCivil monthLength isLeapYear
  interval_cases m <;> simp <;> omega

/-- The day count is linear in the day of the month. -/
theorem daysFromCivil_add (y m d k : Int) :
    daysFromCivil y m (d + k) = daysFromCivil y m d + k := by
  unfold daysFromCivil
  simp only []
  omega

/-- The result of `carryDay` is a date that exists and has the day count of
the date that was passed. -/
theorem carryDay_normalises (y m d : Int) (h1 : 1 ≤ m) (h2 : m ≤ 12) :
    1 ≤ (carryDay y m d).2.1 ∧ (carryDay y m d).2.1 ≤ 12
    ∧ 1 ≤ (carryDay y m d).2.2
    ∧ (carryDay y m d).2.2 ≤ monthLength (carryDay y m d).1 (carryDay y m d).2.1
    ∧ daysFromCivil (carryDay y m d).1 (carryDay y m d).2.1 (carryDay y m d).2.2
        = daysFromCivil y m d := by
  induction y, m, d using carryDay.induct with
  | case1 y m d hd y1 m1 ih =>
    rw [carryDay_under y m d hd]
    have hy : y1 = if m = 1 then y - 1 else y := rfl
    have hm : m1 = if m = 1 then 12 else m - 1 := rfl
    rw [← hy, ← hm]
    have hm1 : 1 ≤ m1 ∧ m1 ≤ 12 := by
      rw [hm]; split_ifs <;> omega
    obtain ⟨a, b, c, e, f⟩ := ih hm1.1 hm1.2
    refine ⟨a, b, c, e, ?_⟩
    rw [f]
    have hn := daysFromCivil_next_month y1 m1 hm1.1 hm1.2
    have hback : (if m1 = 12 then y1 + 1 else y1) = y ∧ (if m1 = 12 then 1 else m1 + 1) = m := by
      rw [hy, hm]; split_ifs <;> omega
    rw [hback.1, hback.2] at hn
    have e1 := daysFromCivil_add y1 m1 (monthLength y1 m1) d
    have e2 := daysFromCivil_add y m 1 (d - 1)
    rw [show d + monthLength y1 m1 = monthLength y1 m1 + d by ring, e1]
    rw [show d = 1 + (d - 1) by ring, e2]
    omega
  | case2 y m d hd hlen ih =>
    rw [carryDay_over y m d (by omega) hlen]
    simp only [dite_eq_ite] at ih
    have hm1 : 1 ≤ (if m = 12 then 1 else m + 1) ∧ (if m = 12 then 1 else m + 1) ≤ 12 := by
      split_ifs <;> omega
    obtain ⟨a, b, c, e, f⟩ := ih hm1.1 hm1.2
    refine ⟨a, b, c, e, ?_⟩
    rw [f]
    have hn := daysFromCivil_next_month y m h1 h2
    have e1 := daysFromCivil_add (if m = 12 then y + 1 else y) (if m = 12 then 1 else m + 1) 1
      (d - monthLength y m - 1)
    have e2 := daysFromCivil_add y m (monthLength y m) (d - monthLength y m)
    rw [show d - monthLength y m = 1 + (d - monthLength y m - 1) by ring, e1]
    have e3 : daysFromCivil y m d = daysFromCivil y m (monthLength y m) + (d - monthLength y m) := by
      rw [← e2]; congr 1; ring
    omega
  | case3 y m d hd hlen =>
    rw [carryDay_in_range y m d (by omega) (by omega)]
    exact ⟨h1, h2, not_lt.mp hd, not_lt.mp hlen, rfl⟩

/-- The zone UTC is a zone whose clock is not behind its standard clock. -/
theorem utc_clockNotBehind : TimeZone.utc.ClockNotBehind := by
  refine ⟨fun s => by simp [TimeZone.utc], ?_⟩
  intro n
  simp only [TimeZone.utc]
  omega

/-- In a zone whose clock is not behind its standard clock, on a date that
exists `mktime` leaves the fields as they are and sets the day of the
week. -/
theorem mktime_of_existing (zone : TimeZone) (hz : zone.ClockNotBehind) (y m d w : Int)
    (h1 : 1 ≤ m) (h2 : m ≤ 12) (h3 : 1 ≤ d) (h4 : d ≤ monthLength y m) :
    (mktime zone { tm_mday := d, tm_mon := m - 1, tm_year := y - 1900, tm_wday := w }).1
      = { tm_mday := d, tm_mon := m - 1, tm_year := y - 1900, tm_wday := weekday y m d } := by
  have e1 : y - 1900 + 1900 + (m - 1) / 12 = y := by omega
  have e2 : (m - 1) % 12 + 1 = m := by omega
  have e3 : zone.saving (daysFromCivil y m d * 86400) / 86400 = 0 := by
    have := hz.1 (daysFromCivil y m d * 86400)
    omega
  simp only [mktime, e1, e2, carryDay_in_range y m d h3 h4, e3, add_zero]

/-- In a zone whose clock is not behind its standard clock, on a day after
the end of its month, up to the 31st, `mktime` moves the day of the month. -/
theorem mktime_of_overflow (zone : TimeZone) (hz : zone.ClockNotBehind) (y m d w : Int)
    (h1 : 1 ≤ m) (h2 : m ≤ 12) (h3 : monthLength y m < d) (h4 : d ≤ 31) :
    (mktime zone
        { tm_mday := d, tm_mon := m - 1, tm_year := y - 1900, tm_wday := w }).1.tm_mday
      = d - monthLength y m := by
  have e1 : y - 1900 + 1900 + (m - 1) / 12 = y := by omega
  have e2 : (m - 1) % 12 + 1 = m := by omega
  have hb := monthLength_bounds y m
  have hb2 := monthLength_bounds (if m = 12 then y + 1 else y) (if m = 12 then 1 else m + 1)
  have hc : carryDay y m d
      = ((if m = 12 then y + 1 else y), (if m = 12 then 1 else m + 1), d - monthLength y m) := by
    rw [carryDay_over y m d (by omega) h3, carryDay_in_range _ _ _ (by omega) (by omega)]
  simp only [mktime, e1, e2, hc]
  have e3 : ∀ s, zone.saving s / 86400 = 0 := by
    intro s
    have := hz.1 s
    omega
  rw [e3, add_zero, carryDay_in_range _ _ _ (by omega) (by omega)]

/-- In a zone whose clock is not behind its standard clock the calendar time
that `mktime` returns is never -1. -/
theorem mktime_ne_minus_one (zone : TimeZone) (hz : zone.ClockNotBehind) (tm : Tm) :
    (mktime zone tm).2 ≠ -1 := by
  simp only [mktime]
  exact hz.2 _

/-- In every zone the record that `mktime` returns holds a date that exists,
with the day of the week of its day count. -/
theorem mktime_normalises (zone : TimeZone) (tm : Tm) :
    0 ≤ (mktime zone tm).1.tm_mon ∧ (mktime zone tm).1.tm_mon ≤ 11
    ∧ 1 ≤ (mktime zone tm).1.tm_mday
    ∧ (mktime zone tm).1.tm_mday
        ≤ monthLength ((mktime zone tm).1.tm_year + 1900) ((mktime zone tm).1.tm_mon + 1)
    ∧ 0 ≤ (mktime zone tm).1.tm_wday ∧ (mktime zone tm).1.tm_wday ≤ 6 := by
  obtain ⟨a0, b0, _, _, _⟩ := carryDay_normalises (tm.tm_year + 1900 + tm.tm_mon / 12)
    (tm.tm_mon % 12 + 1) tm.tm_mday (by omega) (by omega)
  simp only [mktime, weekday]
  generalize carryDay (tm.tm_year + 1900 + tm.tm_mon / 12) (tm.tm_mon % 12 + 1) tm.tm_mday
    = std at a0 b0 ⊢
  obtain ⟨a, b, c, e, _⟩ := carryDay_normalises std.1 std.2.1
    (std.2.2 + zone.saving (daysFromCivil std.1 std.2.1 std.2.2 * 86400) / 86400) a0 b0
  refine ⟨by omega, by omega, c, ?_, by omega, by omega⟩
  simpa using e

/-- In a zone whose clock is not behind its standard clock the method
`CheckDatum` returns 0 exactly on a valid record whose fields are a date that
exists, with a year from 1900 on. -/
theorem checkDatum_eq_zero_iff (zone : TimeZone) (hz : zone.ClockNotBehind) (dt : Datum) :
    dt.CheckDatum zone = 0 ↔
      (dt.valid = true ∧ 1900 ≤ dt.jahr ∧ 1 ≤ dt.monat ∧ dt.monat ≤ 12 ∧ 1 ≤ dt.tag
        ∧ dt.tag ≤ monthLength dt.jahr dt.monat) := by
  have hb := monthLength_bounds dt.jahr dt.monat
  unfold Datum.CheckDatum
  by_cases hv : dt.valid = true
  · by_cases hr : dt.jahr < 1900 ∨ dt.monat < 1 ∨ dt.monat > 12 ∨ dt.tag < 1 ∨ dt.tag > 31
    · have hg : (decide (dt.jahr < 1900) || decide (dt.monat < 1) || decide (dt.monat > 12)
          || decide (dt.tag < 1) || decide (dt.tag > 31)) = true := by
        simpa [or_assoc] using hr
      simp only [hv, hg, Bool.not_true, Bool.false_eq_true, if_false, if_true]
      constructor
      · intro h; omega
      · intro h; omega
    · have hg : (decide (dt.jahr < 1900) || decide (dt.monat < 1) || decide (dt.monat > 12)
          || decide (dt.tag < 1) || decide (dt.tag > 31)) = false := by
        rw [← Bool.not_eq_true]
        simpa [or_assoc] using hr
      push_neg at hr
      simp only [hv, hg, Bool.not_true, Bool.false_eq_true, if_false,
        mktime_ne_minus_one zone hz]
      by_cases hlen : dt.tag ≤ monthLength dt.jahr dt.monat
      · rw [mktime_of_existing zone hz dt.jahr dt.monat dt.tag 0 hr.2.1 (by omega) hr.2.2.2.1
          hlen]
        simp
        omega
      · have hday := mktime_of_overflow zone hz dt.jahr dt.monat dt.tag 0 hr.2.1 (by omega)
          (by omega) (by omega)
        have hne : ¬ (dt.tag - monthLength dt.jahr dt.monat = dt.tag) := by omega
        rw [hday]
        simp only [hne, false_and, if_false]
        constructor
        · intro h; omega
        · intro h; omega
  · simp only [Bool.not_eq_true] at hv
    simp [hv]

/-- In a zone whose clock is one hour behind its standard clock, `mktime`
moves every date that exists, from the second day of a month on, to the day
before. -/
theorem mktime_hourBehind (y m d w : Int) (h1 : 1 ≤ m) (h2 : m ≤ 12) (h3 : 2 ≤ d)
    (h4 : d ≤ monthLength y m) :
    (mktime TimeZone.hourBehind
        { tm_mday := d, tm_mon := m - 1, tm_year := y - 1900, tm_wday := w }).1
      = { tm_mday := d - 1, tm_mon := m - 1, tm_year := y - 1900,
          tm_wday := weekday y m (d - 1) } := by
  have e1 : y - 1900 + 1900 + (m - 1) / 12 = y := by omega
  have e2 : (m - 1) % 12 + 1 = m := by omega
  have e3 : (-3600 : Int) / 86400 = -1 := by decide
  simp only [mktime, e1, e2, carryDay_in_range y m d (by omega) h4, TimeZone.hourBehind, e3]
  rw [show d + -1 = d - 1 by ring, carryDay_in_range y m (d - 1) (by omega) (by omega)]

/-- In a zone whose clock is one hour behind its standard clock the method
`CheckDatum` returns 1 on every record whose fields are a date that exists
from the second day of a month on. -/
theorem checkDatum_hourBehind (dt : Datum) (h1 : 1 ≤ dt.monat)
    (h2 : dt.monat ≤ 12) (h3 : 2 ≤ dt.tag) (h4 : dt.tag ≤ monthLength dt.jahr dt.monat) :
    dt.CheckDatum TimeZone.hourBehind = 1 := by
  have hne : ¬ (dt.tag - 1 = dt.tag) := by omega
  unfold Datum.CheckDatum
  simp only [mktime_hourBehind dt.jahr dt.monat dt.tag 0 h1 h2 h3 h4, hne, false_and, if_false]
  split_ifs <;> rfl

/-- In a zone whose clock is one hour behind its standard clock the method
`IsWeekend` judges the day before a date that exists, from the second day of
a month on. -/
theorem isWeekend_hourBehind (dt : Datum) (h1 : 1 ≤ dt.monat) (h2 : dt.monat ≤ 12)
    (h3 : 2 ≤ dt.tag) (h4 : dt.tag ≤ monthLength dt.jahr dt.monat) :
    dt.IsWeekend TimeZone.hourBehind
      = (decide (weekday dt.jahr dt.monat (dt.tag - 1) = 0)
          || decide (weekday dt.jahr dt.monat (dt.tag - 1) = 6)) := by
  simp only [Datum.IsWeekend, mktime_hourBehind dt.jahr dt.monat dt.tag 0 h1 h2 h3 h4]

/-! ### `SetDatum`, `CheckDatum` and `IsBoersentag` -/

/-- On a string of eight decimal digits `SetDatum` stores the three fields
and sets `valid`. -/
theorem setDatum_of_eight_digits (d0 : Datum) (s : String) (h : isEightDigits s = true) :
    d0.SetDatum s
      = { d0 with jahr := (dateFields s).1, monat := (dateFields s).2.1,
                  tag := (dateFields s).2.2, valid := true } := by
  simp only [isEightDigits, Bool.and_eq_true, decide_eq_true_eq] at h
  have hc : (s.length ≠ 8 || !s.toList.all Char.isDigit) = false := by
    rw [h.2]
    simp [h.1]
  simp only [Datum.SetDatum, hc, Bool.false_eq_true, if_false, dateFields]

/-- On any other string `SetDatum` clears `valid` and leaves the fields. -/
theorem setDatum_of_other (d0 : Datum) (s : String) (h : isEightDigits s = false) :
    d0.SetDatum s = { d0 with valid := false } := by
  have hc : (s.length ≠ 8 || !s.toList.all Char.isDigit) = true := by
    by_cases hl : s.length = 8
    · simp only [isEightDigits, hl, decide_True, Bool.true_and] at h
      rw [h]
      simp
    · simp [hl]
  simp only [Datum.SetDatum, hc, if_true]

/-- In a zone whose clock is not behind its standard clock, after `SetDatum`
the method `CheckDatum` returns 0 exactly for the strings that denote an
existing date with a year from 1900 on. -/
theorem setDatum_checkDatum (zone : TimeZone) (hz : zone.ClockNotBehind) (d0 : Datum)
    (s : String) :
    (d0.SetDatum s).CheckDatum zone = 0 ↔ denotesExistingDate s = true := by
  rw [checkDatum_eq_zero_iff zone hz]
  by_cases h : isEightDigits s = true
  · rw [setDatum_of_eight_digits d0 s h]
    simp only [denotesExistingDate, denotesCalendarDate, h, Bool.true_and, Bool.and_eq_true,
      decide_eq_true_eq, true_and]
    tauto
  · simp only [Bool.not_eq_true] at h
    rw [setDatum_of_other d0 s h]
    simp [denotesExistingDate, denotesCalendarDate, h]

/-- The string `ddmm` of a date that exists is in the list `feiertage`
exactly on 1 January and on 25 December. -/
theorem ddmm_feiertag_iff (dt : Datum) (h1 : 1 ≤ dt.tag) (h2 : dt.tag ≤ 31) (h3 : 1 ≤ dt.monat)
    (h4 : dt.monat ≤ 12) :
    feiertage.contains dt.ddmm = true ↔
      (dt.tag = 1 ∧ dt.monat = 1) ∨ (dt.tag = 25 ∧ dt.monat = 12) := by
  unfold Datum.ddmm
  generalize dt.tag = t at *
  generalize dt.monat = m at *
  interval_cases t <;> interval_cases m <;> decide

/-- In a zone whose clock is not behind its standard clock, on a valid record
whose fields are a date that exists, `IsBoersentag` is true exactly on Monday
to Friday outside 1 January and 25 December. -/
theorem isBoersentag_of_existing (zone : TimeZone) (hz : zone.ClockNotBehind) (dt : Datum)
    (hv : dt.valid = true) (h1 : 1 ≤ dt.monat) (h2 : dt.monat ≤ 12) (h3 : 1 ≤ dt.tag)
    (h4 : dt.tag ≤ monthLength dt.jahr dt.monat) :
    dt.IsBoersentag zone = true ↔
      (1 ≤ weekday dt.jahr dt.monat dt.tag ∧ weekday dt.jahr dt.monat dt.tag ≤ 5
        ∧ ¬ (dt.tag = 1 ∧ dt.monat = 1) ∧ ¬ (dt.tag = 25 ∧ dt.monat = 12)) := by
  have hb := monthLength_bounds dt.jahr dt.monat
  have hf := ddmm_feiertag_iff dt h3 (by omega) h1 h2
  have hw : 0 ≤ weekday dt.jahr dt.monat dt.tag ∧ weekday dt.jahr dt.monat dt.tag ≤ 6 := by
    unfold weekday; omega
  have hwe : dt.IsWeekend zone = true ↔
      (weekday dt.jahr dt.monat dt.tag = 0 ∨ weekday dt.jahr dt.monat dt.tag = 6) := by
    simp only [Datum.IsWeekend, mktime_of_existing zone hz dt.jahr dt.monat dt.tag 0 h1 h2 h3 h4,
      Bool.or_eq_true, decide_eq_true_eq]
  unfold Datum.IsBoersentag
  simp only [hv, Bool.not_true, Bool.false_eq_true, if_false]
  by_cases hwk : dt.IsWeekend zone = true
  · simp only [hwk, if_true, Bool.false_eq_true, false_iff]
    have := hwe.mp hwk
    omega
  · have hnw := (not_congr hwe).mp hwk
    have hwf : dt.IsWeekend zone = false := by simpa using hwk
    rw [hwf]
    simp only [Bool.false_eq_true, if_false, Bool.not_eq_true']
    rw [← Bool.not_eq_true, hf]
    constructor
    · intro h
      refine ⟨by omega, by omega, fun hc => h (Or.inl hc), fun hc => h (Or.inr hc)⟩
    · rintro ⟨_, _, ha, hb⟩ (hc | hc)
      · exact ha hc
      · exact hb hc

/-- In a zone whose clock is not behind its standard clock, after `SetDatum`
on a string that denotes an existing calendar date, `IsBoersentag` is true
exactly on Monday to Friday outside 1 January and 25 December. -/
theorem setDatum_isBoersentag (zone : TimeZone) (hz : zone.ClockNotBehind) (d0 : Datum)
    (s : String) (h : denotesCalendarDate s = true) :
    (d0.SetDatum s).IsBoersentag zone = true ↔
      (1 ≤ weekday (dateFields s).1 (dateFields s).2.1 (dateFields s).2.2
        ∧ weekday (dateFields s).1 (dateFields s).2.1 (dateFields s).2.2 ≤ 5
        ∧ ¬ ((dateFields s).2.2 = 1 ∧ (dateFields s).2.1 = 1)
        ∧ ¬ ((dateFields s).2.2 = 25 ∧ (dateFields s).2.1 = 12)) := by
  simp only [denotesCalendarDate, Bool.and_eq_true, decide_eq_true_eq] at h
  obtain ⟨⟨⟨⟨h8, h1⟩, h2⟩, h3⟩, h4⟩ := h
  rw [setDatum_of_eight_digits d0 s h8]
  exact isBoersentag_of_existing zone hz _ rfl h1 h2 h3 h4

/-- C31 (failing input): the strings `20250403`, the date of the test
`ValidDateFormat`, and `20250106` denote existing dates with a year from 1900
on, and under UTC `CheckDatum` returns 0 for them; in a zone whose clock is
one hour behind its standard clock `CheckDatum` returns 1 for both, because
`mktime` moves midnight to 23:00 of the day before and the day of the month
no longer agrees. -/
theorem checkDatum_rejects_existing_date :
    denotesExistingDate "20250403" = true
    ∧ ((Datum.new sampleNow).SetDatum "20250403").CheckDatum TimeZone.utc = 0
    ∧ ((Datum.new sampleNow).SetDatum "20250403").CheckDatum TimeZone.hourBehind = 1
    ∧ denotesExistingDate "20250106" = true
    ∧ ((Datum.new sampleNow).SetDatum "20250106").CheckDatum TimeZone.utc = 0
    ∧ ((Datum.new sampleNow).SetDatum "20250106").CheckDatum TimeZone.hourBehind = 1 := by
  have hs1 : (Datum.new sampleNow).SetDatum "20250403"
      = { tag := 3, monat := 4, jahr := 2025, format := 1, valid := true } := by decide
  have hs2 : (Datum.new sampleNow).SetDatum "20250106"
      = { tag := 6, monat := 1, jahr := 2025, format := 1, valid := true } := by decide
  refine ⟨by decide, (setDatum_checkDatum _ utc_clockNotBehind _ _).mpr (by decide), ?_,
    by decide, (setDatum_checkDatum _ utc_clockNotBehind _ _).mpr (by decide), ?_⟩
  · rw [hs1]
    exact checkDatum_hourBehind _ (by decide) (by decide) (by decide) (by decide)
  · rw [hs2]
    exact checkDatum_hourBehind _ (by decide) (by decide) (by decide) (by decide)

/-- C32 (failing input): the string `20250106` denotes Monday 6 January 2025,
which is no holiday, and under UTC `IsBoersentag` returns true for it; in a
zone whose clock is one hour behind its standard clock `IsBoersentag` returns
false, because `IsWeekend` judges Sunday 5 January, and for Saturday 4 January
2025 it returns true, because `IsWeekend` judges Friday 3 January. -/
theorem isBoersentag_wrong_day_of_week :
    denotesCalendarDate "20250106" = true
    ∧ weekday 2025 1 6 = 1
    ∧ ((Datum.new sampleNow).SetDatum "20250106").IsBoersentag TimeZone.utc = true
    ∧ ((Datum.new sampleNow).SetDatum "20250106").IsBoersentag TimeZone.hourBehind = false
    ∧ denotesCalendarDate "20250104" = true
    ∧ weekday 2025 1 4 = 6
    ∧ ((Datum.new sampleNow).SetDatum "20250104").IsBoersentag TimeZone.utc = false
    ∧ ((Datum.new sampleNow).SetDatum "20250104").IsBoersentag TimeZone.hourBehind = true := by
  have hs1 : (Datum.new sampleNow).SetDatum "20250106"
      = { tag := 6, monat := 1, jahr := 2025, format := 1, valid := true } := by decide
  have hs2 : (Datum.new sampleNow).SetDatum "20250104"
      = { tag := 4, monat := 1, jahr := 2025, format := 1, valid := true } := by decide
  have hw1 := isWeekend_hourBehind
    { tag := 6, monat := 1, jahr := 2025, format := 1, valid := true }
    (by decide) (by decide) (by decide) (by decide)
  have hw2 := isWeekend_hourBehind
    { tag := 4, monat := 1, jahr := 2025, format := 1, valid := true }
    (by decide) (by decide) (by decide) (by decide)
  refine ⟨by decide, by decide,
    (setDatum_isBoersentag _ utc_clockNotBehind _ _ (by decide)).mpr (by decide), ?_,
    by decide, by decide, ?_, ?_⟩
  · rw [hs1]
    simp only [Datum.IsBoersentag, hw1]
    decide
  · rw [← Bool.not_eq_true]
    intro hc
    exact absurd ((setDatum_isBoersentag _ utc_clockNotBehind _ _ (by decide)).mp hc)
      (by decide)
  · rw [hs2]
    simp only [Datum.IsBoersentag, hw2]
    decide

/-- C38 (counterexample): under UTC, after `SetDatum("20250231")` the method
`CheckDatum` returns a non-zero value and `IsBoersentag` returns true:
`mktime` turns 31 February 2025 into Monday 3 March 2025. -/
theorem february_31_is_trading_day :
    ((Datum.new sampleNow).SetDatum "20250231").CheckDatum TimeZone.utc ≠ 0
    ∧ ((Datum.new sampleNow).SetDatum "20250231").IsBoersentag TimeZone.utc = true := by
  have hs : (Datum.new sampleNow).SetDatum "20250231"
      = { tag := 31, monat := 2, jahr := 2025, format := 1, valid := true } := by decide
  have hm : (mktime TimeZone.utc
      { tm_mday := 31, tm_mon := 2 - 1, tm_year := 2025 - 1900, tm_wday := 0 }).1
      = { tm_mday := 3, tm_mon := 2, tm_year := 125, tm_wday := 1 } := by
    have e1 : carryDay 2025 2 31 = (2025, 3, 3) := by
      rw [carryDay_over 2025 2 31 (by decide) (by decide)]
      exact carryDay_in_range 2025 3 3 (by decide) (by decide)
    have e2 : carryDay 2025 3 (3 + 0 / 86400) = (2025, 3, 3) :=
      carryDay_in_range 2025 3 3 (by decide) (by decide)
    have e0 : ((2025 : Int) - 1900 + 1900 + (2 - 1) / 12, ((2 : Int) - 1) % 12 + 1) = (2025, 2) := by
      decide
    simp only [mktime, (Prod.mk.inj e0).1, (Prod.mk.inj e0).2, e1, TimeZone.utc, e2]
    decide
  refine ⟨fun h => absurd ((setDatum_checkDatum _ utc_clockNotBehind _ _).mp h) (by decide), ?_⟩
  rw [hs]
  simp only [Datum.IsBoersentag, Datum.IsWeekend, hm]
  decide

/-- C38 (amended): in every time zone, for every string `s` that does not
consist of exactly eight decimal digits, after `SetDatum(s)` the method
`CheckDatum` returns a non-zero value and `IsBoersentag` returns false. -/
theorem rejected_string_never_trading_day (zone : TimeZone) (d0 : Datum) (s : String)
    (h : isEightDigits s = false) :
    (d0.SetDatum s).CheckDatum zone ≠ 0 ∧ (d0.SetDatum s).IsBoersentag zone = false := by
  rw [setDatum_of_other d0 s h]
  exact ⟨by simp [Datum.CheckDatum], by simp [Datum.IsBoersentag]⟩

/-- Witness of C38 (amended): the string `BADDATE`. -/
theorem rejected_string_never_trading_day_witness :
    isEightDigits "BADDATE" = false
    ∧ ((Datum.new sampleNow).SetDatum "BADDATE").CheckDatum TimeZone.utc ≠ 0
    ∧ ((Datum.new sampleNow).SetDatum "BADDATE").IsBoersentag TimeZone.utc = false :=
  ⟨by decide,
    rejected_string_never_trading_day TimeZone.utc (Datum.new sampleNow) "BADDATE" (by decide)⟩

end TradingPair

namespace Banking

/-! ### Balance invariant -/

/-- A deposit keeps the interest rate and leaves a non-negative balance. -/
theorem deposit_keeps_nonneg (a : BankAccount) (amount : ℚ) (description now : String)
    (h : 0 ≤ a.interestRate ∧ 0 ≤ a.balance) :
    0 ≤ (a.deposit amount description now).1.interestRate
      ∧ 0 ≤ (a.deposit amount description now).1.balance := by
  unfold BankAccount.deposit
  split_ifs with h0
  · exact h
  · simp only [BankAccount.logTransaction]
    push_neg at h0
    exact ⟨h.1, by linarith [h.2]⟩

/-- A withdrawal keeps the interest rate and leaves a non-negative balance. -/
theorem withdraw_keeps_nonneg (a : BankAccount) (amount : ℚ) (description now : String)
    (h : 0 ≤ a.interestRate ∧ 0 ≤ a.balance) :
    0 ≤ (a.withdraw amount description now).1.interestRate
      ∧ 0 ≤ (a.withdraw amount description now).1.balance := by
  unfold BankAccount.withdraw
  split_ifs with h0 h1
  · exact h
  · exact h
  · simp only [BankAccount.logTransaction]
    push_neg at h1
    exact ⟨h.1, by linarith⟩

/-- Monthly interest at a non-negative rate leaves a non-negative balance. -/
theorem applyMonthlyInterest_keeps_nonneg (a : BankAccount) (now : String)
    (h : 0 ≤ a.interestRate ∧ 0 ≤ a.balance) :
    0 ≤ (a.applyMonthlyInterest now).interestRate
      ∧ 0 ≤ (a.applyMonthlyInterest now).balance := by
  simp only [BankAccount.applyMonthlyInterest, BankAccount.logTransaction]
  refine ⟨h.1, ?_⟩
  have : 0 ≤ a.balance * (a.interestRate / 100.0) / 12.0 := by
    apply div_nonneg _ (by norm_num)
    exact mul_nonneg h.2 (div_nonneg h.1 (by norm_num))
  linarith [h.2]

/-- Replacing the object at one position by an object that has a non-negative
rate and balance whenever the replaced one has keeps the property at every
position. -/
theorem set_keeps_nonneg (heap : List BankAccount) (i j : Nat) (a b : BankAccount)
    (hget : heap[j]? = some a)
    (hb : (0 ≤ a.interestRate ∧ 0 ≤ a.balance) → (0 ≤ b.interestRate ∧ 0 ≤ b.balance))
    (hP : ∃ x, heap[i]? = some x ∧ 0 ≤ x.interestRate ∧ 0 ≤ x.balance) :
    ∃ x, (heap.set j b)[i]? = some x ∧ 0 ≤ x.interestRate ∧ 0 ≤ x.balance := by
  obtain ⟨x, hx, hgood⟩ := hP
  by_cases hji : j = i
  · subst hji
    rw [hget] at hx
    cases hx
    have hlt : j < heap.length := by
      by_contra hge
      rw [List.getElem?_eq_none (by omega)] at hget
      cases hget
    exact ⟨b, by simp [List.getElem?_set, hlt], hb hgood⟩
  · exact ⟨x, by rw [List.getElem?_set_ne hji]; exact hx, hgood⟩

/-- A transfer keeps a non-negative rate and balance at every position. -/
theorem transfer_keeps_nonneg (heap : List BankAccount) (i self toAccount : Nat) (amount : ℚ)
    (now1 now2 : String)
    (hP : ∃ x, heap[i]? = some x ∧ 0 ≤ x.interestRate ∧ 0 ≤ x.balance) :
    ∃ x, (transfer heap self toAccount amount now1 now2).1[i]? = some x
      ∧ 0 ≤ x.interestRate ∧ 0 ≤ x.balance := by
  unfold transfer
  split
  · rename_i sender receiver hs hr
    split_ifs with h0 h1
    · exact hP
    · exact hP
    · have hw := withdraw_keeps_nonneg sender amount
        ("Transfer to account " ++ toString receiver.accountNumber) now1
      have hP1 := set_keeps_nonneg heap i self sender
        (sender.withdraw amount
          ("Transfer to account " ++ toString receiver.accountNumber) now1).1 hs hw hP
      split
      · rename_i sender1 e heq
        rw [heq] at hP1
        exact hP1
      · rename_i sender1 heq
        rw [heq] at hP1
        simp only []
        split
        · rename_i receiver1 hr1
          exact set_keeps_nonneg _ i toAccount receiver1 _ hr1
            (deposit_keeps_nonneg receiver1 amount _ now2) hP1
        · exact hP1
  · exact hP

/-- One call keeps a non-negative rate and balance at every position. -/
theorem run_keeps_nonneg (heap : List BankAccount) (i : Nat) (c : Call)
    (hP : ∃ x, heap[i]? = some x ∧ 0 ≤ x.interestRate ∧ 0 ≤ x.balance) :
    ∃ x, (c.run heap)[i]? = some x ∧ 0 ≤ x.interestRate ∧ 0 ≤ x.balance := by
  cases c with
  | deposit account amount description now =>
    simp only [Call.run]
    split
    · rename_i a ha
      exact set_keeps_nonneg heap i account a _ ha
        (deposit_keeps_nonneg a amount description now) hP
    · exact hP
  | withdraw account amount description now =>
    simp only [Call.run]
    split
    · rename_i a ha
      exact set_keeps_nonneg heap i account a _ ha
        (withdraw_keeps_nonneg a amount description now) hP
    · exact hP
  | transfer account toAccount amount now1 now2 =>
    exact transfer_keeps_nonneg heap i account toAccount amount now1 now2 hP
  | applyMonthlyInterest account now =>
    simp only [Call.run]
    split
    · rename_i a ha
      exact set_keeps_nonneg heap i account a _ ha
        (applyMonthlyInterest_keeps_nonneg a now) hP
    · exact hP

/-- A sequence of calls keeps a non-negative rate and balance at every
position. -/
theorem runCalls_keeps_nonneg (calls : List Call) (heap : List BankAccount) (i : Nat)
    (hP : ∃ x, heap[i]? = some x ∧ 0 ≤ x.interestRate ∧ 0 ≤ x.balance) :
    ∃ x, (runCalls heap calls)[i]? = some x ∧ 0 ≤ x.interestRate ∧ 0 ≤ x.balance := by
  induction calls generalizing heap with
  | nil => exact hP
  | cons c rest ih =>
    simp only [runCalls, List.foldl_cons]
    exact ih (c.run heap) (run_keeps_nonneg heap i c hP)

/-- The constructor succeeds on a non-negative initial deposit and gives the
account the deposit as balance and the rate as interest rate. -/
theorem new_of_nonneg (accNum : Int) (holder : String) (initialDeposit rate : ℚ)
    (now : String) (hdep : 0 ≤ initialDeposit) :
    ∃ a, BankAccount.new accNum holder initialDeposit rate now = .ok a
      ∧ a.balance = initialDeposit ∧ a.interestRate = rate := by
  unfold BankAccount.new
  simp only [not_lt.mpr hdep, if_false]
  by_cases hpos : initialDeposit > 0
  · simp only [hpos, if_true, BankAccount.deposit, not_le.mpr hpos, if_false,
      BankAccount.logTransaction]
    exact ⟨_, rfl, by norm_num, rfl⟩
  · simp only [hpos, if_false]
    refine ⟨_, rfl, ?_, rfl⟩
    have : initialDeposit = 0 := le_antisymm (not_lt.mp hpos) hdep
    rw [this]; norm_num

/-- C40: the constructor of `BankAccount` succeeds on a non-negative initial
deposit, and for a non-negative interest rate the constructed account, held
at any position among the objects of the program, has a balance of at least
zero after any sequence of `deposit`, `withdraw`, `transfer` and
`applyMonthlyInterest` calls on the objects, whether a call throws or not. -/
theorem balance_never_negative (accNum : Int) (holder : String) (initialDeposit rate : ℚ)
    (now : String) (hdep : 0 ≤ initialDeposit) (hrate : 0 ≤ rate) :
    ∃ a, BankAccount.new accNum holder initialDeposit rate now = .ok a
      ∧ ∀ (heap : List BankAccount) (i : Nat) (calls : List Call), heap[i]? = some a →
        ∃ b, (runCalls heap calls)[i]? = some b ∧ 0 ≤ b.balance := by
  obtain ⟨a, ha, hbal, hr⟩ := new_of_nonneg accNum holder initialDeposit rate now hdep
  refine ⟨a, ha, ?_⟩
  intro heap i calls hi
  obtain ⟨b, hb, _, hb0⟩ := runCalls_keeps_nonneg calls heap i
    ⟨a, hi, by rw [hr]; exact hrate, by rw [hbal]; exact hdep⟩
  exact ⟨b, hb, hb0⟩

/-- Witness of C40: the first account that `main` creates. -/
theorem balance_never_negative_witness :
    (0 : ℚ) ≤ 5000.0 ∧ (0 : ℚ) ≤ 1.2 ∧
    ∃ a, BankAccount.new 1000 "Alice Johnson" 5000.0 1.2 "t0" = .ok a
      ∧ ∀ (heap : List BankAccount) (i : Nat) (calls : List Call), heap[i]? = some a →
        ∃ b, (runCalls heap calls)[i]? = some b ∧ 0 ≤ b.balance :=
  ⟨by norm_num, by norm_num,
    balance_never_negative 1000 "Alice Johnson" 5000.0 1.2 "t0" (by norm_num) (by norm_num)⟩

/-- The calls of `main` on the two accounts it creates leave the balances
4504.5 and 4503.75. -/
theorem mainCalls_balances (a b : BankAccount)
    (ha : BankAccount.new 1000 "Alice Johnson" 5000.0 1.2 "t0" = .ok a)
    (hb : BankAccount.new 1001 "Bob Smith" 3000.0 1.0 "t0" = .ok b) :
    (runCalls [a, b] mainCalls).map (fun x => x.balance) = [4504.5, 4503.75] := by
  norm_num [BankAccount.new, BankAccount.deposit, BankAccount.logTransaction] at ha hb
  subst ha hb
  simp [runCalls, mainCalls, Call.run, transfer, BankAccount.new, BankAccount.deposit,
    BankAccount.withdraw, BankAccount.applyMonthlyInterest, BankAccount.logTransaction]
  norm_num

end Banking
